import Mathlib

/-!
# Detection overlap (`evaluation/DetectionOverlap.cpp`)

A shallow embedding of `DetectionOverlap::getCenterPoints`,
`DetectionOverlap::getOverlaps` and `DetectionOverlap::updateOutputs`.

Modelling conventions:

* `size_t` labels and `unsigned int` pixel counters are natural numbers; the
  counters count pixels of one image and are not reduced modulo `2^32`.
* `float` / `double` values are rationals and every operation on them is exact:
  the coordinate sums of line 251, the division of line 258, the score shift
  of line 92 and the conversions and quotients of lines 211-217 are not rounded
  to single precision.  Statements about centres, scores and measures are
  therefore statements in exact arithmetic.  The library function `sqrt` is a
  parameter `sqrt : ℚ → ℚ` of every definition that depends on it.
* `std::set<K>` is a list kept strictly increasing, `std::map<K, V>` is a list
  of key/value pairs kept strictly increasing in the key; `foreach` over a set
  is a left fold over that list.
* Reading `m[k]` yields the stored value or the value-initialised default; the
  entry that `operator[]` inserts for an absent key is not recorded, since no
  later code of `updateOutputs` observes it.
* The two raster loops `for y < height, for x < width` are nested left folds
  over `List.range`.
* The solver (`LinearSolver`) is a parameter: a function from the objective and
  the constraints to a solution vector, or a failure.
-/

namespace Ted

/-! ## Containers -/

/-- Strict key order used by `std::set` and `std::map` (`std::less`). -/
class KeyOrder (α : Type) where
  /-- The comparison `a < b`. -/
  lt : α → α → Bool

instance instKeyOrderNat : KeyOrder Nat where
  lt a b := decide (a < b)

/-- The order of `std::pair<size_t, size_t>`: lexicographic. -/
instance instKeyOrderPair : KeyOrder (Nat × Nat) where
  lt p q := decide (p.1 < q.1) || (decide (p.1 = q.1) && decide (p.2 < q.2))

/-- The method `std::set::insert`: the set keeps its elements increasing and
holds no element twice. -/
def setInsert {α : Type} [DecidableEq α] [KeyOrder α] (a : α) : List α → List α
  | [] => [a]
  | b :: t =>
    if a = b then b :: t
    else if KeyOrder.lt a b then a :: b :: t
    else b :: setInsert a t

/-- The method `std::map::find`, as an optional value. -/
def mapFind {α β : Type} [DecidableEq α] (m : List (α × β)) (k : α) : Option β :=
  match m with
  | [] => none
  | (k', v) :: t => if k = k' then some v else mapFind t k

/-- The method `std::map::count`: 1 when the key is present, else 0. -/
def mapCount {α β : Type} [DecidableEq α] (m : List (α × β)) (k : α) : Nat :=
  if (mapFind m k).isSome then 1 else 0

/-- Reading `m[k]`: the stored value, or the value-initialised default `d`
when the key is absent. -/
def mapGet {α β : Type} [DecidableEq α] (m : List (α × β)) (k : α) (d : β) : β :=
  (mapFind m k).getD d

/-- The assignment `m[k] = v`: replaces the value of an existing key, inserts
the key in order otherwise. -/
def mapSet {α β : Type} [DecidableEq α] [KeyOrder α] (m : List (α × β)) (k : α) (v : β) :
    List (α × β) :=
  match m with
  | [] => [(k, v)]
  | (k', v') :: t =>
    if k = k' then (k, v) :: t
    else if KeyOrder.lt k k' then (k, v) :: (k', v') :: t
    else (k', v') :: mapSet t k v

/-- The laws of a strict total key order. -/
class LawfulKeyOrder (α : Type) [KeyOrder α] : Prop where
  /-- No key is below itself. -/
  irrefl : ∀ a : α, KeyOrder.lt a a = false
  /-- The order is transitive. -/
  trans : ∀ a b c : α, KeyOrder.lt a b = true → KeyOrder.lt b c = true → KeyOrder.lt a c = true
  /-- Two different keys are comparable. -/
  total : ∀ a b : α, a ≠ b → KeyOrder.lt a b = false → KeyOrder.lt b a = true

instance instLawfulKeyOrderNat : LawfulKeyOrder Nat where
  irrefl a := by simp [KeyOrder.lt]
  trans a b c := by simp only [KeyOrder.lt, decide_eq_true_eq]; omega
  total a b := by simp only [KeyOrder.lt, decide_eq_true_eq, decide_eq_false_iff_not]; omega

instance instLawfulKeyOrderPair : LawfulKeyOrder (Nat × Nat) where
  irrefl a := by simp [KeyOrder.lt]
  trans a b c := by
    simp only [KeyOrder.lt, Bool.or_eq_true, Bool.and_eq_true, decide_eq_true_eq]
    omega
  total a b := by
    obtain ⟨a1, a2⟩ := a
    obtain ⟨b1, b2⟩ := b
    simp only [KeyOrder.lt, Bool.or_eq_true, Bool.and_eq_true, decide_eq_true_eq,
      Bool.or_eq_false_iff, Bool.and_eq_false_iff, decide_eq_false_iff_not, ne_eq, Prod.mk.injEq]
    omega

/-- A list is strictly increasing in the key order: the representation
invariant of `std::set`. -/
def StrictSorted {α : Type} [KeyOrder α] (s : List α) : Prop :=
  s.Pairwise (fun a b => KeyOrder.lt a b = true)

/-! ## Images and points -/

/-- A label image: `width()`, `height()` and the pixel access `image(x, y)`. -/
structure Image where
  /-- Number of columns. -/
  width : Nat
  /-- Number of rows. -/
  height : Nat
  /-- The label at column `x`, row `y`. -/
  pixel : Nat → Nat → Nat

/-- An image given by its rows (row `y`, column `x`); the width is the length
of the first row and missing entries read as background. -/
def Image.ofRows (rows : List (List Nat)) : Image where
  width := (rows.headD []).length
  height := rows.length
  pixel x y := (rows.getD y []).getD x 0

/-- The type `util::point<float>`. -/
structure Point where
  /-- Horizontal coordinate. -/
  x : ℚ
  /-- Vertical coordinate. -/
  y : ℚ
deriving DecidableEq

/-- The value-initialised point. -/
def Point.zero : Point := ⟨0, 0⟩

/-- The operator `+=` of points. -/
def Point.add (p q : Point) : Point := ⟨p.x + q.x, p.y + q.y⟩

/-- The operator `/=` of a point by a scalar. -/
def Point.divScalar (p : Point) (s : ℚ) : Point := ⟨p.x / s, p.y / s⟩

/-- The raster scan `for (y < height) for (x < width) body(x, y)`, threading
the state through the body. -/
def rasterScan {σ : Type} (width height : Nat) (body : σ → Nat → Nat → σ) (init : σ) : σ :=
  (List.range height).foldl
    (fun st y => (List.range width).foldl (fun st x => body st x y) st) init

/-- The coordinates visited by the raster scan, in order. -/
def pixels (width height : Nat) : List (Nat × Nat) :=
  (List.range height).flatMap (fun y => (List.range width).map (fun x => (x, y)))

/-! ## `getCenterPoints` (lines 228-259) -/

/-- The three tables written by `getCenterPoints`. -/
structure CenterTables where
  /-- Table `centers`. -/
  centers : List (Nat × Point)
  /-- Table `labels`. -/
  labels : List Nat
  /-- Table `sizes`. -/
  sizes : List (Nat × Nat)

/-- The body of the scan of `getCenterPoints` at pixel `(x, y)` (lines 238-254).
The sum `centers[label] += util::point<float>(x, y)` is taken exactly. -/
def centerStep (image : Image) (st : CenterTables) (x y : Nat) : CenterTables :=
  let label := image.pixel x y
  if label = 0 then st
  else if mapCount st.sizes label = 0 then
    { centers := mapSet st.centers label ⟨(x : ℚ), (y : ℚ)⟩
      labels := setInsert label st.labels
      sizes := mapSet st.sizes label 1 }
  else
    { centers := mapSet st.centers label
        ((mapGet st.centers label Point.zero).add ⟨(x : ℚ), (y : ℚ)⟩)
      labels := setInsert label st.labels
      sizes := mapSet st.sizes label (mapGet st.sizes label 0 + 1) }

/-- The body of the final loop of `getCenterPoints` (line 258):
`centers[label] /= sizes[label]`. -/
def normalizeStep (s : CenterTables) (label : Nat) : CenterTables :=
  let size : ℚ := ((mapGet s.sizes label 0 : Nat) : ℚ)
  { centers := mapSet s.centers label ((mapGet s.centers label Point.zero).divScalar size)
    labels := s.labels
    sizes := s.sizes }

/-- The final loop of `getCenterPoints` (lines 257-258), over every label. -/
def normalizeCenters (st : CenterTables) : CenterTables :=
  st.labels.foldl normalizeStep st

/-- The function `getCenterPoints(image, centers, labels, sizes)`. -/
def getCenterPoints (image : Image) (init : CenterTables) : CenterTables :=
  normalizeCenters (rasterScan image.width image.height (centerStep image) init)

/-! ## `getOverlaps` (lines 261-293) -/

/-- The four tables written by `getOverlaps`. -/
structure OverlapTables where
  /-- Table `overlapPairs`. -/
  overlapPairs : List (Nat × Nat)
  /-- Table `overlapAreas`. -/
  overlapAreas : List ((Nat × Nat) × Nat)
  /-- Table `atob`. -/
  atob : List (Nat × List Nat)
  /-- Table `btoa`. -/
  btoa : List (Nat × List Nat)

/-- The body of the scan of `getOverlaps` at pixel `(x, y)` (lines 278-291). -/
def overlapStep (a b : Image) (st : OverlapTables) (x y : Nat) : OverlapTables :=
  let labelA := a.pixel x y
  let labelB := b.pixel x y
  if labelA = 0 ∨ labelB = 0 then st
  else
    let p : Nat × Nat := (labelA, labelB)
    { overlapPairs := setInsert p st.overlapPairs
      overlapAreas :=
        if mapCount st.overlapAreas p ≠ 0 then
          mapSet st.overlapAreas p (mapGet st.overlapAreas p 0 + 1)
        else mapSet st.overlapAreas p 1
      atob := mapSet st.atob labelA (setInsert labelB (mapGet st.atob labelA []))
      btoa := mapSet st.btoa labelB (setInsert labelA (mapGet st.btoa labelB [])) }

/-- The function `getOverlaps(a, b, ...)`: the four outputs are cleared, then
filled by a scan over the dimensions of `a`. -/
def getOverlaps (a b : Image) (_previous : OverlapTables) : OverlapTables :=
  rasterScan a.width a.height (overlapStep a b) ⟨[], [], [], []⟩

/-! ## Specification vocabulary -/

/-- Pixel `p` carries ground-truth label `q.1` in `a` and reconstruction label
`q.2` in `b`, both not background. -/
def overlapHit (a b : Image) (p q : Nat × Nat) : Bool :=
  decide (a.pixel p.1 p.2 = q.1 ∧ b.pixel p.1 p.2 = q.2 ∧ q.1 ≠ 0 ∧ q.2 ≠ 0)

/-- Pixel `p` of `image` carries the non-background label `l`. -/
def labelHit (image : Image) (p : Nat × Nat) (l : Nat) : Bool :=
  decide (image.pixel p.1 p.2 = l ∧ l ≠ 0)

/-- The number of pixels of `image` that carry the non-background label `l`. -/
def labelCount (image : Image) (l : Nat) : Nat :=
  (pixels image.width image.height).countP (fun p => labelHit image p l)

/-- The number of pixels that carry the pair `q`. -/
def overlapCount (a b : Image) (q : Nat × Nat) : Nat :=
  (pixels a.width a.height).countP (fun p => overlapHit a b p q)

/-- The representation invariant of the tables of `getOverlaps`: the pair set
is increasing, and the two adjacency tables list, in increasing order, exactly
the partners that occur in the pair set. -/
def OverlapInv (st : OverlapTables) : Prop :=
  StrictSorted st.overlapPairs ∧
  (∀ g r, r ∈ mapGet st.atob g [] ↔ (g, r) ∈ st.overlapPairs) ∧
  (∀ g r, g ∈ mapGet st.btoa r [] ↔ (g, r) ∈ st.overlapPairs) ∧
  (∀ g, StrictSorted (mapGet st.atob g [])) ∧
  (∀ r, StrictSorted (mapGet st.btoa r []))

/-! ## The linear program handed to the solver -/

/-- The relation of a linear constraint. -/
inductive Relation where
  | LessEqual
  | Equal
  | GreaterEqual
deriving DecidableEq

/-- Modelled from the spec: the class `LinearConstraint` of
`inference/LinearConstraints.h`, which is not part of the sources: a table of
coefficients indexed by variable number, a relation and a right-hand side. -/
structure LinearConstraint where
  /-- Coefficient of each variable that was given one. -/
  coefficients : List (Nat × ℚ)
  /-- The relation between the weighted sum and the value. -/
  relation : Relation
  /-- The right-hand side. -/
  value : ℚ

/-- A freshly constructed constraint. -/
def LinearConstraint.empty : LinearConstraint := ⟨[], Relation.LessEqual, 0⟩

/-- The method `setCoefficient(varNum, coef)` of a constraint. -/
def LinearConstraint.setCoefficient (c : LinearConstraint) (varNum : Nat) (coef : ℚ) :
    LinearConstraint :=
  { c with coefficients := mapSet c.coefficients varNum coef }

/-- The method `setRelation(relation)`. -/
def LinearConstraint.setRelation (c : LinearConstraint) (r : Relation) : LinearConstraint :=
  { c with relation := r }

/-- The method `setValue(value)`. -/
def LinearConstraint.setValue (c : LinearConstraint) (v : ℚ) : LinearConstraint :=
  { c with value := v }

/-- A solution vector: the value of every variable number. -/
abbrev Solution := Nat → ℚ

/-- The weighted sum on the left of a constraint under a solution. -/
def LinearConstraint.lhs (c : LinearConstraint) (solution : Solution) : ℚ :=
  (c.coefficients.map (fun vc => vc.2 * solution vc.1)).sum

/-- A solution satisfies a constraint. -/
def LinearConstraint.satisfiedBy (c : LinearConstraint) (solution : Solution) : Prop :=
  match c.relation with
  | Relation.LessEqual => c.lhs solution ≤ c.value
  | Relation.Equal => c.lhs solution = c.value
  | Relation.GreaterEqual => c.value ≤ c.lhs solution

instance LinearConstraint.decSatisfiedBy (c : LinearConstraint) (solution : Solution) :
    Decidable (c.satisfiedBy solution) := by
  unfold LinearConstraint.satisfiedBy
  cases c.relation <;> exact inferInstance

/-- Modelled from the spec: the class `LinearObjective` of
`inference/LinearObjective.h`, which is not part of the sources: one
coefficient per variable, all zero after `LinearObjective(size)`. -/
structure LinearObjective where
  /-- Coefficient of variable `i` at position `i`. -/
  coefficients : List ℚ

/-- The constructor `LinearObjective(size)`. -/
def LinearObjective.ofSize (size : Nat) : LinearObjective := ⟨List.replicate size 0⟩

/-- The method `setCoefficient(varNum, coef)` of the objective. -/
def LinearObjective.setCoefficient (o : LinearObjective) (varNum : Nat) (coef : ℚ) :
    LinearObjective :=
  ⟨o.coefficients.set varNum coef⟩

/-- The value of the objective under a solution. -/
def LinearObjective.valueAt (o : LinearObjective) (solution : Solution) : ℚ :=
  ((List.range o.coefficients.length).map
    (fun v => o.coefficients.getD v 0 * solution v)).sum

/-! ## `updateOutputs`: scores, variables, constraints, objective (lines 68-154) -/

/-- The raw matching score of lines 78-83:
`max(0.5, sqrt(pow(dx, 2) + pow(dy, 2)))`. -/
def rawScore (sqrt : ℚ → ℚ) (gtCenter recCenter : Point) : ℚ :=
  max (1 / 2) (sqrt ((gtCenter.x - recCenter.x) ^ 2 + (gtCenter.y - recCenter.y) ^ 2))

/-- The first scoring loop (lines 69-87): the table `matchingScore` and
`maxScore`. -/
def scorePairs (sqrt : ℚ → ℚ) (gtCenters recCenters : List (Nat × Point))
    (overlapPairs : List (Nat × Nat)) : List ((Nat × Nat) × ℚ) × ℚ :=
  overlapPairs.foldl
    (fun st p =>
      let score := rawScore sqrt (mapGet gtCenters p.1 Point.zero)
        (mapGet recCenters p.2 Point.zero)
      (mapSet st.1 p score, max score st.2))
    ([], 0)

/-- The second scoring loop (lines 91-92): `matchingScore[p] -= maxScore*1.1`,
taken exactly. -/
def shiftScores (matchingScore : List ((Nat × Nat) × ℚ)) (maxScore : ℚ)
    (overlapPairs : List (Nat × Nat)) : List ((Nat × Nat) × ℚ) :=
  overlapPairs.foldl
    (fun ms p => mapSet ms p (mapGet ms p 0 - maxScore * (11 / 10)))
    matchingScore

/-- The tables written by the numbering loop. -/
structure VariableTables where
  /-- Table `pairToVariable`. -/
  pairToVariable : List ((Nat × Nat) × Nat)
  /-- Table `variableToPair`. -/
  variableToPair : List (Nat × (Nat × Nat))
  /-- Counter `varNum`. -/
  varNum : Nat

/-- The numbering loop (lines 95-105). -/
def numberPairs (overlapPairs : List (Nat × Nat)) : VariableTables :=
  overlapPairs.foldl
    (fun st p =>
      { pairToVariable := mapSet st.pairToVariable p st.varNum
        variableToPair := mapSet st.variableToPair st.varNum p
        varNum := st.varNum + 1 })
    ⟨[], [], 0⟩

/-- The constraint of one reconstruction label (lines 118-126). -/
def recConstraint (pairToVariable : List ((Nat × Nat) × Nat))
    (recToGtOverlaps : List (Nat × List Nat)) (recLabel : Nat) : LinearConstraint :=
  (((mapGet recToGtOverlaps recLabel []).foldl
    (fun c gtLabel => c.setCoefficient (mapGet pairToVariable (gtLabel, recLabel) 0) 1)
    LinearConstraint.empty).setRelation Relation.LessEqual).setValue 1

/-- The constraint of one ground-truth label (lines 133-141). -/
def gtConstraint (pairToVariable : List ((Nat × Nat) × Nat))
    (gtToRecOverlaps : List (Nat × List Nat)) (gtLabel : Nat) : LinearConstraint :=
  (((mapGet gtToRecOverlaps gtLabel []).foldl
    (fun c recLabel => c.setCoefficient (mapGet pairToVariable (gtLabel, recLabel) 0) 1)
    LinearConstraint.empty).setRelation Relation.LessEqual).setValue 1

/-- The two constraint loops (lines 115-144): one constraint per
reconstruction label, then one per ground-truth label. -/
def buildConstraints (pairToVariable : List ((Nat × Nat) × Nat))
    (gtLabels recLabels : List Nat) (gtToRecOverlaps recToGtOverlaps : List (Nat × List Nat)) :
    List LinearConstraint :=
  let afterRec := recLabels.foldl
    (fun cs recLabel => cs ++ [recConstraint pairToVariable recToGtOverlaps recLabel]) []
  gtLabels.foldl
    (fun cs gtLabel => cs ++ [gtConstraint pairToVariable gtToRecOverlaps gtLabel]) afterRec

/-- The objective loop (lines 147-154). -/
def buildObjective (overlapPairs : List (Nat × Nat))
    (pairToVariable : List ((Nat × Nat) × Nat)) (matchingScore : List ((Nat × Nat) × ℚ)) :
    LinearObjective :=
  overlapPairs.foldl
    (fun o p => o.setCoefficient (mapGet pairToVariable p 0) (mapGet matchingScore p 0))
    (LinearObjective.ofSize overlapPairs.length)

/-- Everything `updateOutputs` computes before it calls the solver
(lines 36-154). -/
structure Problem where
  /-- Tables of `getCenterPoints` on the ground truth. -/
  gtTables : CenterTables
  /-- Tables of `getCenterPoints` on the reconstruction. -/
  recTables : CenterTables
  /-- Tables of `getOverlaps`; `atob` is `gtToRecOverlaps`, `btoa` is
  `recToGtOverlaps`. -/
  overlaps : OverlapTables
  /-- Table `matchingScore` after both scoring loops. -/
  matchingScore : List ((Nat × Nat) × ℚ)
  /-- The value `maxScore`. -/
  maxScore : ℚ
  /-- Tables `pairToVariable` and `variableToPair`. -/
  vars : VariableTables
  /-- The value `constraints`. -/
  constraints : List LinearConstraint
  /-- The value `objective`. -/
  objective : LinearObjective

/-- Lines 36-154 of `updateOutputs` on ground truth `a` and reconstruction `b`. -/
def buildProblem (sqrt : ℚ → ℚ) (a b : Image) : Problem :=
  let gtTables := getCenterPoints a ⟨[], [], []⟩
  let recTables := getCenterPoints b ⟨[], [], []⟩
  let overlaps := getOverlaps a b ⟨[], [], [], []⟩
  let scored := scorePairs sqrt gtTables.centers recTables.centers overlaps.overlapPairs
  let matchingScore := shiftScores scored.1 scored.2 overlaps.overlapPairs
  let vars := numberPairs overlaps.overlapPairs
  { gtTables := gtTables
    recTables := recTables
    overlaps := overlaps
    matchingScore := matchingScore
    maxScore := scored.2
    vars := vars
    constraints := buildConstraints vars.pairToVariable gtTables.labels recTables.labels
      overlaps.atob overlaps.btoa
    objective := buildObjective overlaps.overlapPairs vars.pairToVariable matchingScore }

/-! ## `updateOutputs`: reading the solution and filling the report (lines 168-225) -/

/-- The tables written while the solution is read back. -/
structure MatchTables where
  /-- Table `gtToRecMatches`. -/
  gtToRecMatches : List (Nat × List Nat)
  /-- Table `recToGtMatches`. -/
  recToGtMatches : List (Nat × List Nat)
  /-- Table `matches`. -/
  matchSet : List (Nat × Nat)

/-- The loop over the variables (lines 170-188). -/
def readSolution (numPairs : Nat) (variableToPair : List (Nat × (Nat × Nat)))
    (solution : Solution) : MatchTables :=
  (List.range numPairs).foldl
    (fun st varNum =>
      if solution varNum = 1 then
        let m := mapGet variableToPair varNum (0, 0)
        { gtToRecMatches :=
            mapSet st.gtToRecMatches m.1 (setInsert m.2 (mapGet st.gtToRecMatches m.1 []))
          recToGtMatches :=
            mapSet st.recToGtMatches m.2 (setInsert m.1 (mapGet st.recToGtMatches m.2 []))
          matchSet := setInsert m st.matchSet }
      else st)
    ⟨[], [], []⟩

/-- One entry of the match collection of the report: the pair and its three
measures. -/
structure MatchEntry where
  /-- The matched pair (ground-truth label, reconstruction label). -/
  pair : Nat × Nat
  /-- Measure M1. -/
  m1 : ℚ
  /-- Measure M2. -/
  m2 : ℚ
  /-- The Dice measure. -/
  dice : ℚ
deriving DecidableEq

/-- Modelled from the spec: the class `DetectionOverlapErrors`, which is not
part of the sources: a set of false-negative labels, a set of false-positive
labels and an ordered collection of (ground-truth label, reconstruction label,
M1, M2, Dice) tuples. -/
structure DetectionOverlapErrors where
  /-- The false-negative labels. -/
  falseNegatives : List Nat
  /-- The false-positive labels. -/
  falsePositives : List Nat
  /-- The matches with their measures, in the order they were added. -/
  matchEntries : List MatchEntry
deriving DecidableEq

/-- A freshly constructed report. -/
def DetectionOverlapErrors.empty : DetectionOverlapErrors := ⟨[], [], []⟩

/-- The method `addFalseNegative(label)`. -/
def DetectionOverlapErrors.addFalseNegative (e : DetectionOverlapErrors) (label : Nat) :
    DetectionOverlapErrors :=
  { e with falseNegatives := setInsert label e.falseNegatives }

/-- The method `addFalsePositive(label)`. -/
def DetectionOverlapErrors.addFalsePositive (e : DetectionOverlapErrors) (label : Nat) :
    DetectionOverlapErrors :=
  { e with falsePositives := setInsert label e.falsePositives }

/-- The method `addMatch(pair, m1, m2, dice)`. -/
def DetectionOverlapErrors.addMatch (e : DetectionOverlapErrors) (p : Nat × Nat)
    (m1 m2 dice : ℚ) : DetectionOverlapErrors :=
  { e with matchEntries := e.matchEntries ++ [⟨p, m1, m2, dice⟩] }

/-- The loops over the labels (lines 197-202). -/
def addUnmatched (gtLabels recLabels : List Nat) (m : MatchTables)
    (errors : DetectionOverlapErrors) : DetectionOverlapErrors :=
  let afterGt := gtLabels.foldl
    (fun e gtLabel => if mapCount m.gtToRecMatches gtLabel = 0 then e.addFalseNegative gtLabel
      else e)
    errors
  recLabels.foldl
    (fun e recLabel => if mapCount m.recToGtMatches recLabel = 0 then e.addFalsePositive recLabel
      else e)
    afterGt

/-- The three measures of one match (lines 211-217), taken exactly: the
conversion `float cap = overlapAreas[p]` and the quotients are not rounded. -/
def measures (overlapAreas : List ((Nat × Nat) × Nat)) (gtSizes recSizes : List (Nat × Nat))
    (p : Nat × Nat) : MatchEntry :=
  let cap : ℚ := ((mapGet overlapAreas p 0 : Nat) : ℚ)
  let cup : ℚ := ((mapGet gtSizes p.1 0 + mapGet recSizes p.2 0 - mapGet overlapAreas p 0 : Nat) : ℚ)
  let m1 := (cap / cup) * 100
  let m2 := (cap / ((mapGet gtSizes p.1 0 : Nat) : ℚ)) * 100
  let dice := 2 * cap / ((mapGet gtSizes p.1 0 + mapGet recSizes p.2 0 : Nat) : ℚ)
  ⟨p, m1, m2, dice⟩

/-- The loop over the matches (lines 205-225). -/
def addMatches (overlapAreas : List ((Nat × Nat) × Nat)) (gtSizes recSizes : List (Nat × Nat))
    (accepted : List (Nat × Nat)) (errors : DetectionOverlapErrors) : DetectionOverlapErrors :=
  accepted.foldl
    (fun e p =>
      let t := measures overlapAreas gtSizes recSizes p
      e.addMatch p t.m1 t.m2 t.dice)
    errors

/-- Lines 168-225 of `updateOutputs`: the report `errors` after the solution
has been read back. -/
def interpret (pb : Problem) (solution : Solution) (errors : DetectionOverlapErrors) :
    DetectionOverlapErrors :=
  let m := readSolution pb.overlaps.overlapPairs.length pb.vars.variableToPair solution
  addMatches pb.overlaps.overlapAreas pb.gtTables.sizes pb.recTables.sizes m.matchSet
    (addUnmatched pb.gtTables.labels pb.recTables.labels m errors)

/-! ## The process node -/

/-- The members of a `DetectionOverlap` node: the flag `_headerOnly`, the two
input stacks and the output `_errors` (absent until first created). -/
structure DetectionOverlap where
  /-- Member `_headerOnly`. -/
  headerOnly : Bool
  /-- Input `_stack1`: the images of the ground-truth stack. -/
  stack1 : List Image
  /-- Input `_stack2`: the images of the reconstruction stack. -/
  stack2 : List Image
  /-- Output `_errors`. -/
  errors : Option DetectionOverlapErrors

/-- How a call of `updateOutputs` ends. -/
inductive Outcome where
  | returned
  | usageError
  | solverFailure
deriving DecidableEq

/-- The solver process: from the objective and the constraints (variables
declared binary) to a solution, or a failure. -/
abbrev LinearSolver := LinearObjective → List LinearConstraint → Option Solution

/-- The method `DetectionOverlap::updateOutputs` (lines 22-226): the node after
the call and how the call ended. -/
def updateOutputs (sqrt : ℚ → ℚ) (solver : LinearSolver) (self : DetectionOverlap) :
    DetectionOverlap × Outcome :=
  let errors := self.errors.getD DetectionOverlapErrors.empty
  let self1 := { self with errors := some errors }
  if self.headerOnly then (self1, Outcome.returned)
  else if self.stack1.length ≠ 1 ∨ self.stack2.length ≠ 1 then (self1, Outcome.usageError)
  else
    let a := self.stack1.headD ⟨0, 0, fun _ _ => 0⟩
    let b := self.stack2.headD ⟨0, 0, fun _ _ => 0⟩
    let pb := buildProblem sqrt a b
    match solver pb.objective pb.constraints with
    | none => (self1, Outcome.solverFailure)
    | some solution =>
      ({ self with errors := some (interpret pb solution errors) }, Outcome.returned)

/-- The representation invariant of the tables of `readSolution`: the match
set is increasing and the two match tables have a key exactly for the labels
that occur in the match set. -/
def MatchInv (st : MatchTables) : Prop :=
  StrictSorted st.matchSet ∧
  (∀ g, mapCount st.gtToRecMatches g = 0 ↔ ∀ r, (g, r) ∉ st.matchSet) ∧
  (∀ r, mapCount st.recToGtMatches r = 0 ↔ ∀ g, (g, r) ∉ st.matchSet)

/-- The report after one call of `updateOutputs` on a fresh node (no report
yet, not header-only) whose two stacks hold the single images `a` (ground
truth) and `b` (reconstruction), when the solver answers `solution`. -/
def run (sqrt : ℚ → ℚ) (solution : Solution) (a b : Image) : DetectionOverlapErrors :=
  ((updateOutputs sqrt (fun _ _ => some solution) ⟨false, [a], [b], none⟩).1.errors).getD
    DetectionOverlapErrors.empty

/-- The table `matches` of `updateOutputs` on the images `a` and `b` when the
solver answers `solution`: the accepted matches. -/
def accepted (sqrt : ℚ → ℚ) (solution : Solution) (a b : Image) : List (Nat × Nat) :=
  (readSolution (buildProblem sqrt a b).overlaps.overlapPairs.length
    (buildProblem sqrt a b).vars.variableToPair solution).matchSet

/-- The label `l` is a non-background label of `image`: it is not 0 and some
pixel inside the image carries it. -/
def IsLabel (image : Image) (l : Nat) : Prop :=
  l ≠ 0 ∧ ∃ x y, x < image.width ∧ y < image.height ∧ image.pixel x y = l

/-- The two images have the same width and the same height. -/
def SameSize (a b : Image) : Prop := a.width = b.width ∧ a.height = b.height

/-- The solution gives each of the first `n` variables the value 0 or 1. -/
def IsBinary (n : Nat) (solution : Solution) : Prop :=
  ∀ v, v < n → (solution v = 0 ∨ solution v = 1)

/-- The solution satisfies every constraint of the list. -/
def Feasible (constraints : List LinearConstraint) (solution : Solution) : Prop :=
  ∀ c ∈ constraints, c.satisfiedBy solution

/-- The table `overlapPairs` of `updateOutputs` on the images `a` and `b`: the
candidate pairs, in the order of their variable numbers. -/
def candidatePairs (a b : Image) : List (Nat × Nat) :=
  (getOverlaps a b ⟨[], [], [], []⟩).overlapPairs

/-- The variable number `pairToVariable[q]` of `updateOutputs` on `a` and `b`. -/
def variableOf (a b : Image) (q : Nat × Nat) : Nat :=
  mapGet (numberPairs (candidatePairs a b)).pairToVariable q 0

/-- The set `gtToRecOverlaps[g]` of `updateOutputs` on the images `a` and `b`. -/
def gtToRec (a b : Image) (g : Nat) : List Nat :=
  mapGet (getOverlaps a b ⟨[], [], [], []⟩).atob g []

/-- The set `recToGtOverlaps[r]` of `updateOutputs` on the images `a` and `b`. -/
def recToGt (a b : Image) (r : Nat) : List Nat :=
  mapGet (getOverlaps a b ⟨[], [], [], []⟩).btoa r []

instance IsBinary.decidable (n : Nat) (solution : Solution) : Decidable (IsBinary n solution) := by
  unfold IsBinary
  exact inferInstance

instance Feasible.decidable (constraints : List LinearConstraint) (solution : Solution) :
    Decidable (Feasible constraints solution) := by
  unfold Feasible
  exact inferInstance

/-- A square root that is exact on the squares of rationals (numerator and
denominator are rooted separately); it stands in for `sqrt` on inputs whose
centre distances are rational. -/
def sqrtOnSquares (q : ℚ) : ℚ := (Nat.sqrt q.num.toNat : ℚ) / (Nat.sqrt q.den : ℚ)

/-- A ground-truth image with two regions on one row: label 1 with centre
0.5 and label 2 with centre 3. -/
def exampleGt : Image := Image.ofRows [[1, 1, 2, 2, 2, 0]]

/-- A reconstruction image with two regions on one row: label 5 with centre 1
and label 7 with centre 4. -/
def exampleRec : Image := Image.ofRows [[5, 5, 5, 7, 7, 7]]

/-- A solution that selects variables 0 and 2. -/
def exampleSolution : Solution := fun v => if v = 0 ∨ v = 2 then 1 else 0

/-- The image contains exactly one non-background label, `l`: some pixel
carries `l` and every pixel carries 0 or `l`. -/
def HasSingleLabel (image : Image) (l : Nat) : Prop :=
  IsLabel image l ∧
    ∀ x, x < image.width → ∀ y, y < image.height → (image.pixel x y = 0 ∨ image.pixel x y = l)

/-- A ground-truth image with one region, on the left. -/
def leftRegion : Image := Image.ofRows [[1, 0]]

/-- A reconstruction image with one region, on the right. -/
def rightRegion : Image := Image.ofRows [[0, 2]]

/-- The raw cost of a pair in `updateOutputs` on the images `a` and `b`: the
distance of the two centres computed by `getCenterPoints`, floored at 0.5. -/
def rawCost (sqrt : ℚ → ℚ) (a b : Image) (q : Nat × Nat) : ℚ :=
  rawScore sqrt (mapGet (getCenterPoints a ⟨[], [], []⟩).centers q.1 Point.zero)
    (mapGet (getCenterPoints b ⟨[], [], []⟩).centers q.2 Point.zero)

/-- The final score `matchingScore[q]` of `updateOutputs` on `a` and `b`. -/
def finalScore (sqrt : ℚ → ℚ) (a b : Image) (q : Nat × Nat) : ℚ :=
  mapGet (buildProblem sqrt a b).matchingScore q 0

/-- Modelled from the spec: the contract of the solver as the spec states it
(section 4.5): the solution gives every variable the value 0 or 1, satisfies
all constraints and maximizes the objective among such solutions. -/
def Maximizes (objective : LinearObjective) (constraints : List LinearConstraint)
    (solution : Solution) : Prop :=
  IsBinary objective.coefficients.length solution ∧ Feasible constraints solution ∧
    ∀ other : Solution, IsBinary objective.coefficients.length other →
      Feasible constraints other → objective.valueAt other ≤ objective.valueAt solution

/-- The contract of a solver that minimizes the objective: the solution gives
every variable the value 0 or 1, satisfies all constraints and minimizes the
objective among such solutions. -/
def Minimizes (objective : LinearObjective) (constraints : List LinearConstraint)
    (solution : Solution) : Prop :=
  IsBinary objective.coefficients.length solution ∧ Feasible constraints solution ∧
    ∀ other : Solution, IsBinary objective.coefficients.length other →
      Feasible constraints other → objective.valueAt solution ≤ objective.valueAt other

/-- A one-pixel image with the label 1. -/
def onePixel : Image := Image.ofRows [[1]]

/-- The solution that selects no variable. -/
def zeroSolution : Solution := fun _ => 0

/-- The solution that selects every variable. -/
def oneSolution : Solution := fun _ => 1

/-- A ground-truth image with one region over the whole row (centre 2.5). -/
def wideRegion : Image := Image.ofRows [[1, 1, 1, 1, 1, 1]]

/-- A reconstruction image that splits the row in two regions: label 5 with
centre 0.5 and label 7 with centre 3.5. -/
def splitRegions : Image := Image.ofRows [[5, 5, 7, 7, 7, 7]]

/-- The solution that selects variable 1 only. -/
def secondSolution : Solution := fun v => if v = 1 then 1 else 0

/-- The distance of the two centres of a pair in `updateOutputs` on the images
`a` and `b`, before it is floored at 0.5. -/
def centerDistance (sqrt : ℚ → ℚ) (a b : Image) (q : Nat × Nat) : ℚ :=
  sqrt (((mapGet (getCenterPoints a ⟨[], [], []⟩).centers q.1 Point.zero).x -
      (mapGet (getCenterPoints b ⟨[], [], []⟩).centers q.2 Point.zero).x) ^ 2 +
    ((mapGet (getCenterPoints a ⟨[], [], []⟩).centers q.1 Point.zero).y -
      (mapGet (getCenterPoints b ⟨[], [], []⟩).centers q.2 Point.zero).y) ^ 2)

/-- A ground-truth image with two regions of four pixels on one row. -/
def closeGt : Image := Image.ofRows [[1, 1, 1, 1, 2, 2, 2, 2]]

/-- A reconstruction image: label 5 covers the first region exactly (centre
distance 0), label 7 covers the second region but for one pixel (centre
distance 1/6). -/
def closeRec : Image := Image.ofRows [[5, 5, 5, 5, 7, 7, 0, 7]]

/-- Every pixel of the image is background. -/
def AllBackground (image : Image) : Prop :=
  ∀ x, x < image.width → ∀ y, y < image.height → image.pixel x y = 0

instance AllBackground.decidable (image : Image) : Decidable (AllBackground image) := by
  unfold AllBackground
  exact inferInstance

/-- A 2 x 2 image of background only. -/
def blank : Image := Image.ofRows [[0, 0], [0, 0]]

/-- The coordinates of an image: all `(x, y)` with `x < width`, `y < height`. -/
def coordinates (image : Image) : Finset (Nat × Nat) :=
  Finset.range image.width ×ˢ Finset.range image.height

/-- The key invariant of the two adjacency tables of `getOverlaps`: a label
has an entry exactly when it occurs in a candidate pair. -/
def AdjacencyKeys (st : OverlapTables) : Prop :=
  (∀ g, mapFind st.atob g = none ↔ ∀ r, (g, r) ∉ st.overlapPairs) ∧
  (∀ r, mapFind st.btoa r = none ↔ ∀ g, (g, r) ∉ st.overlapPairs)

/-- The sum of the coordinates, as a point, of the pixels of the list that
carry the non-background label `l`. -/
def coordinateSum (image : Image) (ps : List (Nat × Nat)) (l : Nat) : Point :=
  ⟨((ps.filter (fun p => labelHit image p l)).map (fun p => (p.1 : ℚ))).sum,
    ((ps.filter (fun p => labelHit image p l)).map (fun p => (p.2 : ℚ))).sum⟩

/-- A reconstruction image one pixel wider than `onePixel`. -/
def twoPixels : Image := Image.ofRows [[1, 2]]

/-! # Properties -/

/-! ## Containers -/

theorem mem_setInsert {α : Type} [DecidableEq α] [KeyOrder α] (x a : α) (s : List α) :
    x ∈ setInsert a s ↔ x = a ∨ x ∈ s := by
  induction s with
  | nil => simp [setInsert]
  | cons b t ih =>
    unfold setInsert
    split_ifs with h1 h2
    · subst h1; simp
    · simp
    · simp only [List.mem_cons, ih]; tauto

theorem strictSorted_setInsert {α : Type} [DecidableEq α] [KeyOrder α] [LawfulKeyOrder α]
    (a : α) (s : List α) (h : StrictSorted s) : StrictSorted (setInsert a s) := by
  induction s with
  | nil => simp [setInsert, StrictSorted]
  | cons b t ih =>
    unfold StrictSorted at h ih ⊢
    rw [List.pairwise_cons] at h
    unfold setInsert
    split_ifs with h1 h2
    · exact List.pairwise_cons.2 h
    · refine List.pairwise_cons.2 ⟨?_, List.pairwise_cons.2 h⟩
      intro c hc
      rcases List.mem_cons.1 hc with rfl | hc
      · exact h2
      · exact LawfulKeyOrder.trans _ _ _ h2 (h.1 c hc)
    · refine List.pairwise_cons.2 ⟨?_, ih h.2⟩
      intro c hc
      rcases (mem_setInsert c a t).1 hc with rfl | hc
      · exact LawfulKeyOrder.total _ _ h1 (by simpa using h2)
      · exact h.1 c hc

theorem strictSorted_nil {α : Type} [KeyOrder α] : StrictSorted ([] : List α) :=
  List.Pairwise.nil

theorem StrictSorted.nodup {α : Type} [KeyOrder α] [LawfulKeyOrder α] {s : List α}
    (h : StrictSorted s) : s.Nodup := by
  unfold StrictSorted at h
  refine List.Pairwise.imp ?_ h
  intro a b hab heq
  subst heq
  rw [LawfulKeyOrder.irrefl] at hab
  exact Bool.false_ne_true hab

theorem mapFind_mapSet {α β : Type} [DecidableEq α] [KeyOrder α] (m : List (α × β))
    (k k' : α) (v : β) :
    mapFind (mapSet m k v) k' = if k' = k then some v else mapFind m k' := by
  induction m with
  | nil => simp [mapSet, mapFind]
  | cons e t ih =>
    obtain ⟨k0, v0⟩ := e
    unfold mapSet
    split_ifs with h1 h2 h3 h4 h5 <;> simp_all [mapFind]

theorem mapGet_mapSet {α β : Type} [DecidableEq α] [KeyOrder α] (m : List (α × β))
    (k k' : α) (v d : β) :
    mapGet (mapSet m k v) k' d = if k' = k then v else mapGet m k' d := by
  unfold mapGet
  rw [mapFind_mapSet]
  split_ifs <;> rfl

theorem mapCount_eq_zero {α β : Type} [DecidableEq α] (m : List (α × β)) (k : α) :
    mapCount m k = 0 ↔ mapFind m k = none := by
  unfold mapCount
  cases mapFind m k <;> simp

theorem mapGet_of_find_none {α β : Type} [DecidableEq α] (m : List (α × β)) (k : α) (d : β)
    (h : mapFind m k = none) : mapGet m k d = d := by
  simp [mapGet, h]

/-! ## The raster scan -/

theorem foldl_rows {σ : Type} (width : Nat) (body : σ → Nat → Nat → σ) (ys : List Nat)
    (init : σ) :
    ys.foldl (fun st y => (List.range width).foldl (fun st x => body st x y) st) init =
      (ys.flatMap (fun y => (List.range width).map (fun x => (x, y)))).foldl
        (fun st p => body st p.1 p.2) init := by
  induction ys generalizing init with
  | nil => rfl
  | cons y ys ih =>
    simp only [List.foldl_cons, List.flatMap_cons, List.foldl_append, List.foldl_map]
    exact ih _

theorem rasterScan_eq_foldl {σ : Type} (width height : Nat) (body : σ → Nat → Nat → σ)
    (init : σ) :
    rasterScan width height body init =
      (pixels width height).foldl (fun st p => body st p.1 p.2) init :=
  foldl_rows width body (List.range height) init

theorem mem_pixels (width height : Nat) (p : Nat × Nat) :
    p ∈ pixels width height ↔ p.1 < width ∧ p.2 < height := by
  obtain ⟨x, y⟩ := p
  simp only [pixels, List.mem_flatMap, List.mem_range, List.mem_map, Prod.mk.injEq]
  constructor
  · rintro ⟨y', hy, x', hx, rfl, rfl⟩
    exact ⟨hx, hy⟩
  · rintro ⟨hx, hy⟩
    exact ⟨y, hy, x, hx, rfl, rfl⟩

theorem foldl_invariant {σ π : Type} (P : σ → Prop) (step : σ → π → σ)
    (hstep : ∀ st p, P st → P (step st p)) (ps : List π) (init : σ) (h : P init) :
    P (ps.foldl step init) := by
  induction ps generalizing init with
  | nil => exact h
  | cons p ps ih => exact ih _ (hstep _ _ h)

theorem foldl_mem_iff {σ π κ : Type} (step : σ → π → σ) (proj : σ → List κ)
    (hit : π → κ → Prop)
    (hstep : ∀ st p k, k ∈ proj (step st p) ↔ k ∈ proj st ∨ hit p k)
    (ps : List π) (init : σ) (k : κ) :
    k ∈ proj (ps.foldl step init) ↔ k ∈ proj init ∨ ∃ p ∈ ps, hit p k := by
  induction ps generalizing init with
  | nil => simp
  | cons p ps ih =>
    rw [List.foldl_cons, ih, hstep]
    simp only [List.mem_cons, exists_eq_or_imp]
    tauto

theorem foldl_counter {σ π κ : Type} [DecidableEq κ] (step : σ → π → σ)
    (proj : σ → List (κ × Nat)) (hit : π → κ → Bool)
    (hstep : ∀ st p k, mapFind (proj (step st p)) k =
      if hit p k = true then some (mapGet (proj st) k 0 + 1) else mapFind (proj st) k)
    (ps : List π) (init : σ) (k : κ) :
    mapFind (proj (ps.foldl step init)) k =
      if ps.countP (fun p => hit p k) = 0 then mapFind (proj init) k
      else some (mapGet (proj init) k 0 + ps.countP (fun p => hit p k)) := by
  induction ps generalizing init with
  | nil => simp
  | cons p ps ih =>
    rw [List.foldl_cons, ih, List.countP_cons]
    have h1 := hstep init p k
    by_cases hp : hit p k = true
    · have hg : mapGet (proj (step init p)) k 0 = mapGet (proj init) k 0 + 1 := by
        simp [mapGet, h1, hp]
      simp only [hp, if_true, h1, hg]
      split_ifs
      all_goals simp_all
      all_goals omega
    · simp only [hp, if_false, Bool.false_eq_true] at h1 ⊢
      have hg : mapGet (proj (step init p)) k 0 = mapGet (proj init) k 0 := by
        simp [mapGet, h1]
      simp only [h1, hg, Nat.add_zero]

/-! ## `getOverlaps` and `getCenterPoints` -/

theorem overlapStep_pairs (a b : Image) (st : OverlapTables) (p q : Nat × Nat) :
    q ∈ (overlapStep a b st p.1 p.2).overlapPairs ↔
      q ∈ st.overlapPairs ∨ overlapHit a b p q = true := by
  obtain ⟨g, r⟩ := q
  unfold overlapStep overlapHit
  by_cases h : a.pixel p.1 p.2 = 0 ∨ b.pixel p.1 p.2 = 0
  · simp only [h, if_true, decide_eq_true_eq]
    constructor
    · exact Or.inl
    · rintro (h1 | ⟨h1, h2, h3, h4⟩)
      · exact h1
      · rcases h with h | h
        · exact absurd (h1 ▸ h) h3
        · exact absurd (h2 ▸ h) h4
  · simp only [h, if_false, mem_setInsert, decide_eq_true_eq, Prod.mk.injEq]
    push_neg at h
    constructor
    · rintro (⟨h1, h2⟩ | h1)
      · right; subst h1; subst h2; exact ⟨rfl, rfl, h.1, h.2⟩
      · exact Or.inl h1
    · rintro (h1 | ⟨h1, h2, -, -⟩)
      · exact Or.inr h1
      · exact Or.inl ⟨h1.symm, h2.symm⟩

theorem overlapStep_areas (a b : Image) (st : OverlapTables) (p q : Nat × Nat) :
    mapFind (overlapStep a b st p.1 p.2).overlapAreas q =
      if overlapHit a b p q = true then some (mapGet st.overlapAreas q 0 + 1)
      else mapFind st.overlapAreas q := by
  obtain ⟨g, r⟩ := q
  unfold overlapStep overlapHit
  by_cases h : a.pixel p.1 p.2 = 0 ∨ b.pixel p.1 p.2 = 0
  · have hn : ¬ (a.pixel p.1 p.2 = g ∧ b.pixel p.1 p.2 = r ∧ g ≠ 0 ∧ r ≠ 0) := by
      rintro ⟨h1, h2, h3, h4⟩
      rcases h with h | h
      · exact h3 (h1 ▸ h)
      · exact h4 (h2 ▸ h)
    simp only [h, if_true, hn, decide_False, Bool.false_eq_true, if_false]
  · simp only [h, if_false]
    push_neg at h
    by_cases hq : (g, r) = (a.pixel p.1 p.2, b.pixel p.1 p.2)
    · have hy : a.pixel p.1 p.2 = g ∧ b.pixel p.1 p.2 = r ∧ g ≠ 0 ∧ r ≠ 0 := by
        simp only [Prod.mk.injEq] at hq
        obtain ⟨h1, h2⟩ := hq
        subst h1; subst h2
        exact ⟨rfl, rfl, h.1, h.2⟩
      simp only [hy, and_self, decide_True, if_true, ne_eq, not_false_eq_true]
      by_cases hc : mapCount st.overlapAreas (g, r) = 0
      · have hf := (mapCount_eq_zero _ _).1 hc
        simp [hc, mapFind_mapSet, mapGet_of_find_none _ _ _ hf]
      · simp [hc, mapFind_mapSet]
    · have hn : ¬ (a.pixel p.1 p.2 = g ∧ b.pixel p.1 p.2 = r ∧ g ≠ 0 ∧ r ≠ 0) := by
        rintro ⟨h1, h2, -, -⟩
        exact hq (by rw [h1, h2])
      simp only [hn, decide_False, Bool.false_eq_true, if_false]
      split_ifs <;> simp [mapFind_mapSet, hq]

theorem overlapInv_empty : OverlapInv ⟨[], [], [], []⟩ := by
  refine ⟨strictSorted_nil, ?_, ?_, ?_, ?_⟩ <;> intros <;> simp [mapGet, mapFind, StrictSorted]

theorem overlapStep_inv (a b : Image) (st : OverlapTables) (p : Nat × Nat)
    (h : OverlapInv st) : OverlapInv (overlapStep a b st p.1 p.2) := by
  obtain ⟨h1, h2, h3, h4, h5⟩ := h
  unfold overlapStep
  by_cases hz : a.pixel p.1 p.2 = 0 ∨ b.pixel p.1 p.2 = 0
  · simp only [hz, if_true]
    exact ⟨h1, h2, h3, h4, h5⟩
  · simp only [hz, if_false]
    refine ⟨strictSorted_setInsert _ _ h1, ?_, ?_, ?_, ?_⟩
    · intro g r
      simp only [mapGet_mapSet, mem_setInsert, Prod.mk.injEq]
      by_cases hg : g = a.pixel p.1 p.2
      · subst hg
        simp only [if_true, mem_setInsert, h2, true_and]
      · simp only [hg, if_false, h2, false_and, false_or]
    · intro g r
      simp only [mapGet_mapSet, mem_setInsert, Prod.mk.injEq]
      by_cases hr : r = b.pixel p.1 p.2
      · subst hr
        simp only [if_true, mem_setInsert, h3, and_true]
      · simp only [hr, if_false, h3, and_false, false_or]
    · intro g
      rw [mapGet_mapSet]
      split_ifs
      · exact strictSorted_setInsert _ _ (h4 _)
      · exact h4 g
    · intro r
      rw [mapGet_mapSet]
      split_ifs
      · exact strictSorted_setInsert _ _ (h5 _)
      · exact h5 r

/-- The tables of `getOverlaps` satisfy their representation invariant. -/
theorem getOverlaps_inv (a b : Image) (prev : OverlapTables) :
    OverlapInv (getOverlaps a b prev) := by
  unfold getOverlaps
  rw [rasterScan_eq_foldl]
  exact foldl_invariant OverlapInv _ (fun st p h => overlapStep_inv a b st p h) _ _
    overlapInv_empty

/-- Membership in `overlapPairs`: some pixel inside `a` carries the pair. -/
theorem mem_overlapPairs (a b : Image) (prev : OverlapTables) (q : Nat × Nat) :
    q ∈ (getOverlaps a b prev).overlapPairs ↔
      ∃ p ∈ pixels a.width a.height, overlapHit a b p q = true := by
  unfold getOverlaps
  rw [rasterScan_eq_foldl]
  have h := foldl_mem_iff (fun st p => overlapStep a b st p.1 p.2)
    OverlapTables.overlapPairs (fun p q => overlapHit a b p q = true)
    (fun st p k => overlapStep_pairs a b st p k) (pixels a.width a.height) ⟨[], [], [], []⟩ q
  simpa using h

/-- The entry of `overlapAreas` for `q`: absent when no pixel carries the pair,
else the number of those pixels. -/
theorem find_overlapAreas (a b : Image) (prev : OverlapTables) (q : Nat × Nat) :
    mapFind (getOverlaps a b prev).overlapAreas q =
      if overlapCount a b q = 0 then none else some (overlapCount a b q) := by
  unfold getOverlaps overlapCount
  rw [rasterScan_eq_foldl]
  have h := foldl_counter (fun st p => overlapStep a b st p.1 p.2)
    OverlapTables.overlapAreas (fun p q => overlapHit a b p q)
    (fun st p k => overlapStep_areas a b st p k) (pixels a.width a.height) ⟨[], [], [], []⟩ q
  simpa [mapGet, mapFind] using h

theorem centerStep_labels (image : Image) (st : CenterTables) (p : Nat × Nat) (l : Nat) :
    l ∈ (centerStep image st p.1 p.2).labels ↔ l ∈ st.labels ∨ labelHit image p l = true := by
  unfold centerStep labelHit
  by_cases h : image.pixel p.1 p.2 = 0
  · simp only [h, if_true, decide_eq_true_eq]
    constructor
    · exact Or.inl
    · rintro (h1 | ⟨h1, h2⟩)
      · exact h1
      · exact absurd h1.symm h2
  · simp only [h, if_false, decide_eq_true_eq]
    split_ifs <;> simp only [mem_setInsert] <;> constructor
    all_goals first
      | (rintro (h1 | h1)
         · exact Or.inr ⟨h1.symm, h1 ▸ h⟩
         · exact Or.inl h1)
      | (rintro (h1 | ⟨h1, -⟩)
         · exact Or.inr h1
         · exact Or.inl h1.symm)

theorem centerStep_sizes (image : Image) (st : CenterTables) (p : Nat × Nat) (l : Nat) :
    mapFind (centerStep image st p.1 p.2).sizes l =
      if labelHit image p l = true then some (mapGet st.sizes l 0 + 1)
      else mapFind st.sizes l := by
  unfold centerStep labelHit
  by_cases h : image.pixel p.1 p.2 = 0
  · have hn : ¬ (0 = l ∧ l ≠ 0) := by
      rintro ⟨h1, h2⟩
      exact h2 h1.symm
    simp only [h, if_true, hn, decide_False, Bool.false_eq_true, if_false]
  · simp only [h, if_false]
    by_cases hl : l = image.pixel p.1 p.2
    · subst hl
      simp only [ne_eq, h, not_false_eq_true, and_self, decide_True, if_true]
      by_cases hc : mapCount st.sizes (image.pixel p.1 p.2) = 0
      · have hf := (mapCount_eq_zero _ _).1 hc
        simp [hc, mapFind_mapSet, mapGet_of_find_none _ _ _ hf]
      · simp [hc, mapFind_mapSet]
    · have hn : ¬ (image.pixel p.1 p.2 = l ∧ l ≠ 0) := by
        rintro ⟨h1, -⟩
        exact hl h1.symm
      simp only [hn, decide_False, Bool.false_eq_true, if_false]
      split_ifs <;> simp [mapFind_mapSet, hl]

theorem centerStep_sorted (image : Image) (st : CenterTables) (p : Nat × Nat)
    (h : StrictSorted st.labels) : StrictSorted (centerStep image st p.1 p.2).labels := by
  unfold centerStep
  dsimp only
  split_ifs
  · exact h
  · exact strictSorted_setInsert _ _ h
  · exact strictSorted_setInsert _ _ h

theorem normalizeCenters_labels (st : CenterTables) :
    (normalizeCenters st).labels = st.labels ∧ (normalizeCenters st).sizes = st.sizes := by
  unfold normalizeCenters
  exact foldl_invariant
    (fun s : CenterTables => s.labels = st.labels ∧ s.sizes = st.sizes) normalizeStep
    (fun _ _ h => h) st.labels st ⟨rfl, rfl⟩

/-- Membership in `labels` after `getCenterPoints` on empty tables. -/
theorem mem_labels (image : Image) (l : Nat) :
    l ∈ (getCenterPoints image ⟨[], [], []⟩).labels ↔
      ∃ p ∈ pixels image.width image.height, labelHit image p l = true := by
  unfold getCenterPoints
  rw [(normalizeCenters_labels _).1, rasterScan_eq_foldl]
  have h := foldl_mem_iff (fun st p => centerStep image st p.1 p.2)
    CenterTables.labels (fun p l => labelHit image p l = true)
    (fun st p k => centerStep_labels image st p k) (pixels image.width image.height)
    ⟨[], [], []⟩ l
  simpa using h

/-- The set `labels` after `getCenterPoints` on empty tables is increasing. -/
theorem labels_sorted (image : Image) :
    StrictSorted (getCenterPoints image ⟨[], [], []⟩).labels := by
  unfold getCenterPoints
  rw [(normalizeCenters_labels _).1, rasterScan_eq_foldl]
  exact foldl_invariant (fun st => StrictSorted st.labels) _
    (fun st p h => centerStep_sorted image st p h) _ (CenterTables.mk [] [] [])
    strictSorted_nil

/-- The entry of `sizes` for `l` after `getCenterPoints` on empty tables. -/
theorem find_sizes (image : Image) (l : Nat) :
    mapFind (getCenterPoints image ⟨[], [], []⟩).sizes l =
      if labelCount image l = 0 then none else some (labelCount image l) := by
  unfold getCenterPoints labelCount
  rw [(normalizeCenters_labels _).2, rasterScan_eq_foldl]
  have h := foldl_counter (fun st p => centerStep image st p.1 p.2)
    CenterTables.sizes (fun p l => labelHit image p l)
    (fun st p k => centerStep_sizes image st p k) (pixels image.width image.height)
    ⟨[], [], []⟩ l
  simpa [mapGet, mapFind] using h

/-! ## The numbering of the candidate pairs -/

theorem getElem?_snoc {α : Type} (ps : List α) (p : α) (i : Nat) :
    (ps ++ [p])[i]? = if i < ps.length then ps[i]? else if i = ps.length then some p else none := by
  rw [List.getElem?_append]
  split_ifs with h1 h2
  · rfl
  · subst h2; simp
  · have : i - ps.length ≠ 0 := by omega
    obtain ⟨k, hk⟩ := Nat.exists_eq_succ_of_ne_zero this
    rw [hk]; rfl

theorem numberPairs_snoc (ps : List (Nat × Nat)) (p : Nat × Nat) :
    numberPairs (ps ++ [p]) =
      { pairToVariable := mapSet (numberPairs ps).pairToVariable p (numberPairs ps).varNum
        variableToPair := mapSet (numberPairs ps).variableToPair (numberPairs ps).varNum p
        varNum := (numberPairs ps).varNum + 1 } := by
  simp [numberPairs, List.foldl_append]

theorem numberPairs_varNum (ps : List (Nat × Nat)) : (numberPairs ps).varNum = ps.length := by
  induction ps using List.reverseRecOn with
  | nil => rfl
  | append_singleton ps p ih => rw [numberPairs_snoc]; simp [ih]

/-- The table `variableToPair` sends `v` to the pair at position `v`. -/
theorem find_variableToPair (ps : List (Nat × Nat)) (v : Nat) :
    mapFind (numberPairs ps).variableToPair v = ps[v]? := by
  induction ps using List.reverseRecOn with
  | nil => simp [numberPairs, mapFind]
  | append_singleton ps p ih =>
    rw [numberPairs_snoc, getElem?_snoc]
    simp only [mapFind_mapSet, numberPairs_varNum, ih]
    by_cases hv : v = ps.length
    · subst hv; simp
    · simp only [hv, if_false]
      split_ifs with h
      · rfl
      · exact List.getElem?_eq_none (by omega)

/-- The table `pairToVariable` sends a pair to its position, when no pair
occurs twice. -/
theorem find_pairToVariable (ps : List (Nat × Nat)) (hnd : ps.Nodup) (q : Nat × Nat) (i : Nat) :
    mapFind (numberPairs ps).pairToVariable q = some i ↔ ps[i]? = some q := by
  induction ps using List.reverseRecOn generalizing i with
  | nil => simp [numberPairs, mapFind]
  | append_singleton ps p ih =>
    rw [numberPairs_snoc, getElem?_snoc]
    have hnd' : ps.Nodup := (List.nodup_append.1 hnd).1
    have hp : p ∉ ps := fun h => (List.nodup_append.1 hnd).2.2 h (List.mem_singleton_self p)
    simp only [mapFind_mapSet, numberPairs_varNum]
    by_cases hq : q = p
    · subst hq
      simp only [if_true, Option.some.injEq]
      split_ifs with h1 h2
      · constructor
        · intro h; omega
        · intro h; exact absurd (List.getElem?_mem h) hp
      · simp [h2]
      · simp only [iff_false]
        exact fun h => h2 h.symm
    · simp only [hq, if_false, ih hnd']
      split_ifs with h1 h2
      · rfl
      · simp only [Option.some.injEq]
        constructor
        · intro h; rw [List.getElem?_eq_none (by omega)] at h; exact Option.noConfusion h
        · intro h; exact absurd h.symm hq
      · simp only [iff_false]
        rw [List.getElem?_eq_none (by omega)]
        exact fun h => Option.noConfusion h

/-! ## Constraints -/

theorem sum_map_mapSet {β : Type} (m : List (Nat × β)) (k : Nat) (v : β) (f : Nat × β → ℚ)
    (h : mapFind m k = none) :
    ((mapSet m k v).map f).sum = (m.map f).sum + f (k, v) := by
  induction m with
  | nil => simp [mapSet]
  | cons e t ih =>
    obtain ⟨k0, v0⟩ := e
    have hk : k ≠ k0 := by
      intro hk
      simp [mapFind, hk] at h
    have ht : mapFind t k = none := by
      simpa [mapFind, hk] using h
    unfold mapSet
    simp only [hk, if_false]
    split_ifs
    · simp only [List.map_cons, List.sum_cons]; ring
    · simp only [List.map_cons, List.sum_cons, ih ht]; ring

theorem foldl_setCoefficient (vs : List Nat) (hnd : vs.Nodup) (c : LinearConstraint)
    (hfresh : ∀ v ∈ vs, mapFind c.coefficients v = none) (solution : Solution) :
    (vs.foldl (fun c v => c.setCoefficient v 1) c).lhs solution =
        c.lhs solution + (vs.map solution).sum ∧
      (vs.foldl (fun c v => c.setCoefficient v 1) c).relation = c.relation ∧
      (vs.foldl (fun c v => c.setCoefficient v 1) c).value = c.value := by
  induction vs generalizing c with
  | nil => simp
  | cons v vs ih =>
    rw [List.nodup_cons] at hnd
    have hfresh' : ∀ w ∈ vs, mapFind (c.setCoefficient v 1).coefficients w = none := by
      intro w hw
      have hwv : w ≠ v := fun h => hnd.1 (h ▸ hw)
      simp only [LinearConstraint.setCoefficient, mapFind_mapSet, hwv, if_false]
      exact hfresh w (List.mem_cons_of_mem _ hw)
    obtain ⟨h1, h2, h3⟩ := ih hnd.2 (c.setCoefficient v 1) hfresh'
    rw [List.foldl_cons, h1, h2, h3]
    refine ⟨?_, rfl, rfl⟩
    have hv := hfresh v (List.mem_cons_self _ _)
    simp only [LinearConstraint.lhs, LinearConstraint.setCoefficient,
      sum_map_mapSet _ _ _ _ hv, List.map_cons, List.sum_cons]
    ring

/-- The constraint of a ground-truth label: the sum of the variables of its
candidate pairs is at most one. -/
theorem gtConstraint_spec (pairToVariable : List ((Nat × Nat) × Nat))
    (gtToRecOverlaps : List (Nat × List Nat)) (gtLabel : Nat) (solution : Solution)
    (hnd : ((mapGet gtToRecOverlaps gtLabel []).map
      (fun r => mapGet pairToVariable (gtLabel, r) 0)).Nodup) :
    (gtConstraint pairToVariable gtToRecOverlaps gtLabel).satisfiedBy solution ↔
      ((mapGet gtToRecOverlaps gtLabel []).map
        (fun r => solution (mapGet pairToVariable (gtLabel, r) 0))).sum ≤ 1 := by
  have h := foldl_setCoefficient _ hnd LinearConstraint.empty (fun _ _ => rfl) solution
  rw [List.foldl_map] at h
  obtain ⟨h1, -, -⟩ := h
  unfold LinearConstraint.satisfiedBy gtConstraint
  simp only [LinearConstraint.setRelation, LinearConstraint.setValue, LinearConstraint.lhs] at h1 ⊢
  rw [h1]
  simp [LinearConstraint.empty, List.map_map, Function.comp_def]

/-- The constraint of a reconstruction label: the sum of the variables of its
candidate pairs is at most one. -/
theorem recConstraint_spec (pairToVariable : List ((Nat × Nat) × Nat))
    (recToGtOverlaps : List (Nat × List Nat)) (recLabel : Nat) (solution : Solution)
    (hnd : ((mapGet recToGtOverlaps recLabel []).map
      (fun g => mapGet pairToVariable (g, recLabel) 0)).Nodup) :
    (recConstraint pairToVariable recToGtOverlaps recLabel).satisfiedBy solution ↔
      ((mapGet recToGtOverlaps recLabel []).map
        (fun g => solution (mapGet pairToVariable (g, recLabel) 0))).sum ≤ 1 := by
  have h := foldl_setCoefficient _ hnd LinearConstraint.empty (fun _ _ => rfl) solution
  rw [List.foldl_map] at h
  obtain ⟨h1, -, -⟩ := h
  unfold LinearConstraint.satisfiedBy recConstraint
  simp only [LinearConstraint.setRelation, LinearConstraint.setValue, LinearConstraint.lhs] at h1 ⊢
  rw [h1]
  simp [LinearConstraint.empty, List.map_map, Function.comp_def]

theorem foldl_append_singleton {α β : Type} (f : α → β) (ls : List α) (init : List β) :
    ls.foldl (fun cs l => cs ++ [f l]) init = init ++ ls.map f := by
  induction ls generalizing init with
  | nil => simp
  | cons l ls ih => simp [ih]

/-- The emitted constraints: one per reconstruction label, then one per
ground-truth label. -/
theorem buildConstraints_eq (pairToVariable : List ((Nat × Nat) × Nat))
    (gtLabels recLabels : List Nat) (gtToRecOverlaps recToGtOverlaps : List (Nat × List Nat)) :
    buildConstraints pairToVariable gtLabels recLabels gtToRecOverlaps recToGtOverlaps =
      recLabels.map (recConstraint pairToVariable recToGtOverlaps) ++
        gtLabels.map (gtConstraint pairToVariable gtToRecOverlaps) := by
  unfold buildConstraints
  simp only [foldl_append_singleton, List.nil_append]

/-! ## The objective -/

theorem foldl_list_set {α : Type} (qs : List α) (var : α → Nat) (val : α → ℚ) (init : List ℚ)
    (hinj : ∀ q ∈ qs, ∀ q' ∈ qs, var q = var q' → q = q') :
    (qs.foldl (fun l q => l.set (var q) (val q)) init).length = init.length ∧
      ∀ q ∈ qs, var q < init.length →
        (qs.foldl (fun l q => l.set (var q) (val q)) init)[var q]? = some (val q) := by
  induction qs using List.reverseRecOn with
  | nil => simp
  | append_singleton qs q0 ih =>
    have hinj' : ∀ q ∈ qs, ∀ q' ∈ qs, var q = var q' → q = q' := fun q hq q' hq' =>
      hinj q (List.mem_append_left _ hq) q' (List.mem_append_left _ hq')
    obtain ⟨h1, h2⟩ := ih hinj'
    simp only [List.foldl_append, List.foldl_cons, List.foldl_nil, List.length_set]
    refine ⟨h1, ?_⟩
    intro q hq hlt
    by_cases hv : var q0 = var q
    · have : q0 = q := hinj q0 (by simp) q hq hv
      subst this
      rw [List.getElem?_set_self]
      simp [h1, hlt]
    · rw [List.getElem?_set_ne hv]
      rcases List.mem_append.1 hq with h | h
      · exact h2 q h hlt
      · simp only [List.mem_singleton] at h
        exact absurd (h ▸ rfl) hv

theorem sum_range_update (n : Nat) (f g : Nat → ℚ) (v : Nat) (hv : v < n)
    (h : ∀ i, i ≠ v → f i = g i) :
    ((List.range n).map f).sum = ((List.range n).map g).sum + (f v - g v) := by
  induction n with
  | zero => omega
  | succ n ih =>
    rw [List.range_succ, List.map_append, List.map_append, List.sum_append, List.sum_append]
    simp only [List.map_cons, List.map_nil, List.sum_cons, List.sum_nil, add_zero]
    by_cases hvn : v = n
    · subst hvn
      have : (List.range v).map f = (List.range v).map g := by
        apply List.map_congr_left
        intro i hi
        exact h i (by simp at hi; omega)
      rw [this]; ring
    · rw [ih (by omega), h n (Ne.symm hvn)]; ring

/-! ## Reading the solution back -/

/-- The body of the loop of `readSolution`. -/
theorem readSolution_matchSet (numPairs : Nat) (variableToPair : List (Nat × (Nat × Nat)))
    (solution : Solution) (q : Nat × Nat) :
    q ∈ (readSolution numPairs variableToPair solution).matchSet ↔
      ∃ v < numPairs, solution v = 1 ∧ mapGet variableToPair v (0, 0) = q := by
  unfold readSolution
  have h := foldl_mem_iff
    (fun (st : MatchTables) varNum =>
      if solution varNum = 1 then
        let m := mapGet variableToPair varNum (0, 0)
        { gtToRecMatches :=
            mapSet st.gtToRecMatches m.1 (setInsert m.2 (mapGet st.gtToRecMatches m.1 []))
          recToGtMatches :=
            mapSet st.recToGtMatches m.2 (setInsert m.1 (mapGet st.recToGtMatches m.2 []))
          matchSet := setInsert m st.matchSet }
      else st)
    MatchTables.matchSet
    (fun v q => solution v = 1 ∧ mapGet variableToPair v (0, 0) = q)
    (by
      intro st v k
      dsimp only
      split_ifs with h
      · simp only [mem_setInsert, h, true_and]
        constructor
        · rintro (h1 | h1)
          · exact Or.inr h1.symm
          · exact Or.inl h1
        · rintro (h1 | h1)
          · exact Or.inr h1
          · exact Or.inl h1.symm
      · simp [h])
    (List.range numPairs) ⟨[], [], []⟩ q
  simpa using h

theorem readSolution_inv (numPairs : Nat) (variableToPair : List (Nat × (Nat × Nat)))
    (solution : Solution) : MatchInv (readSolution numPairs variableToPair solution) := by
  unfold readSolution
  refine foldl_invariant MatchInv _ ?_ _ _ ?_
  · intro st v ⟨h1, h2, h3⟩
    dsimp only
    split_ifs with h
    · refine ⟨strictSorted_setInsert _ _ h1, ?_, ?_⟩
      · intro g
        simp only [mapCount_eq_zero, mapFind_mapSet, mem_setInsert]
        by_cases hg : g = (mapGet variableToPair v (0, 0)).1
        · subst hg
          simp only [if_true]
          constructor
          · intro h4; exact Option.noConfusion h4
          · intro h4; exact absurd (Or.inl rfl) (h4 (mapGet variableToPair v (0, 0)).2)
        · simp only [hg, if_false, ← mapCount_eq_zero, h2]
          constructor
          · intro h4 r h5
            rcases h5 with h5 | h5
            · exact hg (by rw [← h5])
            · exact h4 r h5
          · intro h4 r h5
            exact h4 r (Or.inr h5)
      · intro r
        simp only [mapCount_eq_zero, mapFind_mapSet, mem_setInsert]
        by_cases hr : r = (mapGet variableToPair v (0, 0)).2
        · subst hr
          simp only [if_true]
          constructor
          · intro h4; exact Option.noConfusion h4
          · intro h4; exact absurd (Or.inl rfl) (h4 (mapGet variableToPair v (0, 0)).1)
        · simp only [hr, if_false, ← mapCount_eq_zero, h3]
          constructor
          · intro h4 g h5
            rcases h5 with h5 | h5
            · exact hr (by rw [← h5])
            · exact h4 g h5
          · intro h4 g h5
            exact h4 g (Or.inr h5)
    · exact ⟨h1, h2, h3⟩
  · refine ⟨strictSorted_nil, ?_, ?_⟩ <;> intro <;> simp [mapCount, mapFind]

/-! ## Filling the report -/

theorem addUnmatched_spec (gtLabels recLabels : List Nat) (m : MatchTables)
    (errors : DetectionOverlapErrors) :
    (∀ l, l ∈ (addUnmatched gtLabels recLabels m errors).falseNegatives ↔
      l ∈ errors.falseNegatives ∨ (l ∈ gtLabels ∧ mapCount m.gtToRecMatches l = 0)) ∧
    (∀ l, l ∈ (addUnmatched gtLabels recLabels m errors).falsePositives ↔
      l ∈ errors.falsePositives ∨ (l ∈ recLabels ∧ mapCount m.recToGtMatches l = 0)) ∧
    (addUnmatched gtLabels recLabels m errors).matchEntries = errors.matchEntries := by
  have hgt : ∀ (ls : List Nat) (e : DetectionOverlapErrors),
      (∀ l, l ∈ (ls.foldl (fun e gtLabel =>
          if mapCount m.gtToRecMatches gtLabel = 0 then e.addFalseNegative gtLabel else e)
          e).falseNegatives ↔
        l ∈ e.falseNegatives ∨ (l ∈ ls ∧ mapCount m.gtToRecMatches l = 0)) ∧
      (ls.foldl (fun e gtLabel =>
          if mapCount m.gtToRecMatches gtLabel = 0 then e.addFalseNegative gtLabel else e)
          e).falsePositives = e.falsePositives ∧
      (ls.foldl (fun e gtLabel =>
          if mapCount m.gtToRecMatches gtLabel = 0 then e.addFalseNegative gtLabel else e)
          e).matchEntries = e.matchEntries := by
    intro ls
    induction ls with
    | nil => intro e; simp
    | cons x ls ih =>
      intro e
      rw [List.foldl_cons]
      obtain ⟨h1, h2, h3⟩ := ih (if mapCount m.gtToRecMatches x = 0 then e.addFalseNegative x
        else e)
      refine ⟨?_, ?_, ?_⟩
      · intro l
        rw [h1]
        by_cases hx : mapCount m.gtToRecMatches x = 0
        · simp only [hx, if_true, DetectionOverlapErrors.addFalseNegative, mem_setInsert,
            List.mem_cons]
          constructor
          · rintro ((h | h) | ⟨h, h'⟩)
            · exact Or.inr ⟨Or.inl h, h ▸ hx⟩
            · exact Or.inl h
            · exact Or.inr ⟨Or.inr h, h'⟩
          · rintro (h | ⟨h | h, h'⟩)
            · exact Or.inl (Or.inr h)
            · exact Or.inl (Or.inl h)
            · exact Or.inr ⟨h, h'⟩
        · simp only [hx, if_false, List.mem_cons]
          constructor
          · rintro (h | ⟨h, h'⟩)
            · exact Or.inl h
            · exact Or.inr ⟨Or.inr h, h'⟩
          · rintro (h | ⟨h | h, h'⟩)
            · exact Or.inl h
            · exact absurd (h ▸ h') hx
            · exact Or.inr ⟨h, h'⟩
      · rw [h2]; split_ifs <;> rfl
      · rw [h3]; split_ifs <;> rfl
  have hrec : ∀ (ls : List Nat) (e : DetectionOverlapErrors),
      (∀ l, l ∈ (ls.foldl (fun e recLabel =>
          if mapCount m.recToGtMatches recLabel = 0 then e.addFalsePositive recLabel else e)
          e).falsePositives ↔
        l ∈ e.falsePositives ∨ (l ∈ ls ∧ mapCount m.recToGtMatches l = 0)) ∧
      (ls.foldl (fun e recLabel =>
          if mapCount m.recToGtMatches recLabel = 0 then e.addFalsePositive recLabel else e)
          e).falseNegatives = e.falseNegatives ∧
      (ls.foldl (fun e recLabel =>
          if mapCount m.recToGtMatches recLabel = 0 then e.addFalsePositive recLabel else e)
          e).matchEntries = e.matchEntries := by
    intro ls
    induction ls with
    | nil => intro e; simp
    | cons x ls ih =>
      intro e
      rw [List.foldl_cons]
      obtain ⟨h1, h2, h3⟩ := ih (if mapCount m.recToGtMatches x = 0 then e.addFalsePositive x
        else e)
      refine ⟨?_, ?_, ?_⟩
      · intro l
        rw [h1]
        by_cases hx : mapCount m.recToGtMatches x = 0
        · simp only [hx, if_true, DetectionOverlapErrors.addFalsePositive, mem_setInsert,
            List.mem_cons]
          constructor
          · rintro ((h | h) | ⟨h, h'⟩)
            · exact Or.inr ⟨Or.inl h, h ▸ hx⟩
            · exact Or.inl h
            · exact Or.inr ⟨Or.inr h, h'⟩
          · rintro (h | ⟨h | h, h'⟩)
            · exact Or.inl (Or.inr h)
            · exact Or.inl (Or.inl h)
            · exact Or.inr ⟨h, h'⟩
        · simp only [hx, if_false, List.mem_cons]
          constructor
          · rintro (h | ⟨h, h'⟩)
            · exact Or.inl h
            · exact Or.inr ⟨Or.inr h, h'⟩
          · rintro (h | ⟨h | h, h'⟩)
            · exact Or.inl h
            · exact absurd (h ▸ h') hx
            · exact Or.inr ⟨h, h'⟩
      · rw [h2]; split_ifs <;> rfl
      · rw [h3]; split_ifs <;> rfl
  unfold addUnmatched
  obtain ⟨g1, g2, g3⟩ := hgt gtLabels errors
  obtain ⟨r1, r2, r3⟩ := hrec recLabels (gtLabels.foldl (fun e gtLabel =>
    if mapCount m.gtToRecMatches gtLabel = 0 then e.addFalseNegative gtLabel else e) errors)
  refine ⟨?_, ?_, ?_⟩
  · intro l; dsimp only; rw [r2, g1]
  · intro l; dsimp only; rw [r1, g2]
  · dsimp only; rw [r3, g3]

theorem addMatches_spec (overlapAreas : List ((Nat × Nat) × Nat))
    (gtSizes recSizes : List (Nat × Nat)) (acc : List (Nat × Nat))
    (errors : DetectionOverlapErrors) :
    (addMatches overlapAreas gtSizes recSizes acc errors).falseNegatives =
        errors.falseNegatives ∧
      (addMatches overlapAreas gtSizes recSizes acc errors).falsePositives =
        errors.falsePositives ∧
      (addMatches overlapAreas gtSizes recSizes acc errors).matchEntries =
        errors.matchEntries ++ acc.map (measures overlapAreas gtSizes recSizes) := by
  unfold addMatches
  induction acc generalizing errors with
  | nil => simp
  | cons p acc ih =>
    rw [List.foldl_cons]
    obtain ⟨h1, h2, h3⟩ := ih (errors.addMatch p (measures overlapAreas gtSizes recSizes p).m1
      (measures overlapAreas gtSizes recSizes p).m2
      (measures overlapAreas gtSizes recSizes p).dice)
    refine ⟨by rw [h1]; rfl, by rw [h2]; rfl, ?_⟩
    rw [h3]
    simp [DetectionOverlapErrors.addMatch, measures]

/-- One call of `updateOutputs` on a fresh node with single-image stacks reads
the solution back and fills an empty report. -/
theorem run_eq (sqrt : ℚ → ℚ) (solution : Solution) (a b : Image) :
    run sqrt solution a b =
      interpret (buildProblem sqrt a b) solution DetectionOverlapErrors.empty := rfl

/-! ## The problem built by `updateOutputs` -/

theorem candidatePairs_nodup (a b : Image) : (candidatePairs a b).Nodup :=
  (getOverlaps_inv a b _).1.nodup

theorem mem_candidatePairs (a b : Image) (q : Nat × Nat) :
    q ∈ candidatePairs a b ↔
      q.1 ≠ 0 ∧ q.2 ≠ 0 ∧
        ∃ x y, x < a.width ∧ y < a.height ∧ a.pixel x y = q.1 ∧ b.pixel x y = q.2 := by
  unfold candidatePairs
  rw [mem_overlapPairs]
  constructor
  · rintro ⟨p, hp, h⟩
    simp only [overlapHit, decide_eq_true_eq] at h
    rw [mem_pixels] at hp
    exact ⟨h.2.2.1, h.2.2.2, p.1, p.2, hp.1, hp.2, h.1, h.2.1⟩
  · rintro ⟨h1, h2, x, y, hx, hy, h3, h4⟩
    refine ⟨(x, y), (mem_pixels _ _ _).2 ⟨hx, hy⟩, ?_⟩
    simp only [overlapHit, decide_eq_true_eq]
    exact ⟨h3, h4, h1, h2⟩

theorem mem_labels_iff (image : Image) (l : Nat) :
    l ∈ (getCenterPoints image ⟨[], [], []⟩).labels ↔ IsLabel image l := by
  rw [mem_labels]
  unfold IsLabel
  constructor
  · rintro ⟨p, hp, h⟩
    simp only [labelHit, decide_eq_true_eq] at h
    rw [mem_pixels] at hp
    exact ⟨h.2, p.1, p.2, hp.1, hp.2, h.1⟩
  · rintro ⟨h1, x, y, hx, hy, h2⟩
    refine ⟨(x, y), (mem_pixels _ _ _).2 ⟨hx, hy⟩, ?_⟩
    simp only [labelHit, decide_eq_true_eq]
    exact ⟨h2, h1⟩

theorem candidate_gt_label (a b : Image) (q : Nat × Nat) (h : q ∈ candidatePairs a b) :
    IsLabel a q.1 := by
  obtain ⟨h1, -, x, y, hx, hy, h3, -⟩ := (mem_candidatePairs a b q).1 h
  exact ⟨h1, x, y, hx, hy, h3⟩

theorem candidate_rec_label (a b : Image) (hs : SameSize a b) (q : Nat × Nat)
    (h : q ∈ candidatePairs a b) : IsLabel b q.2 := by
  obtain ⟨-, h2, x, y, hx, hy, -, h4⟩ := (mem_candidatePairs a b q).1 h
  exact ⟨h2, x, y, hs.1 ▸ hx, hs.2 ▸ hy, h4⟩

/-- A candidate pair sits at the position given by its variable number. -/
theorem variableOf_spec (a b : Image) (q : Nat × Nat) (h : q ∈ candidatePairs a b) :
    (candidatePairs a b)[variableOf a b q]? = some q := by
  obtain ⟨i, hi⟩ := List.getElem?_of_mem h
  have h1 := (find_pairToVariable _ (candidatePairs_nodup a b) q i).2 hi
  have h2 : variableOf a b q = i := by simp [variableOf, mapGet, h1]
  rw [h2, hi]

theorem variableOf_lt (a b : Image) (q : Nat × Nat) (h : q ∈ candidatePairs a b) :
    variableOf a b q < (candidatePairs a b).length := by
  obtain ⟨h1, -⟩ := List.getElem?_eq_some_iff.1 (variableOf_spec a b q h)
  exact h1

theorem variableOf_inj (a b : Image) (q q' : Nat × Nat) (h : q ∈ candidatePairs a b)
    (h' : q' ∈ candidatePairs a b) (he : variableOf a b q = variableOf a b q') : q = q' := by
  have h1 := variableOf_spec a b q h
  have h2 := variableOf_spec a b q' h'
  rw [he, h2] at h1
  exact (Option.some.inj h1).symm

theorem variableOf_of_getElem? (a b : Image) (q : Nat × Nat) (v : Nat)
    (h : (candidatePairs a b)[v]? = some q) : variableOf a b q = v := by
  have h1 := (find_pairToVariable _ (candidatePairs_nodup a b) q v).2 h
  simp [variableOf, mapGet, h1]

/-- The accepted matches are the candidate pairs whose variable has the value
1 in the solution. -/
theorem mem_accepted (sqrt : ℚ → ℚ) (solution : Solution) (a b : Image) (q : Nat × Nat) :
    q ∈ accepted sqrt solution a b ↔
      q ∈ candidatePairs a b ∧ solution (variableOf a b q) = 1 := by
  unfold accepted
  rw [readSolution_matchSet]
  show (∃ v < (candidatePairs a b).length, solution v = 1 ∧
    mapGet (numberPairs (candidatePairs a b)).variableToPair v (0, 0) = q) ↔ _
  constructor
  · rintro ⟨v, hv, h1, h2⟩
    have h3 : (candidatePairs a b)[v]? = some q := by
      have := find_variableToPair (candidatePairs a b) v
      rw [List.getElem?_eq_getElem hv] at this ⊢
      simp only [mapGet, this, Option.getD_some] at h2
      rw [h2]
    exact ⟨List.getElem?_mem h3, by rw [variableOf_of_getElem? a b q v h3]; exact h1⟩
  · rintro ⟨h1, h2⟩
    refine ⟨variableOf a b q, variableOf_lt a b q h1, h2, ?_⟩
    simp [mapGet, find_variableToPair, variableOf_spec a b q h1]

theorem accepted_sorted (sqrt : ℚ → ℚ) (solution : Solution) (a b : Image) :
    StrictSorted (accepted sqrt solution a b) :=
  (readSolution_inv _ _ _).1

theorem mem_gtToRec (a b : Image) (g r : Nat) :
    r ∈ gtToRec a b g ↔ (g, r) ∈ candidatePairs a b :=
  (getOverlaps_inv a b _).2.1 g r

theorem mem_recToGt (a b : Image) (g r : Nat) :
    g ∈ recToGt a b r ↔ (g, r) ∈ candidatePairs a b :=
  (getOverlaps_inv a b _).2.2.1 g r

theorem gtToRec_nodup (a b : Image) (g : Nat) : (gtToRec a b g).Nodup :=
  ((getOverlaps_inv a b _).2.2.2.1 g).nodup

theorem recToGt_nodup (a b : Image) (r : Nat) : (recToGt a b r).Nodup :=
  ((getOverlaps_inv a b _).2.2.2.2 r).nodup

theorem gtToRec_vars_nodup (a b : Image) (g : Nat) :
    ((gtToRec a b g).map (fun r => variableOf a b (g, r))).Nodup := by
  refine List.Nodup.map_on ?_ (gtToRec_nodup a b g)
  intro r hr r' hr' he
  have := variableOf_inj a b (g, r) (g, r') ((mem_gtToRec a b g r).1 hr)
    ((mem_gtToRec a b g r').1 hr') he
  exact (Prod.mk.inj this).2

theorem recToGt_vars_nodup (a b : Image) (r : Nat) :
    ((recToGt a b r).map (fun g => variableOf a b (g, r))).Nodup := by
  refine List.Nodup.map_on ?_ (recToGt_nodup a b r)
  intro g hg g' hg' he
  have := variableOf_inj a b (g, r) (g', r) ((mem_recToGt a b g r).1 hg)
    ((mem_recToGt a b g' r).1 hg') he
  exact (Prod.mk.inj this).1

/-- The constraints emitted by `updateOutputs` hold exactly when, for every
label of either image, the variables of the candidate pairs of that label sum
to at most one. -/
theorem feasible_iff (sqrt : ℚ → ℚ) (a b : Image) (solution : Solution) :
    Feasible (buildProblem sqrt a b).constraints solution ↔
      (∀ r, IsLabel b r →
        ((recToGt a b r).map (fun g => solution (variableOf a b (g, r)))).sum ≤ 1) ∧
      (∀ g, IsLabel a g →
        ((gtToRec a b g).map (fun r => solution (variableOf a b (g, r)))).sum ≤ 1) := by
  unfold Feasible
  show (∀ c ∈ buildConstraints (numberPairs (candidatePairs a b)).pairToVariable
    (getCenterPoints a ⟨[], [], []⟩).labels (getCenterPoints b ⟨[], [], []⟩).labels
    (getOverlaps a b ⟨[], [], [], []⟩).atob (getOverlaps a b ⟨[], [], [], []⟩).btoa,
    c.satisfiedBy solution) ↔ _
  rw [buildConstraints_eq]
  simp only [List.mem_append, List.mem_map, mem_labels_iff]
  constructor
  · intro h
    refine ⟨fun r hr => ?_, fun g hg => ?_⟩
    · exact (recConstraint_spec _ _ r solution (recToGt_vars_nodup a b r)).1
        (h _ (Or.inl ⟨r, hr, rfl⟩))
    · exact (gtConstraint_spec _ _ g solution (gtToRec_vars_nodup a b g)).1
        (h _ (Or.inr ⟨g, hg, rfl⟩))
  · rintro ⟨h1, h2⟩ c (⟨r, hr, rfl⟩ | ⟨g, hg, rfl⟩)
    · exact (recConstraint_spec _ _ r solution (recToGt_vars_nodup a b r)).2 (h1 r hr)
    · exact (gtConstraint_spec _ _ g solution (gtToRec_vars_nodup a b g)).2 (h2 g hg)

theorem sum_map_nonneg {α : Type} (l : List α) (f : α → ℚ) (h : ∀ x ∈ l, 0 ≤ f x) :
    0 ≤ (l.map f).sum := by
  induction l with
  | nil => simp
  | cons x l ih =>
    simp only [List.map_cons, List.sum_cons]
    have := h x (List.mem_cons_self _ _)
    have := ih (fun y hy => h y (List.mem_cons_of_mem _ hy))
    linarith

theorem le_sum_map {α : Type} (l : List α) (f : α → ℚ) (h : ∀ x ∈ l, 0 ≤ f x) (x : α)
    (hx : x ∈ l) : f x ≤ (l.map f).sum := by
  induction l with
  | nil => simp at hx
  | cons y l ih =>
    simp only [List.map_cons, List.sum_cons]
    have hy := h y (List.mem_cons_self _ _)
    have hl := sum_map_nonneg l f (fun z hz => h z (List.mem_cons_of_mem _ hz))
    rcases List.mem_cons.1 hx with rfl | hx
    · linarith
    · have := ih (fun z hz => h z (List.mem_cons_of_mem _ hz)) hx
      linarith

theorem add_le_sum_map {α : Type} (l : List α) (f : α → ℚ) (h : ∀ x ∈ l, 0 ≤ f x) (x y : α)
    (hx : x ∈ l) (hy : y ∈ l) (hne : x ≠ y) : f x + f y ≤ (l.map f).sum := by
  induction l with
  | nil => simp at hx
  | cons z l ih =>
    simp only [List.map_cons, List.sum_cons]
    have hz := h z (List.mem_cons_self _ _)
    have h' : ∀ w ∈ l, 0 ≤ f w := fun w hw => h w (List.mem_cons_of_mem _ hw)
    rcases List.mem_cons.1 hx with hxz | hxl
    · rcases List.mem_cons.1 hy with hyz | hyl
      · exact absurd (hxz.trans hyz.symm) hne
      · have := le_sum_map l f h' y hyl
        rw [hxz]; linarith
    · rcases List.mem_cons.1 hy with hyz | hyl
      · have := le_sum_map l f h' x hxl
        rw [hyz]; linarith
      · have := ih h' hxl hyl; linarith

theorem binary_nonneg (n : Nat) (solution : Solution) (h : IsBinary n solution) (v : Nat)
    (hv : v < n) : 0 ≤ solution v := by
  rcases h v hv with h | h
  · rw [h]
  · rw [h]; norm_num

/-- Two accepted matches that share their ground-truth label are equal, and so
are two that share their reconstruction label, under a binary feasible
solution. -/
theorem accepted_unique (sqrt : ℚ → ℚ) (a b : Image) (hs : SameSize a b) (solution : Solution)
    (hbin : IsBinary (candidatePairs a b).length solution)
    (hfeas : Feasible (buildProblem sqrt a b).constraints solution) :
    (∀ g r1 r2, (g, r1) ∈ accepted sqrt solution a b → (g, r2) ∈ accepted sqrt solution a b →
      r1 = r2) ∧
    (∀ r g1 g2, (g1, r) ∈ accepted sqrt solution a b → (g2, r) ∈ accepted sqrt solution a b →
      g1 = g2) := by
  obtain ⟨hrec, hgt⟩ := (feasible_iff sqrt a b solution).1 hfeas
  constructor
  · intro g r1 r2 h1 h2
    rw [mem_accepted] at h1 h2
    by_contra hne
    have hsum := hgt g (candidate_gt_label a b _ h1.1)
    have := add_le_sum_map (gtToRec a b g) (fun r => solution (variableOf a b (g, r)))
      (fun r hr => binary_nonneg _ _ hbin _ (variableOf_lt a b _ ((mem_gtToRec a b g r).1 hr)))
      r1 r2 ((mem_gtToRec a b g r1).2 h1.1) ((mem_gtToRec a b g r2).2 h2.1) hne
    simp only [h1.2, h2.2] at this
    linarith
  · intro r g1 g2 h1 h2
    rw [mem_accepted] at h1 h2
    by_contra hne
    have hsum := hrec r (candidate_rec_label a b hs _ h1.1)
    have := add_le_sum_map (recToGt a b r) (fun g => solution (variableOf a b (g, r)))
      (fun g hg => binary_nonneg _ _ hbin _ (variableOf_lt a b _ ((mem_recToGt a b g r).1 hg)))
      g1 g2 ((mem_recToGt a b g1 r).2 h1.1) ((mem_recToGt a b g2 r).2 h2.1) hne
    simp only [h1.2, h2.2] at this
    linarith

/-! ## The report of one run -/

theorem addUnmatched_sorted (gtLabels recLabels : List Nat) (m : MatchTables)
    (errors : DetectionOverlapErrors)
    (h : StrictSorted errors.falseNegatives ∧ StrictSorted errors.falsePositives) :
    StrictSorted (addUnmatched gtLabels recLabels m errors).falseNegatives ∧
      StrictSorted (addUnmatched gtLabels recLabels m errors).falsePositives := by
  unfold addUnmatched
  refine foldl_invariant
    (fun e : DetectionOverlapErrors =>
      StrictSorted e.falseNegatives ∧ StrictSorted e.falsePositives) _ ?_ _ _ ?_
  · intro e l he
    dsimp only
    split_ifs
    · exact ⟨he.1, strictSorted_setInsert _ _ he.2⟩
    · exact he
  · refine foldl_invariant
      (fun e : DetectionOverlapErrors =>
        StrictSorted e.falseNegatives ∧ StrictSorted e.falsePositives) _ ?_ _ _ h
    intro e l he
    dsimp only
    split_ifs
    · exact ⟨strictSorted_setInsert _ _ he.1, he.2⟩
    · exact he

/-- The false negatives of a run: the ground-truth labels without accepted
match. -/
theorem mem_run_falseNegatives (sqrt : ℚ → ℚ) (solution : Solution) (a b : Image) (l : Nat) :
    l ∈ (run sqrt solution a b).falseNegatives ↔
      IsLabel a l ∧ ∀ r, (l, r) ∉ accepted sqrt solution a b := by
  rw [run_eq]
  unfold interpret
  dsimp only
  rw [(addMatches_spec _ _ _ _ _).1, (addUnmatched_spec _ _ _ _).1]
  have hinv := readSolution_inv (buildProblem sqrt a b).overlaps.overlapPairs.length
    (buildProblem sqrt a b).vars.variableToPair solution
  rw [hinv.2.1 l]
  show l ∈ ([] : List Nat) ∨ (l ∈ (getCenterPoints a ⟨[], [], []⟩).labels ∧ _) ↔ _
  rw [mem_labels_iff]
  simp only [List.not_mem_nil, false_or]
  rfl

/-- The false positives of a run: the reconstruction labels without accepted
match. -/
theorem mem_run_falsePositives (sqrt : ℚ → ℚ) (solution : Solution) (a b : Image) (l : Nat) :
    l ∈ (run sqrt solution a b).falsePositives ↔
      IsLabel b l ∧ ∀ g, (g, l) ∉ accepted sqrt solution a b := by
  rw [run_eq]
  unfold interpret
  dsimp only
  rw [(addMatches_spec _ _ _ _ _).2.1, (addUnmatched_spec _ _ _ _).2.1]
  have hinv := readSolution_inv (buildProblem sqrt a b).overlaps.overlapPairs.length
    (buildProblem sqrt a b).vars.variableToPair solution
  rw [hinv.2.2 l]
  show l ∈ ([] : List Nat) ∨ (l ∈ (getCenterPoints b ⟨[], [], []⟩).labels ∧ _) ↔ _
  rw [mem_labels_iff]
  simp only [List.not_mem_nil, false_or]
  rfl

theorem run_sorted (sqrt : ℚ → ℚ) (solution : Solution) (a b : Image) :
    StrictSorted (run sqrt solution a b).falseNegatives ∧
      StrictSorted (run sqrt solution a b).falsePositives := by
  rw [run_eq]
  unfold interpret
  dsimp only
  rw [(addMatches_spec _ _ _ _ _).1, (addMatches_spec _ _ _ _ _).2.1]
  exact addUnmatched_sorted _ _ _ _ ⟨strictSorted_nil, strictSorted_nil⟩

/-- The match entries of a run: one entry per accepted match, in the order of
the set `matches`, with the measures of that pair. -/
theorem run_matchEntries (sqrt : ℚ → ℚ) (solution : Solution) (a b : Image) :
    (run sqrt solution a b).matchEntries =
      (accepted sqrt solution a b).map
        (measures (getOverlaps a b ⟨[], [], [], []⟩).overlapAreas
          (getCenterPoints a ⟨[], [], []⟩).sizes (getCenterPoints b ⟨[], [], []⟩).sizes) := by
  rw [run_eq]
  unfold interpret
  dsimp only
  rw [(addMatches_spec _ _ _ _ _).2.2, (addUnmatched_spec _ _ _ _).2.2]
  rfl

theorem measures_pair (overlapAreas : List ((Nat × Nat) × Nat))
    (gtSizes recSizes : List (Nat × Nat)) (p : Nat × Nat) :
    (measures overlapAreas gtSizes recSizes p).pair = p := rfl

theorem run_pairs (sqrt : ℚ → ℚ) (solution : Solution) (a b : Image) :
    (run sqrt solution a b).matchEntries.map MatchEntry.pair = accepted sqrt solution a b := by
  rw [run_matchEntries, List.map_map]
  exact List.map_id _

theorem eq_singleton_of_nodup {α : Type} (l : List α) (x : α) (hnd : l.Nodup)
    (h : ∀ y, y ∈ l ↔ y = x) : l = [x] := by
  match l, hnd, h with
  | [], _, h => exact absurd ((h x).2 rfl) (List.not_mem_nil x)
  | [y], _, h => rw [(h y).1 (List.mem_singleton_self y)]
  | y :: z :: t, hnd, h =>
    have hy := (h y).1 (by simp)
    have hz := (h z).1 (by simp)
    rw [List.nodup_cons] at hnd
    exact absurd (by rw [hy, hz]; simp) hnd.1

theorem eq_nil_of_forall_not_mem {α : Type} (l : List α) (h : ∀ y, y ∉ l) : l = [] :=
  List.eq_nil_iff_forall_not_mem.2 h

/-! ## Claims -/

/-- C1 (degree constraint): for equal-sized images and a solution that gives
each decision variable the value 0 or 1 and satisfies every constraint emitted
by `updateOutputs`, the accepted matches contain every ground-truth label in at
most one pair and every reconstruction label in at most one pair. -/
theorem degree_constraint (sqrt : ℚ → ℚ) (a b : Image) (solution : Solution)
    (hsize : SameSize a b)
    (hbinary : IsBinary (candidatePairs a b).length solution)
    (hfeasible : Feasible (buildProblem sqrt a b).constraints solution) :
    (accepted sqrt solution a b).Nodup ∧
    (∀ g r1 r2, (g, r1) ∈ accepted sqrt solution a b → (g, r2) ∈ accepted sqrt solution a b →
      r1 = r2) ∧
    (∀ r g1 g2, (g1, r) ∈ accepted sqrt solution a b → (g2, r) ∈ accepted sqrt solution a b →
      g1 = g2) :=
  ⟨(accepted_sorted sqrt solution a b).nodup,
    accepted_unique sqrt a b hsize solution hbinary hfeasible⟩

/-- Witness of C1 on the two-region example: the hypotheses hold there and the
accepted matches are `(1, 5)` and `(2, 7)`. -/
theorem degree_constraint_witness :
    SameSize exampleGt exampleRec ∧
    IsBinary (candidatePairs exampleGt exampleRec).length exampleSolution ∧
    Feasible (buildProblem sqrtOnSquares exampleGt exampleRec).constraints exampleSolution ∧
    accepted sqrtOnSquares exampleSolution exampleGt exampleRec = [(1, 5), (2, 7)] ∧
    ((accepted sqrtOnSquares exampleSolution exampleGt exampleRec).Nodup ∧
      (∀ g r1 r2, (g, r1) ∈ accepted sqrtOnSquares exampleSolution exampleGt exampleRec →
        (g, r2) ∈ accepted sqrtOnSquares exampleSolution exampleGt exampleRec → r1 = r2) ∧
      (∀ r g1 g2, (g1, r) ∈ accepted sqrtOnSquares exampleSolution exampleGt exampleRec →
        (g2, r) ∈ accepted sqrtOnSquares exampleSolution exampleGt exampleRec → g1 = g2)) :=
  ⟨⟨rfl, rfl⟩, by decide!, by decide!, by decide!,
    degree_constraint sqrtOnSquares exampleGt exampleRec exampleSolution ⟨rfl, rfl⟩
      (by decide!) (by decide!)⟩

/-- C2 (completeness): after one run of `updateOutputs` on an empty report,
whatever the solver answers, a non-background ground-truth label is a false
negative exactly when it is the first component of no accepted match, a
non-background reconstruction label is a false positive exactly when it is the
second component of no accepted match, and the two sets hold no other labels. -/
theorem completeness (sqrt : ℚ → ℚ) (solution : Solution) (a b : Image) :
    (∀ g, IsLabel a g →
      ((∃ e ∈ (run sqrt solution a b).matchEntries, e.pair.1 = g) ↔
        g ∉ (run sqrt solution a b).falseNegatives)) ∧
    (∀ r, IsLabel b r →
      ((∃ e ∈ (run sqrt solution a b).matchEntries, e.pair.2 = r) ↔
        r ∉ (run sqrt solution a b).falsePositives)) ∧
    (∀ g ∈ (run sqrt solution a b).falseNegatives, IsLabel a g) ∧
    (∀ r ∈ (run sqrt solution a b).falsePositives, IsLabel b r) := by
  have hpairs : ∀ q, (∃ e ∈ (run sqrt solution a b).matchEntries, e.pair = q) ↔
      q ∈ accepted sqrt solution a b := by
    intro q
    rw [← run_pairs sqrt solution a b, List.mem_map]
  refine ⟨?_, ?_, ?_, ?_⟩
  · intro g hg
    rw [mem_run_falseNegatives]
    constructor
    · rintro ⟨e, he, rfl⟩ ⟨-, h⟩
      exact h e.pair.2 ((hpairs _).1 ⟨e, he, rfl⟩)
    · intro h
      by_contra hne
      refine h ⟨hg, fun r hr => hne ?_⟩
      obtain ⟨e, he, hq⟩ := (hpairs _).2 hr
      exact ⟨e, he, by rw [hq]⟩
  · intro r hr
    rw [mem_run_falsePositives]
    constructor
    · rintro ⟨e, he, rfl⟩ ⟨-, h⟩
      exact h e.pair.1 ((hpairs _).1 ⟨e, he, rfl⟩)
    · intro h
      by_contra hne
      refine h ⟨hr, fun g hg => hne ?_⟩
      obtain ⟨e, he, hq⟩ := (hpairs _).2 hg
      exact ⟨e, he, by rw [hq]⟩
  · intro g hg
    exact ((mem_run_falseNegatives sqrt solution a b g).1 hg).1
  · intro r hr
    exact ((mem_run_falsePositives sqrt solution a b r).1 hr).1

/-- Witness of C2 on the two-region example with the solution that selects
variable 1 only: label 2 is matched and no false negative, label 1 is a false
negative and unmatched. -/
theorem completeness_witness :
    IsLabel exampleGt 2 ∧ IsLabel exampleGt 1 ∧
    (run sqrtOnSquares secondSolution exampleGt exampleRec).falseNegatives = [1] ∧
    (run sqrtOnSquares secondSolution exampleGt exampleRec).falsePositives = [7] ∧
    (∃ e ∈ (run sqrtOnSquares secondSolution exampleGt exampleRec).matchEntries,
      e.pair.1 = 2) ∧
    ¬ (∃ e ∈ (run sqrtOnSquares secondSolution exampleGt exampleRec).matchEntries,
      e.pair.1 = 1) :=
  ⟨⟨by decide, 2, 0, by decide, by decide, rfl⟩, ⟨by decide, 0, 0, by decide, by decide, rfl⟩,
    by decide!, by decide!,
    ((completeness sqrtOnSquares secondSolution exampleGt exampleRec).1 2
      ⟨by decide, 2, 0, by decide, by decide, rfl⟩).2 (by decide!),
    fun h => ((completeness sqrtOnSquares secondSolution exampleGt exampleRec).1 1
      ⟨by decide, 0, 0, by decide, by decide, rfl⟩).1 h (by decide!)⟩

theorem find_pairToVariable_none (ps : List (Nat × Nat)) (hnd : ps.Nodup) (q : Nat × Nat)
    (h : q ∉ ps) : mapFind (numberPairs ps).pairToVariable q = none := by
  cases hf : mapFind (numberPairs ps).pairToVariable q with
  | none => rfl
  | some i => exact absurd (List.getElem?_mem ((find_pairToVariable ps hnd q i).1 hf)) h

theorem isLabel_single (image : Image) (l l' : Nat) (h : HasSingleLabel image l)
    (h' : IsLabel image l') : l' = l := by
  obtain ⟨hne, x, y, hx, hy, hp⟩ := h'
  rcases h.2 x hx y hy with h0 | h1
  · exact absurd (hp ▸ h0) hne
  · exact hp ▸ h1

/-- C3: whatever the solver answers, a ground-truth label that occurs in no
candidate pair is a false negative and no variable stands for a pair with that
label; likewise a reconstruction label without candidate pair is a false
positive; and (Scenario B) two equal-sized single-region images whose regions
share no pixel give no accepted match, exactly one false negative and exactly
one false positive. -/
theorem unmatched_without_candidate (sqrt : ℚ → ℚ) (solution : Solution) (a b : Image) :
    (∀ g, IsLabel a g → (∀ r, (g, r) ∉ candidatePairs a b) →
      g ∈ (run sqrt solution a b).falseNegatives ∧
      (∀ v p, mapFind (buildProblem sqrt a b).vars.variableToPair v = some p → p.1 ≠ g) ∧
      (∀ r, mapFind (buildProblem sqrt a b).vars.pairToVariable (g, r) = none)) ∧
    (∀ r, IsLabel b r → (∀ g, (g, r) ∉ candidatePairs a b) →
      r ∈ (run sqrt solution a b).falsePositives ∧
      (∀ v p, mapFind (buildProblem sqrt a b).vars.variableToPair v = some p → p.2 ≠ r) ∧
      (∀ g, mapFind (buildProblem sqrt a b).vars.pairToVariable (g, r) = none)) ∧
    (∀ g r, SameSize a b → HasSingleLabel a g → HasSingleLabel b r →
      (∀ x, x < a.width → ∀ y, y < a.height → ¬ (a.pixel x y = g ∧ b.pixel x y = r)) →
      (run sqrt solution a b).matchEntries = [] ∧
      (run sqrt solution a b).falseNegatives = [g] ∧
      (run sqrt solution a b).falsePositives = [r]) := by
  have hv2p : ∀ v p, mapFind (buildProblem sqrt a b).vars.variableToPair v = some p →
      p ∈ candidatePairs a b := by
    intro v p h
    have h1 : mapFind (numberPairs (candidatePairs a b)).variableToPair v = some p := h
    rw [find_variableToPair] at h1
    exact List.getElem?_mem h1
  refine ⟨?_, ?_, ?_⟩
  · intro g hg hno
    refine ⟨?_, ?_, ?_⟩
    · rw [mem_run_falseNegatives]
      exact ⟨hg, fun r hr => hno r ((mem_accepted sqrt solution a b _).1 hr).1⟩
    · intro v p h hp
      exact hno p.2 (by rw [← hp]; exact hv2p v p h)
    · intro r
      exact find_pairToVariable_none _ (candidatePairs_nodup a b) _ (hno r)
  · intro r hr hno
    refine ⟨?_, ?_, ?_⟩
    · rw [mem_run_falsePositives]
      exact ⟨hr, fun g hg => hno g ((mem_accepted sqrt solution a b _).1 hg).1⟩
    · intro v p h hp
      exact hno p.1 (by rw [← hp]; exact hv2p v p h)
    · intro g
      exact find_pairToVariable_none _ (candidatePairs_nodup a b) _ (hno g)
  · intro g r hsize hga hrb hdisj
    have hnone : ∀ q, q ∉ candidatePairs a b := by
      intro q hq
      obtain ⟨h1, h2, x, y, hx, hy, h3, h4⟩ := (mem_candidatePairs a b q).1 hq
      have e1 : a.pixel x y = g := by
        rcases hga.2 x hx y hy with h0 | h0
        · exact absurd (h3 ▸ h0) h1
        · exact h0
      have e2 : b.pixel x y = r := by
        rcases hrb.2 x (hsize.1 ▸ hx) y (hsize.2 ▸ hy) with h0 | h0
        · exact absurd (h4 ▸ h0) h2
        · exact h0
      exact hdisj x hx y hy ⟨e1, e2⟩
    have hacc : ∀ q, q ∉ accepted sqrt solution a b := fun q hq =>
      hnone q ((mem_accepted sqrt solution a b q).1 hq).1
    refine ⟨?_, ?_, ?_⟩
    · rw [run_matchEntries, eq_nil_of_forall_not_mem _ hacc]
      rfl
    · refine eq_singleton_of_nodup _ g (run_sorted sqrt solution a b).1.nodup ?_
      intro l
      rw [mem_run_falseNegatives]
      constructor
      · rintro ⟨h, -⟩
        exact isLabel_single a g l hga h
      · rintro rfl
        exact ⟨hga.1, fun r' => hacc _⟩
    · refine eq_singleton_of_nodup _ r (run_sorted sqrt solution a b).2.nodup ?_
      intro l
      rw [mem_run_falsePositives]
      constructor
      · rintro ⟨h, -⟩
        exact isLabel_single b r l hrb h
      · rintro rfl
        exact ⟨hrb.1, fun g' => hacc _⟩

/-- Witness of C3 on two one-pixel regions side by side: both labels have no
candidate pair, and the report has no match, the false negative 1 and the
false positive 2. -/
theorem unmatched_without_candidate_witness :
    IsLabel leftRegion 1 ∧ (∀ r, (1, r) ∉ candidatePairs leftRegion rightRegion) ∧
    IsLabel rightRegion 2 ∧ (∀ g, (g, 2) ∉ candidatePairs leftRegion rightRegion) ∧
    SameSize leftRegion rightRegion ∧ HasSingleLabel leftRegion 1 ∧
    HasSingleLabel rightRegion 2 ∧
    1 ∈ (run sqrtOnSquares exampleSolution leftRegion rightRegion).falseNegatives ∧
    2 ∈ (run sqrtOnSquares exampleSolution leftRegion rightRegion).falsePositives ∧
    (run sqrtOnSquares exampleSolution leftRegion rightRegion).matchEntries = [] ∧
    (run sqrtOnSquares exampleSolution leftRegion rightRegion).falseNegatives = [1] ∧
    (run sqrtOnSquares exampleSolution leftRegion rightRegion).falsePositives = [2] := by
  have hcand : candidatePairs leftRegion rightRegion = [] := by decide
  have hl1 : IsLabel leftRegion 1 := ⟨by decide, 0, 0, by decide, by decide, rfl⟩
  have hl2 : IsLabel rightRegion 2 := ⟨by decide, 1, 0, by decide, by decide, rfl⟩
  have hn1 : ∀ r, (1, r) ∉ candidatePairs leftRegion rightRegion := by
    intro r; rw [hcand]; exact List.not_mem_nil _
  have hn2 : ∀ g, (g, 2) ∉ candidatePairs leftRegion rightRegion := by
    intro g; rw [hcand]; exact List.not_mem_nil _
  have hs1 : HasSingleLabel leftRegion 1 := ⟨hl1, by decide⟩
  have hs2 : HasSingleLabel rightRegion 2 := ⟨hl2, by decide⟩
  have h := unmatched_without_candidate sqrtOnSquares exampleSolution leftRegion rightRegion
  have hB := h.2.2 1 2 ⟨rfl, rfl⟩ hs1 hs2 (by decide)
  exact ⟨hl1, hn1, hl2, hn2, ⟨rfl, rfl⟩, hs1, hs2, (h.1 1 hl1 hn1).1, (h.2.1 2 hl2 hn2).1,
    hB.1, hB.2.1, hB.2.2⟩

/-! ## Scores -/

theorem rawScore_ge_half (sqrt : ℚ → ℚ) (p q : Point) : 1 / 2 ≤ rawScore sqrt p q :=
  le_max_left _ _

theorem scorePairs_fold (raw : Nat × Nat → ℚ) (qs : List (Nat × Nat))
    (st : List ((Nat × Nat) × ℚ) × ℚ) :
    (∀ q, mapFind (qs.foldl (fun st p => (mapSet st.1 p (raw p), max (raw p) st.2)) st).1 q =
      if q ∈ qs then some (raw q) else mapFind st.1 q) ∧
    st.2 ≤ (qs.foldl (fun st p => (mapSet st.1 p (raw p), max (raw p) st.2)) st).2 ∧
    (∀ q ∈ qs, raw q ≤ (qs.foldl (fun st p => (mapSet st.1 p (raw p), max (raw p) st.2)) st).2) ∧
    ((qs.foldl (fun st p => (mapSet st.1 p (raw p), max (raw p) st.2)) st).2 = st.2 ∨
      ∃ q ∈ qs, (qs.foldl (fun st p => (mapSet st.1 p (raw p), max (raw p) st.2)) st).2 =
        raw q) := by
  induction qs generalizing st with
  | nil => simp
  | cons p qs ih =>
    rw [List.foldl_cons]
    obtain ⟨h1, h2, h3, h4⟩ := ih (mapSet st.1 p (raw p), max (raw p) st.2)
    refine ⟨?_, ?_, ?_, ?_⟩
    · intro q
      rw [h1 q]
      by_cases hq : q ∈ qs
      · simp [hq]
      · by_cases hqp : q = p
        · simp [mapFind_mapSet, hqp]
        · simp [hq, hqp, mapFind_mapSet]
    · exact le_trans (le_max_right _ _) h2
    · intro q hq
      rcases List.mem_cons.1 hq with rfl | hq
      · exact le_trans (le_max_left _ _) h2
      · exact h3 q hq
    · rcases h4 with h4 | ⟨q, hq, h4⟩
      · rcases max_choice (raw p) st.2 with hm | hm
        · right
          exact ⟨p, List.mem_cons_self _ _, by rw [h4]; exact hm⟩
        · left
          rw [h4]; exact hm
      · right
        exact ⟨q, List.mem_cons_of_mem _ hq, h4⟩

theorem shiftScores_fold (shift : ℚ) (qs : List (Nat × Nat)) (hnd : qs.Nodup)
    (ms : List ((Nat × Nat) × ℚ)) (q : Nat × Nat) :
    mapFind (qs.foldl (fun ms p => mapSet ms p (mapGet ms p 0 - shift)) ms) q =
      if q ∈ qs then some (mapGet ms q 0 - shift) else mapFind ms q := by
  induction qs generalizing ms with
  | nil => simp
  | cons p qs ih =>
    rw [List.nodup_cons] at hnd
    rw [List.foldl_cons, ih hnd.2]
    by_cases hq : q ∈ qs
    · have hqp : q ≠ p := fun h => hnd.1 (h ▸ hq)
      simp [hq, mapGet_mapSet, hqp]
    · by_cases hqp : q = p
      · subst hqp
        simp [hq, mapFind_mapSet]
      · simp [hq, hqp, mapFind_mapSet]

/-- The value `maxScore` of `updateOutputs` on `a` and `b` bounds the raw cost
of every candidate pair and, when there is a candidate pair, is the raw cost of
one of them. -/
theorem maxScore_spec (sqrt : ℚ → ℚ) (a b : Image) :
    (∀ q ∈ candidatePairs a b, rawCost sqrt a b q ≤ (buildProblem sqrt a b).maxScore) ∧
    (candidatePairs a b ≠ [] →
      ∃ q ∈ candidatePairs a b, (buildProblem sqrt a b).maxScore = rawCost sqrt a b q) := by
  obtain ⟨-, h2, h3, h4⟩ := scorePairs_fold (rawCost sqrt a b) (candidatePairs a b) ([], 0)
  refine ⟨h3, ?_⟩
  intro hne
  rcases h4 with h4 | h4
  · obtain ⟨q, hq⟩ := List.exists_mem_of_ne_nil _ hne
    have hq1 := h3 q hq
    have hq2 : (1 : ℚ) / 2 ≤ rawCost sqrt a b q := rawScore_ge_half _ _ _
    have h0 : ((candidatePairs a b).foldl
      (fun st p => (mapSet st.1 p (rawCost sqrt a b p), max (rawCost sqrt a b p) st.2))
      (([] : List ((Nat × Nat) × ℚ)), (0 : ℚ))).2 = 0 := h4
    rw [h0] at hq1
    linarith
  · exact h4

/-- The final score of a candidate pair is its raw cost minus 1.1 times
`maxScore`. -/
theorem finalScore_eq (sqrt : ℚ → ℚ) (a b : Image) (q : Nat × Nat)
    (hq : q ∈ candidatePairs a b) :
    mapFind (buildProblem sqrt a b).matchingScore q =
      some (rawCost sqrt a b q - (buildProblem sqrt a b).maxScore * (11 / 10)) := by
  obtain ⟨h1, -, -, -⟩ := scorePairs_fold (rawCost sqrt a b) (candidatePairs a b) ([], 0)
  have h := shiftScores_fold ((buildProblem sqrt a b).maxScore * (11 / 10))
    (candidatePairs a b) (candidatePairs_nodup a b)
    (scorePairs sqrt (getCenterPoints a ⟨[], [], []⟩).centers
      (getCenterPoints b ⟨[], [], []⟩).centers (candidatePairs a b)).1 q
  have h1q := h1 q
  simp only [hq, if_true] at h h1q
  have hg : mapGet (scorePairs sqrt (getCenterPoints a ⟨[], [], []⟩).centers
      (getCenterPoints b ⟨[], [], []⟩).centers (candidatePairs a b)).1 q 0 =
      rawCost sqrt a b q := by
    unfold mapGet
    have : mapFind (scorePairs sqrt (getCenterPoints a ⟨[], [], []⟩).centers
      (getCenterPoints b ⟨[], [], []⟩).centers (candidatePairs a b)).1 q =
      some (rawCost sqrt a b q) := h1q
    rw [this]; rfl
  rw [hg] at h
  exact h

theorem finalScore_spec (sqrt : ℚ → ℚ) (a b : Image) (q : Nat × Nat)
    (hq : q ∈ candidatePairs a b) :
    finalScore sqrt a b q =
      rawCost sqrt a b q - (buildProblem sqrt a b).maxScore * (11 / 10) := by
  unfold finalScore mapGet
  rw [finalScore_eq sqrt a b q hq]
  rfl

theorem finalScore_neg (sqrt : ℚ → ℚ) (a b : Image) (q : Nat × Nat)
    (hq : q ∈ candidatePairs a b) : finalScore sqrt a b q < 0 := by
  rw [finalScore_spec sqrt a b q hq]
  have h1 := (maxScore_spec sqrt a b).1 q hq
  have h2 : (1 : ℚ) / 2 ≤ rawCost sqrt a b q := rawScore_ge_half _ _ _
  linarith

/-! ## The objective of `updateOutputs` -/

theorem objective_spec (sqrt : ℚ → ℚ) (a b : Image) :
    (buildProblem sqrt a b).objective.coefficients.length = (candidatePairs a b).length ∧
    ∀ q ∈ candidatePairs a b,
      (buildProblem sqrt a b).objective.coefficients[variableOf a b q]? =
        some (finalScore sqrt a b q) := by
  have h := foldl_list_set (candidatePairs a b) (variableOf a b) (finalScore sqrt a b)
    (List.replicate (candidatePairs a b).length 0)
    (fun q hq q' hq' he => variableOf_inj a b q q' hq hq' he)
  have hfold : ∀ (qs : List (Nat × Nat)) (o : LinearObjective),
      (qs.foldl (fun o p => o.setCoefficient
        (mapGet (numberPairs (candidatePairs a b)).pairToVariable p 0)
        (mapGet (buildProblem sqrt a b).matchingScore p 0)) o).coefficients =
      qs.foldl (fun l q => l.set (variableOf a b q) (finalScore sqrt a b q)) o.coefficients := by
    intro qs
    induction qs with
    | nil => intro o; rfl
    | cons p qs ih => intro o; rw [List.foldl_cons, List.foldl_cons, ih]; rfl
  have heq : (buildProblem sqrt a b).objective.coefficients =
      (candidatePairs a b).foldl (fun l q => l.set (variableOf a b q) (finalScore sqrt a b q))
        (List.replicate (candidatePairs a b).length 0) :=
    hfold (candidatePairs a b) (LinearObjective.ofSize (candidatePairs a b).length)
  rw [heq]
  refine ⟨by rw [h.1, List.length_replicate], ?_⟩
  intro q hq
  exact h.2 q hq (by rw [List.length_replicate]; exact variableOf_lt a b q hq)

/-- The objective changes by the score of the pair, times the change of its
variable, when only that variable is changed. -/
theorem valueAt_update (sqrt : ℚ → ℚ) (a b : Image) (solution : Solution) (q : Nat × Nat)
    (hq : q ∈ candidatePairs a b) (x : ℚ) :
    (buildProblem sqrt a b).objective.valueAt (Function.update solution (variableOf a b q) x) =
      (buildProblem sqrt a b).objective.valueAt solution +
        finalScore sqrt a b q * (x - solution (variableOf a b q)) := by
  obtain ⟨hlen, hcoef⟩ := objective_spec sqrt a b
  unfold LinearObjective.valueAt
  rw [sum_range_update _ _
    (fun v => (buildProblem sqrt a b).objective.coefficients.getD v 0 * solution v)
    (variableOf a b q) (by rw [hlen]; exact variableOf_lt a b q hq)]
  · have hc : (buildProblem sqrt a b).objective.coefficients.getD (variableOf a b q) 0 =
        finalScore sqrt a b q := by
      rw [List.getD_eq_getElem?_getD, hcoef q hq]; rfl
    simp only [Function.update_same, hc]
    ring
  · intro i hi
    simp only [Function.update_noteq hi]

theorem sum_indicator_le_one (l : List Nat) (hnd : l.Nodup) (x : Nat) :
    (l.map (fun r => if r = x then (1 : ℚ) else 0)).sum ≤ 1 := by
  induction l with
  | nil => simp
  | cons y t ih =>
    rw [List.nodup_cons] at hnd
    simp only [List.map_cons, List.sum_cons]
    by_cases hy : y = x
    · subst hy
      have h0 : (t.map (fun r => if r = y then (1 : ℚ) else 0)) = t.map (fun _ => 0) := by
        apply List.map_congr_left
        intro r hr
        have : r ≠ y := fun h => hnd.1 (h ▸ hr)
        simp [this]
      rw [h0]
      simp
    · simp only [hy, if_false, zero_add]
      exact ih hnd.2

/-- Selecting one more candidate pair whose labels are used by no selected
pair keeps a binary feasible solution binary and feasible. -/
theorem feasible_update (sqrt : ℚ → ℚ) (a b : Image) (solution : Solution) (q : Nat × Nat)
    (hbin : IsBinary (candidatePairs a b).length solution)
    (hfeas : Feasible (buildProblem sqrt a b).constraints solution)
    (hq : q ∈ candidatePairs a b)
    (hfree : ∀ q' ∈ accepted sqrt solution a b, q'.1 ≠ q.1 ∧ q'.2 ≠ q.2) :
    IsBinary (candidatePairs a b).length (Function.update solution (variableOf a b q) 1) ∧
    Feasible (buildProblem sqrt a b).constraints
      (Function.update solution (variableOf a b q) 1) := by
  have hzero : ∀ q' ∈ candidatePairs a b, (q'.1 = q.1 ∨ q'.2 = q.2) →
      solution (variableOf a b q') = 0 := by
    intro q' hq' hc
    rcases hbin _ (variableOf_lt a b q' hq') with h | h
    · exact h
    · have := hfree q' ((mem_accepted sqrt solution a b q').2 ⟨hq', h⟩)
      rcases hc with hc | hc
      · exact absurd hc this.1
      · exact absurd hc this.2
  constructor
  · intro v hv
    by_cases h : v = variableOf a b q
    · right; rw [h, Function.update_same]
    · rw [Function.update_noteq h]; exact hbin v hv
  · obtain ⟨hrec, hgt⟩ := (feasible_iff sqrt a b solution).1 hfeas
    rw [feasible_iff]
    constructor
    · intro r hr
      by_cases hrq : r = q.2
      · have hmap : (recToGt a b r).map
            (fun g => Function.update solution (variableOf a b q) 1 (variableOf a b (g, r))) =
            (recToGt a b r).map (fun g => if g = q.1 then (1 : ℚ) else 0) := by
          apply List.map_congr_left
          intro g hg
          have hg' := (mem_recToGt a b g r).1 hg
          by_cases hgq : g = q.1
          · have : (g, r) = q := by rw [hgq, hrq]
            rw [if_pos hgq, this, Function.update_same]
          · have hne : variableOf a b (g, r) ≠ variableOf a b q := fun he =>
              hgq (congrArg Prod.fst (variableOf_inj a b _ _ hg' hq he))
            rw [Function.update_noteq hne, hzero _ hg' (Or.inr hrq), if_neg hgq]
        rw [hmap]
        exact sum_indicator_le_one _ (recToGt_nodup a b r) _
      · have hmap : (recToGt a b r).map
            (fun g => Function.update solution (variableOf a b q) 1 (variableOf a b (g, r))) =
            (recToGt a b r).map (fun g => solution (variableOf a b (g, r))) := by
          apply List.map_congr_left
          intro g hg
          have hg' := (mem_recToGt a b g r).1 hg
          have hne : variableOf a b (g, r) ≠ variableOf a b q := fun he =>
            hrq (congrArg Prod.snd (variableOf_inj a b _ _ hg' hq he))
          rw [Function.update_noteq hne]
        rw [hmap]
        exact hrec r hr
    · intro g hg
      by_cases hgq : g = q.1
      · have hmap : (gtToRec a b g).map
            (fun r => Function.update solution (variableOf a b q) 1 (variableOf a b (g, r))) =
            (gtToRec a b g).map (fun r => if r = q.2 then (1 : ℚ) else 0) := by
          apply List.map_congr_left
          intro r hr
          have hr' := (mem_gtToRec a b g r).1 hr
          by_cases hrq : r = q.2
          · have : (g, r) = q := by rw [hgq, hrq]
            rw [if_pos hrq, this, Function.update_same]
          · have hne : variableOf a b (g, r) ≠ variableOf a b q := fun he =>
              hrq (congrArg Prod.snd (variableOf_inj a b _ _ hr' hq he))
            rw [Function.update_noteq hne, hzero _ hr' (Or.inl hgq), if_neg hrq]
        rw [hmap]
        exact sum_indicator_le_one _ (gtToRec_nodup a b g) _
      · have hmap : (gtToRec a b g).map
            (fun r => Function.update solution (variableOf a b q) 1 (variableOf a b (g, r))) =
            (gtToRec a b g).map (fun r => solution (variableOf a b (g, r))) := by
          apply List.map_congr_left
          intro r hr
          have hr' := (mem_gtToRec a b g r).1 hr
          have hne : variableOf a b (g, r) ≠ variableOf a b q := fun he =>
            hgq (congrArg Prod.fst (variableOf_inj a b _ _ hr' hq he))
          rw [Function.update_noteq hne]
        rw [hmap]
        exact hgt g hg

/-- C7 (score sign invariant): for every candidate pair of `updateOutputs`, the
stored score is the raw cost (centre distance floored at 0.5) minus 1.1 times
`maxScore`, where `maxScore` is the largest raw cost over the candidate pairs,
and this final score is strictly negative. -/
theorem score_sign_invariant (sqrt : ℚ → ℚ) (a b : Image) (q : Nat × Nat)
    (hq : q ∈ candidatePairs a b) :
    (∀ q' ∈ candidatePairs a b, rawCost sqrt a b q' ≤ (buildProblem sqrt a b).maxScore) ∧
    (∃ q' ∈ candidatePairs a b, (buildProblem sqrt a b).maxScore = rawCost sqrt a b q') ∧
    1 / 2 ≤ rawCost sqrt a b q ∧
    mapFind (buildProblem sqrt a b).matchingScore q =
      some (rawCost sqrt a b q - (buildProblem sqrt a b).maxScore * (11 / 10)) ∧
    rawCost sqrt a b q - (buildProblem sqrt a b).maxScore * (11 / 10) < 0 := by
  refine ⟨(maxScore_spec sqrt a b).1, (maxScore_spec sqrt a b).2 (List.ne_nil_of_mem hq),
    rawScore_ge_half _ _ _, finalScore_eq sqrt a b q hq, ?_⟩
  rw [← finalScore_spec sqrt a b q hq]
  exact finalScore_neg sqrt a b q hq

/-- Witness of C7 on the two-region example: the pair `(1, 5)` has raw cost
1/2, `maxScore` is 2 and the final score is -17/10. -/
theorem score_sign_invariant_witness :
    (1, 5) ∈ candidatePairs exampleGt exampleRec ∧
    rawCost sqrtOnSquares exampleGt exampleRec (1, 5) = 1 / 2 ∧
    (buildProblem sqrtOnSquares exampleGt exampleRec).maxScore = 2 ∧
    mapFind (buildProblem sqrtOnSquares exampleGt exampleRec).matchingScore (1, 5) =
      some (rawCost sqrtOnSquares exampleGt exampleRec (1, 5) -
        (buildProblem sqrtOnSquares exampleGt exampleRec).maxScore * (11 / 10)) ∧
    rawCost sqrtOnSquares exampleGt exampleRec (1, 5) -
      (buildProblem sqrtOnSquares exampleGt exampleRec).maxScore * (11 / 10) < 0 :=
  ⟨by decide, by decide!, by decide!,
    (score_sign_invariant sqrtOnSquares exampleGt exampleRec (1, 5) (by decide)).2.2.2.1,
    (score_sign_invariant sqrtOnSquares exampleGt exampleRec (1, 5) (by decide)).2.2.2.2⟩

/-- C5 as stated fails: on the one-pixel image matched with itself, the
solution that selects nothing is binary and feasible and the only candidate
pair conflicts with no selected pair, but selecting it does not give a greater
objective value (the value falls from 0 to -1/20). -/
theorem more_matches_not_greater :
    IsBinary (candidatePairs onePixel onePixel).length zeroSolution ∧
    Feasible (buildProblem sqrtOnSquares onePixel onePixel).constraints zeroSolution ∧
    (1, 1) ∈ candidatePairs onePixel onePixel ∧
    zeroSolution (variableOf onePixel onePixel (1, 1)) ≠ 1 ∧
    (∀ q' ∈ accepted sqrtOnSquares zeroSolution onePixel onePixel, q'.1 ≠ 1 ∧ q'.2 ≠ 1) ∧
    (buildProblem sqrtOnSquares onePixel onePixel).objective.valueAt zeroSolution = 0 ∧
    (buildProblem sqrtOnSquares onePixel onePixel).objective.valueAt
      (Function.update zeroSolution (variableOf onePixel onePixel (1, 1)) 1) = -1 / 20 ∧
    ¬ ((buildProblem sqrtOnSquares onePixel onePixel).objective.valueAt zeroSolution <
      (buildProblem sqrtOnSquares onePixel onePixel).objective.valueAt
        (Function.update zeroSolution (variableOf onePixel onePixel (1, 1)) 1)) := by
  refine ⟨by decide!, by decide!, by decide, by decide!, by decide!, by decide!, by decide!,
    by decide!⟩

/-- C5 (amended): for a 0/1 solution that satisfies the emitted constraints and
a candidate pair that it does not select and whose two labels are used by no
selected pair, the solution that additionally selects that pair is again 0/1,
satisfies the constraints and has a strictly smaller objective value; hence a
solution that minimizes the objective never leaves such a pair unselected. -/
theorem more_matches_preferred (sqrt : ℚ → ℚ) (a b : Image) (solution : Solution)
    (q : Nat × Nat)
    (hbinary : IsBinary (candidatePairs a b).length solution)
    (hfeasible : Feasible (buildProblem sqrt a b).constraints solution)
    (hq : q ∈ candidatePairs a b)
    (hunselected : solution (variableOf a b q) ≠ 1)
    (hfree : ∀ q' ∈ accepted sqrt solution a b, q'.1 ≠ q.1 ∧ q'.2 ≠ q.2) :
    IsBinary (candidatePairs a b).length (Function.update solution (variableOf a b q) 1) ∧
    Feasible (buildProblem sqrt a b).constraints
      (Function.update solution (variableOf a b q) 1) ∧
    (buildProblem sqrt a b).objective.valueAt (Function.update solution (variableOf a b q) 1) <
      (buildProblem sqrt a b).objective.valueAt solution ∧
    ¬ Minimizes (buildProblem sqrt a b).objective (buildProblem sqrt a b).constraints
      solution := by
  obtain ⟨h1, h2⟩ := feasible_update sqrt a b solution q hbinary hfeasible hq hfree
  have h0 : solution (variableOf a b q) = 0 := by
    rcases hbinary _ (variableOf_lt a b q hq) with h | h
    · exact h
    · exact absurd h hunselected
  have h3 : (buildProblem sqrt a b).objective.valueAt
      (Function.update solution (variableOf a b q) 1) <
      (buildProblem sqrt a b).objective.valueAt solution := by
    rw [valueAt_update sqrt a b solution q hq 1, h0]
    have := finalScore_neg sqrt a b q hq
    linarith
  refine ⟨h1, h2, h3, ?_⟩
  rintro ⟨-, -, hmin⟩
  have := hmin _ (by rw [(objective_spec sqrt a b).1]; exact h1) h2
  linarith

/-- Witness of C5 (amended) on the one-pixel image: selecting the only
candidate pair lowers the objective from 0 to -1/20. -/
theorem more_matches_preferred_witness :
    IsBinary (candidatePairs onePixel onePixel).length zeroSolution ∧
    Feasible (buildProblem sqrtOnSquares onePixel onePixel).constraints zeroSolution ∧
    (1, 1) ∈ candidatePairs onePixel onePixel ∧
    (buildProblem sqrtOnSquares onePixel onePixel).objective.valueAt
      (Function.update zeroSolution (variableOf onePixel onePixel (1, 1)) 1) <
      (buildProblem sqrtOnSquares onePixel onePixel).objective.valueAt zeroSolution ∧
    ¬ Minimizes (buildProblem sqrtOnSquares onePixel onePixel).objective
      (buildProblem sqrtOnSquares onePixel onePixel).constraints zeroSolution :=
  ⟨by decide!, by decide!, by decide,
    (more_matches_preferred sqrtOnSquares onePixel onePixel zeroSolution (1, 1) (by decide!)
      (by decide!) (by decide) (by decide!) (by decide!)).2.2.1,
    (more_matches_preferred sqrtOnSquares onePixel onePixel zeroSolution (1, 1) (by decide!)
      (by decide!) (by decide) (by decide!) (by decide!)).2.2.2⟩

/-! ## Areas and sizes -/

theorem overlapCount_pos (a b : Image) (q : Nat × Nat) (hq : q ∈ candidatePairs a b) :
    0 < overlapCount a b q := by
  obtain ⟨p, hp, h⟩ := (mem_overlapPairs a b _ q).1 hq
  exact List.countP_pos_iff.2 ⟨p, hp, h⟩

theorem overlapCount_le_gt (a b : Image) (q : Nat × Nat) :
    overlapCount a b q ≤ labelCount a q.1 := by
  unfold overlapCount labelCount
  apply List.countP_mono_left
  intro p _ h
  simp only [overlapHit, labelHit, decide_eq_true_eq] at h ⊢
  exact ⟨h.1, h.2.2.1⟩

theorem overlapCount_le_rec (a b : Image) (hs : SameSize a b) (q : Nat × Nat) :
    overlapCount a b q ≤ labelCount b q.2 := by
  unfold overlapCount labelCount
  rw [← hs.1, ← hs.2]
  apply List.countP_mono_left
  intro p _ h
  simp only [overlapHit, labelHit, decide_eq_true_eq] at h ⊢
  exact ⟨h.2.1, h.2.2.2⟩

/-- The three table entries behind a candidate pair: the overlap area, the
ground-truth size and the reconstruction size are present, positive, and the
area is at most either size. -/
theorem candidate_entries (a b : Image) (hs : SameSize a b) (q : Nat × Nat)
    (hq : q ∈ candidatePairs a b) :
    ∃ area gtSize recSize : Nat,
      mapFind (getOverlaps a b ⟨[], [], [], []⟩).overlapAreas q = some area ∧
      mapFind (getCenterPoints a ⟨[], [], []⟩).sizes q.1 = some gtSize ∧
      mapFind (getCenterPoints b ⟨[], [], []⟩).sizes q.2 = some recSize ∧
      1 ≤ area ∧ area ≤ gtSize ∧ area ≤ recSize := by
  have h0 := overlapCount_pos a b q hq
  have h1 := overlapCount_le_gt a b q
  have h2 := overlapCount_le_rec a b hs q
  refine ⟨overlapCount a b q, labelCount a q.1, labelCount b q.2, ?_, ?_, ?_, h0, h1, h2⟩
  · rw [find_overlapAreas, if_neg (by omega)]
  · rw [find_sizes, if_neg (by omega)]
  · rw [find_sizes, if_neg (by omega)]

/-- C9 (area bound): for equal-sized images and every candidate pair
`(g, r)` produced by `getOverlaps`, the entries `overlapAreas[(g, r)]`,
`gtSizes[g]` and `recSizes[r]` exist and
`overlapAreas[(g, r)] ≤ min(gtSizes[g], recSizes[r])`, the sizes being those
of `getCenterPoints` on the same two images. -/
theorem area_bound (a b : Image) (g r : Nat) (hsize : SameSize a b)
    (hq : (g, r) ∈ (getOverlaps a b ⟨[], [], [], []⟩).overlapPairs) :
    ∃ area gtSize recSize : Nat,
      mapFind (getOverlaps a b ⟨[], [], [], []⟩).overlapAreas (g, r) = some area ∧
      mapFind (getCenterPoints a ⟨[], [], []⟩).sizes g = some gtSize ∧
      mapFind (getCenterPoints b ⟨[], [], []⟩).sizes r = some recSize ∧
      area ≤ min gtSize recSize := by
  obtain ⟨area, gtSize, recSize, h1, h2, h3, -, h5, h6⟩ := candidate_entries a b hsize (g, r) hq
  exact ⟨area, gtSize, recSize, h1, h2, h3, le_min h5 h6⟩

/-- Witness of C9 on the two-region example: the pair `(2, 5)` has area 1 and
the two regions have 3 pixels each. -/
theorem area_bound_witness :
    SameSize exampleGt exampleRec ∧
    (2, 5) ∈ (getOverlaps exampleGt exampleRec ⟨[], [], [], []⟩).overlapPairs ∧
    mapFind (getOverlaps exampleGt exampleRec ⟨[], [], [], []⟩).overlapAreas (2, 5) = some 1 ∧
    mapFind (getCenterPoints exampleGt ⟨[], [], []⟩).sizes 2 = some 3 ∧
    mapFind (getCenterPoints exampleRec ⟨[], [], []⟩).sizes 5 = some 3 ∧
    ∃ area gtSize recSize : Nat,
      mapFind (getOverlaps exampleGt exampleRec ⟨[], [], [], []⟩).overlapAreas (2, 5) =
        some area ∧
      mapFind (getCenterPoints exampleGt ⟨[], [], []⟩).sizes 2 = some gtSize ∧
      mapFind (getCenterPoints exampleRec ⟨[], [], []⟩).sizes 5 = some recSize ∧
      area ≤ min gtSize recSize :=
  ⟨⟨rfl, rfl⟩, by decide, by decide, by decide!, by decide!,
    area_bound exampleGt exampleRec 2 5 ⟨rfl, rfl⟩ (by decide)⟩

/-- C10 (match scorer): for equal-sized images and every solver answer, the
report holds exactly one tuple per accepted match, in the order of the set
`matches`, and the tuple of the match `(g, r)` with overlap area `i`,
ground-truth size `s` and reconstruction size `t` is
`(g, r, 100·i/(s + t − i), 100·i/s, 2·i/(s + t))` in exact arithmetic. -/
theorem match_scorer (sqrt : ℚ → ℚ) (solution : Solution) (a b : Image)
    (hsize : SameSize a b) :
    (run sqrt solution a b).matchEntries.map MatchEntry.pair = accepted sqrt solution a b ∧
    (accepted sqrt solution a b).Nodup ∧
    ∀ e ∈ (run sqrt solution a b).matchEntries, ∃ i s t : Nat,
      mapFind (getOverlaps a b ⟨[], [], [], []⟩).overlapAreas e.pair = some i ∧
      mapFind (getCenterPoints a ⟨[], [], []⟩).sizes e.pair.1 = some s ∧
      mapFind (getCenterPoints b ⟨[], [], []⟩).sizes e.pair.2 = some t ∧
      e.m1 = 100 * (i : ℚ) / ((s : ℚ) + (t : ℚ) - (i : ℚ)) ∧
      e.m2 = 100 * (i : ℚ) / (s : ℚ) ∧
      e.dice = 2 * (i : ℚ) / ((s : ℚ) + (t : ℚ)) := by
  refine ⟨run_pairs sqrt solution a b, (accepted_sorted sqrt solution a b).nodup, ?_⟩
  intro e he
  rw [run_matchEntries, List.mem_map] at he
  obtain ⟨q, hq, rfl⟩ := he
  have hc := ((mem_accepted sqrt solution a b q).1 hq).1
  obtain ⟨i, s, t, h1, h2, h3, -, h5, -⟩ := candidate_entries a b hsize q hc
  refine ⟨i, s, t, h1, h2, h3, ?_, ?_, ?_⟩
  · simp only [measures, mapGet, h1, h2, h3, Option.getD_some]
    rw [Nat.cast_sub (by omega), Nat.cast_add]
    ring
  · simp only [measures, mapGet, h1, h2, Option.getD_some]
    ring
  · simp only [measures, mapGet, h1, h2, h3, Option.getD_some]
    rw [Nat.cast_add]

/-- Witness of C10 on the two-region example: two accepted matches, two
tuples, with the measures of areas 2, 2 and sizes 2, 3 and 3, 3. -/
theorem match_scorer_witness :
    SameSize exampleGt exampleRec ∧
    (run sqrtOnSquares exampleSolution exampleGt exampleRec).matchEntries =
      [⟨(1, 5), 200 / 3, 100, 4 / 5⟩, ⟨(2, 7), 50, 200 / 3, 2 / 3⟩] ∧
    (run sqrtOnSquares exampleSolution exampleGt exampleRec).matchEntries.map MatchEntry.pair =
      accepted sqrtOnSquares exampleSolution exampleGt exampleRec :=
  ⟨⟨rfl, rfl⟩, by decide!,
    (match_scorer sqrtOnSquares exampleSolution exampleGt exampleRec ⟨rfl, rfl⟩).1⟩

/-! ## Optimal solutions -/

theorem sum_map_le_sum_map {α : Type} (l : List α) (f g : α → ℚ) (h : ∀ x ∈ l, f x ≤ g x) :
    (l.map f).sum ≤ (l.map g).sum := by
  induction l with
  | nil => simp
  | cons x l ih =>
    simp only [List.map_cons, List.sum_cons]
    have h1 := h x (List.mem_cons_self _ _)
    have h2 := ih (fun y hy => h y (List.mem_cons_of_mem _ hy))
    linarith

/-- The coefficient of a variable is the final score of the candidate pair at
that position. -/
theorem coefficient_spec (sqrt : ℚ → ℚ) (a b : Image) (v : Nat)
    (hv : v < (candidatePairs a b).length) :
    ∃ q ∈ candidatePairs a b, variableOf a b q = v ∧
      (buildProblem sqrt a b).objective.coefficients.getD v 0 = finalScore sqrt a b q := by
  have hq : (candidatePairs a b)[v]? = some (candidatePairs a b)[v] :=
    List.getElem?_eq_getElem hv
  have hmem := List.getElem?_mem hq
  have hvar := variableOf_of_getElem? a b _ v hq
  refine ⟨_, hmem, hvar, ?_⟩
  have := (objective_spec sqrt a b).2 _ hmem
  rw [hvar] at this
  rw [List.getD_eq_getElem?_getD, this]
  rfl

theorem valueAt_nonpos (sqrt : ℚ → ℚ) (a b : Image) (solution : Solution)
    (hbin : IsBinary (candidatePairs a b).length solution) :
    (buildProblem sqrt a b).objective.valueAt solution ≤ 0 := by
  unfold LinearObjective.valueAt
  rw [(objective_spec sqrt a b).1]
  have h := sum_map_le_sum_map (List.range (candidatePairs a b).length)
    (fun v => (buildProblem sqrt a b).objective.coefficients.getD v 0 * solution v)
    (fun _ => 0)
    (by
      intro v hv
      rw [List.mem_range] at hv
      obtain ⟨q, hq, -, hc⟩ := coefficient_spec sqrt a b v hv
      have hneg := finalScore_neg sqrt a b q hq
      have hnn := binary_nonneg _ _ hbin v hv
      show (buildProblem sqrt a b).objective.coefficients.getD v 0 * solution v ≤ 0
      rw [hc]
      exact mul_nonpos_of_nonpos_of_nonneg (le_of_lt hneg) hnn)
  simpa using h

theorem valueAt_zero (objective : LinearObjective) : objective.valueAt zeroSolution = 0 := by
  unfold LinearObjective.valueAt zeroSolution
  simp

theorem feasible_zero (sqrt : ℚ → ℚ) (a b : Image) :
    Feasible (buildProblem sqrt a b).constraints zeroSolution := by
  rw [feasible_iff]
  constructor <;> intro l _ <;> simp [zeroSolution]

/-- The solution that selects nothing meets the contract of a maximizing
solver on every problem built by `updateOutputs`. -/
theorem zero_maximizes (sqrt : ℚ → ℚ) (a b : Image) :
    Maximizes (buildProblem sqrt a b).objective (buildProblem sqrt a b).constraints
      zeroSolution := by
  refine ⟨fun v _ => Or.inl rfl, feasible_zero sqrt a b, ?_⟩
  intro other hbin _
  rw [valueAt_zero]
  rw [(objective_spec sqrt a b).1] at hbin
  exact valueAt_nonpos sqrt a b other hbin

/-- Clearing one variable keeps a binary feasible solution binary and
feasible. -/
theorem feasible_unselect (sqrt : ℚ → ℚ) (a b : Image) (solution : Solution) (v : Nat)
    (hbin : IsBinary (candidatePairs a b).length solution)
    (hfeas : Feasible (buildProblem sqrt a b).constraints solution) :
    IsBinary (candidatePairs a b).length (Function.update solution v 0) ∧
    Feasible (buildProblem sqrt a b).constraints (Function.update solution v 0) := by
  have hle : ∀ q ∈ candidatePairs a b,
      Function.update solution v 0 (variableOf a b q) ≤ solution (variableOf a b q) := by
    intro q hq
    by_cases h : variableOf a b q = v
    · rw [h, Function.update_same]
      exact binary_nonneg _ _ hbin v (h ▸ variableOf_lt a b q hq)
    · rw [Function.update_noteq h]
  constructor
  · intro w hw
    by_cases h : w = v
    · left; rw [h, Function.update_same]
    · rw [Function.update_noteq h]; exact hbin w hw
  · obtain ⟨hrec, hgt⟩ := (feasible_iff sqrt a b solution).1 hfeas
    rw [feasible_iff]
    constructor
    · intro r hr
      refine le_trans (sum_map_le_sum_map _ _ _ ?_) (hrec r hr)
      intro g hg
      exact hle _ ((mem_recToGt a b g r).1 hg)
    · intro g hg
      refine le_trans (sum_map_le_sum_map _ _ _ ?_) (hgt g hg)
      intro r hr
      exact hle _ ((mem_gtToRec a b g r).1 hr)

/-- A minimizing solution selects every candidate pair whose labels are used
by no other selected pair. -/
theorem minimizer_selects (sqrt : ℚ → ℚ) (a b : Image) (solution : Solution) (q : Nat × Nat)
    (hmin : Minimizes (buildProblem sqrt a b).objective (buildProblem sqrt a b).constraints
      solution)
    (hq : q ∈ candidatePairs a b)
    (hfree : ∀ q' ∈ accepted sqrt solution a b, q' ≠ q → q'.1 ≠ q.1 ∧ q'.2 ≠ q.2) :
    q ∈ accepted sqrt solution a b := by
  obtain ⟨hbin, hfeas, hbest⟩ := hmin
  rw [(objective_spec sqrt a b).1] at hbin
  rw [mem_accepted]
  refine ⟨hq, ?_⟩
  by_contra hne
  have h0 : solution (variableOf a b q) = 0 := by
    rcases hbin _ (variableOf_lt a b q hq) with h | h
    · exact h
    · exact absurd h hne
  have hfree' : ∀ q' ∈ accepted sqrt solution a b, q'.1 ≠ q.1 ∧ q'.2 ≠ q.2 := by
    intro q' hq'
    refine hfree q' hq' ?_
    rintro rfl
    exact hne ((mem_accepted sqrt solution a b q').1 hq').2
  obtain ⟨h1, h2⟩ := feasible_update sqrt a b solution q hbin hfeas hq hfree'
  have h3 := hbest _ (by rw [(objective_spec sqrt a b).1]; exact h1) h2
  rw [valueAt_update sqrt a b solution q hq 1, h0] at h3
  have := finalScore_neg sqrt a b q hq
  linarith

theorem overlapCount_self (a : Image) (l : Nat) : overlapCount a a (l, l) = labelCount a l := by
  unfold overlapCount labelCount
  congr 1
  funext p
  simp only [overlapHit, labelHit, and_self, decide_eq_decide]
  tauto

theorem single_label_candidates (a : Image) (l : Nat) (h : HasSingleLabel a l)
    (q : Nat × Nat) : q ∈ candidatePairs a a ↔ q = (l, l) := by
  rw [mem_candidatePairs]
  constructor
  · rintro ⟨h1, h2, x, y, hx, hy, h3, h4⟩
    have e1 : q.1 = l := isLabel_single a l q.1 h ⟨h1, x, y, hx, hy, h3⟩
    have e2 : q.2 = l := isLabel_single a l q.2 h ⟨h2, x, y, hx, hy, h4⟩
    exact Prod.ext e1 e2
  · rintro rfl
    obtain ⟨hne, x, y, hx, hy, hp⟩ := h.1
    exact ⟨hne, hne, x, y, hx, hy, hp, hp⟩

/-- The report of a run on a single-region image matched with itself, under a
minimizing solver, in exact arithmetic: one perfect match and no unmatched
label. -/
theorem single_label_run (sqrt : ℚ → ℚ) (a : Image) (l : Nat) (solution : Solution)
    (hlabel : HasSingleLabel a l)
    (hmin : Minimizes (buildProblem sqrt a a).objective (buildProblem sqrt a a).constraints
      solution) :
    (run sqrt solution a a).matchEntries = [⟨(l, l), 100, 100, 1⟩] ∧
    (run sqrt solution a a).falseNegatives = [] ∧
    (run sqrt solution a a).falsePositives = [] := by
  have hc := single_label_candidates a l hlabel
  have hsel : (l, l) ∈ accepted sqrt solution a a := by
    refine minimizer_selects sqrt a a solution (l, l) hmin ((hc _).2 rfl) ?_
    intro q' hq' hne
    exact absurd ((hc q').1 ((mem_accepted sqrt solution a a q').1 hq').1) hne
  have hacc : accepted sqrt solution a a = [(l, l)] := by
    refine eq_singleton_of_nodup _ _ (accepted_sorted sqrt solution a a).nodup ?_
    intro q
    constructor
    · intro hq
      exact (hc q).1 ((mem_accepted sqrt solution a a q).1 hq).1
    · rintro rfl
      exact hsel
  refine ⟨?_, ?_, ?_⟩
  · rw [run_matchEntries, hacc]
    have hpos := overlapCount_pos a a (l, l) ((hc _).2 rfl)
    have hself := overlapCount_self a l
    have h1 : mapFind (getOverlaps a a ⟨[], [], [], []⟩).overlapAreas (l, l) =
        some (labelCount a l) := by
      rw [find_overlapAreas, if_neg (by omega), hself]
    have h2 : mapFind (getCenterPoints a ⟨[], [], []⟩).sizes l = some (labelCount a l) := by
      rw [find_sizes, if_neg (by omega)]
    have hne : ((labelCount a l : Nat) : ℚ) ≠ 0 := by
      have : 0 < labelCount a l := by omega
      exact_mod_cast this.ne'
    simp only [List.map_cons, List.map_nil, measures, mapGet, h1, h2, Option.getD_some,
      Nat.add_sub_cancel]
    congr 1
    rw [MatchEntry.mk.injEq]
    refine ⟨rfl, ?_, ?_, ?_⟩
    · rw [div_self hne]; norm_num
    · rw [div_self hne]; norm_num
    · rw [Nat.cast_add]
      field_simp
      ring
  · apply eq_nil_of_forall_not_mem
    intro x hx
    obtain ⟨hx1, hx2⟩ := (mem_run_falseNegatives sqrt solution a a x).1 hx
    have := isLabel_single a l x hlabel hx1
    subst this
    exact hx2 x hsel
  · apply eq_nil_of_forall_not_mem
    intro x hx
    obtain ⟨hx1, hx2⟩ := (mem_run_falsePositives sqrt solution a a x).1 hx
    have := isLabel_single a l x hlabel hx1
    subst this
    exact hx2 x hsel

/-- C4 as stated fails: on the one-pixel image matched with itself, the
solution that selects nothing meets the stated solver contract (0/1, feasible,
maximal objective: every score is negative), and the report then has no
accepted match, one false negative and one false positive. -/
theorem perfect_match_fails_when_maximizing :
    HasSingleLabel onePixel 1 ∧
    Maximizes (buildProblem sqrtOnSquares onePixel onePixel).objective
      (buildProblem sqrtOnSquares onePixel onePixel).constraints zeroSolution ∧
    (buildProblem sqrtOnSquares onePixel onePixel).objective.coefficients = [-1 / 20] ∧
    (run sqrtOnSquares zeroSolution onePixel onePixel).matchEntries = [] ∧
    (run sqrtOnSquares zeroSolution onePixel onePixel).falseNegatives = [1] ∧
    (run sqrtOnSquares zeroSolution onePixel onePixel).falsePositives = [1] :=
  ⟨⟨⟨by decide, 0, 0, by decide, by decide, rfl⟩, by decide⟩,
    zero_maximizes sqrtOnSquares onePixel onePixel, by decide!, by decide!, by decide!,
    by decide!⟩

/-- C4 (amended, Scenario A): for every image that contains exactly one
non-background label, used as both ground truth and reconstruction, and a
solver answer that is 0/1, satisfies the emitted constraints and minimizes the
objective, the report has exactly one accepted match, with M1 = 100, M2 = 100
and Dice = 1 in exact arithmetic (scores and measures as exact numbers, not
rounded to single precision), no false negative and no false positive. -/
theorem perfect_match (sqrt : ℚ → ℚ) (a : Image) (l : Nat) (solution : Solution)
    (hlabel : HasSingleLabel a l)
    (hmin : Minimizes (buildProblem sqrt a a).objective (buildProblem sqrt a a).constraints
      solution) :
    (run sqrt solution a a).matchEntries = [⟨(l, l), 100, 100, 1⟩] ∧
    (run sqrt solution a a).falseNegatives = [] ∧
    (run sqrt solution a a).falsePositives = [] :=
  single_label_run sqrt a l solution hlabel hmin

theorem onePixel_minimizes :
    Minimizes (buildProblem sqrtOnSquares onePixel onePixel).objective
      (buildProblem sqrtOnSquares onePixel onePixel).constraints oneSolution := by
  have hco : (buildProblem sqrtOnSquares onePixel onePixel).objective.coefficients =
      [-1 / 20] := by decide!
  refine ⟨by decide!, by decide!, ?_⟩
  intro other hbin _
  unfold LinearObjective.valueAt
  rw [hco] at hbin ⊢
  have hr : List.range 1 = [0] := rfl
  simp only [List.length_singleton, hr, List.map_cons, List.map_nil, List.sum_cons,
    List.sum_nil, List.getD_cons_zero, add_zero, oneSolution]
  rcases hbin 0 (by decide) with h | h
  · rw [h]; norm_num
  · rw [h]

/-- Witness of C4 (amended) on the one-pixel image: the solution that selects
the only variable minimizes the objective and the report is one perfect
match. -/
theorem perfect_match_witness :
    HasSingleLabel onePixel 1 ∧
    Minimizes (buildProblem sqrtOnSquares onePixel onePixel).objective
      (buildProblem sqrtOnSquares onePixel onePixel).constraints oneSolution ∧
    (run sqrtOnSquares oneSolution onePixel onePixel).matchEntries =
      [⟨(1, 1), 100, 100, 1⟩] ∧
    (run sqrtOnSquares oneSolution onePixel onePixel).falseNegatives = [] ∧
    (run sqrtOnSquares oneSolution onePixel onePixel).falsePositives = [] :=
  ⟨⟨⟨by decide, 0, 0, by decide, by decide, rfl⟩, by decide⟩, onePixel_minimizes,
    perfect_match sqrtOnSquares onePixel 1 oneSolution
      ⟨⟨by decide, 0, 0, by decide, by decide, rfl⟩, by decide⟩ onePixel_minimizes⟩

/-- A minimizing solution that accepts exactly one pair accepts a candidate
pair of least raw cost. -/
theorem minimizer_prefers (sqrt : ℚ → ℚ) (a b : Image) (solution : Solution)
    (q1 q2 : Nat × Nat)
    (hmin : Minimizes (buildProblem sqrt a b).objective (buildProblem sqrt a b).constraints
      solution)
    (hacc : ∀ q, q ∈ accepted sqrt solution a b ↔ q = q1)
    (hq2 : q2 ∈ candidatePairs a b) :
    rawCost sqrt a b q1 ≤ rawCost sqrt a b q2 := by
  obtain ⟨hbin, hfeas, hbest⟩ := hmin
  rw [(objective_spec sqrt a b).1] at hbin
  have h1 := (mem_accepted sqrt solution a b q1).1 ((hacc q1).2 rfl)
  by_cases he : q2 = q1
  · rw [he]
  have hv : variableOf a b q2 ≠ variableOf a b q1 := fun h =>
    he (variableOf_inj a b q2 q1 hq2 h1.1 h)
  have h2 : solution (variableOf a b q2) = 0 := by
    rcases hbin _ (variableOf_lt a b q2 hq2) with h | h
    · exact h
    · exact absurd ((hacc q2).1 ((mem_accepted sqrt solution a b q2).2 ⟨hq2, h⟩)) he
  obtain ⟨hb0, hf0⟩ := feasible_unselect sqrt a b solution (variableOf a b q1) hbin hfeas
  have hnone : ∀ q' ∈ accepted sqrt (Function.update solution (variableOf a b q1) 0) a b,
      q'.1 ≠ q2.1 ∧ q'.2 ≠ q2.2 := by
    intro q' hq'
    exfalso
    obtain ⟨hc, hs⟩ := (mem_accepted sqrt _ a b q').1 hq'
    by_cases h : variableOf a b q' = variableOf a b q1
    · rw [h, Function.update_same] at hs
      exact zero_ne_one hs
    · rw [Function.update_noteq h] at hs
      have := (hacc q').1 ((mem_accepted sqrt solution a b q').2 ⟨hc, hs⟩)
      exact h (by rw [this])
  obtain ⟨hb1, hf1⟩ := feasible_update sqrt a b _ q2 hb0 hf0 hq2 hnone
  have h3 := hbest _ (by rw [(objective_spec sqrt a b).1]; exact hb1) hf1
  rw [valueAt_update sqrt a b _ q2 hq2 1, Function.update_noteq hv, h2] at h3
  have h4 := valueAt_update sqrt a b solution q1 h1.1 0
  rw [h1.2] at h4
  rw [h4, finalScore_spec sqrt a b q1 h1.1, finalScore_spec sqrt a b q2 hq2] at h3
  linarith

/-- Scenario C under a minimizing solver: one of the two candidate pairs is
accepted, and it has the smaller raw cost. -/
theorem two_candidates_run (sqrt : ℚ → ℚ) (a b : Image) (g r1 r2 : Nat) (solution : Solution)
    (hsize : SameSize a b) (hne : r1 ≠ r2)
    (hcand : ∀ q, q ∈ candidatePairs a b ↔ (q = (g, r1) ∨ q = (g, r2)))
    (hmin : Minimizes (buildProblem sqrt a b).objective (buildProblem sqrt a b).constraints
      solution) :
    (accepted sqrt solution a b = [(g, r1)] ∧
      rawCost sqrt a b (g, r1) ≤ rawCost sqrt a b (g, r2)) ∨
    (accepted sqrt solution a b = [(g, r2)] ∧
      rawCost sqrt a b (g, r2) ≤ rawCost sqrt a b (g, r1)) := by
  have hbin : IsBinary (candidatePairs a b).length solution := by
    rw [← (objective_spec sqrt a b).1]; exact hmin.1
  have huniq := (accepted_unique sqrt a b hsize solution hbin hmin.2.1).1
  have hc1 : (g, r1) ∈ candidatePairs a b := (hcand _).2 (Or.inl rfl)
  have hc2 : (g, r2) ∈ candidatePairs a b := (hcand _).2 (Or.inr rfl)
  have hsub : ∀ q ∈ accepted sqrt solution a b, q = (g, r1) ∨ q = (g, r2) := fun q hq =>
    (hcand q).1 ((mem_accepted sqrt solution a b q).1 hq).1
  by_cases h2 : (g, r2) ∈ accepted sqrt solution a b
  · right
    have hacc : ∀ q, q ∈ accepted sqrt solution a b ↔ q = (g, r2) := by
      intro q
      constructor
      · intro hq
        rcases hsub q hq with rfl | rfl
        · exact absurd (huniq g r1 r2 hq h2) hne
        · rfl
      · rintro rfl
        exact h2
    exact ⟨eq_singleton_of_nodup _ _ (accepted_sorted sqrt solution a b).nodup hacc,
      minimizer_prefers sqrt a b solution _ _ hmin hacc hc1⟩
  · left
    have h1 : (g, r1) ∈ accepted sqrt solution a b := by
      refine minimizer_selects sqrt a b solution (g, r1) hmin hc1 ?_
      intro q' hq' hq'ne
      rcases hsub q' hq' with rfl | rfl
      · exact absurd rfl hq'ne
      · exact absurd hq' h2
    have hacc : ∀ q, q ∈ accepted sqrt solution a b ↔ q = (g, r1) := by
      intro q
      constructor
      · intro hq
        rcases hsub q hq with rfl | rfl
        · rfl
        · exact absurd hq h2
      · rintro rfl
        exact h1
    exact ⟨eq_singleton_of_nodup _ _ (accepted_sorted sqrt solution a b).nodup hacc,
      minimizer_prefers sqrt a b solution _ _ hmin hacc hc2⟩

/-- C6 as stated fails: on a ground-truth region that overlaps two
reconstruction regions, the solution that selects nothing meets the stated
solver contract (0/1, feasible, maximal objective) and the report then has no
accepted match. -/
theorem ambiguous_overlap_fails_when_maximizing :
    SameSize wideRegion splitRegions ∧
    candidatePairs wideRegion splitRegions = [(1, 5), (1, 7)] ∧
    Maximizes (buildProblem sqrtOnSquares wideRegion splitRegions).objective
      (buildProblem sqrtOnSquares wideRegion splitRegions).constraints zeroSolution ∧
    (buildProblem sqrtOnSquares wideRegion splitRegions).objective.coefficients =
      [-1 / 5, -6 / 5] ∧
    (run sqrtOnSquares zeroSolution wideRegion splitRegions).matchEntries = [] :=
  ⟨⟨rfl, rfl⟩, by decide, zero_maximizes sqrtOnSquares wideRegion splitRegions, by decide!,
    by decide!⟩

/-- C6 (amended, Scenario C): in exact arithmetic (centres, distances and
scores as exact numbers, not rounded to single precision), for equal-sized
images whose candidate pairs are exactly `(g, r1)` and `(g, r2)` with
`r1 ≠ r2`, and a solver answer that is 0/1, satisfies the emitted constraints
and minimizes the objective, the report has exactly one accepted match; it is
one of the two candidate pairs and its raw cost (centre distance floored at
0.5) is at most that of the other. -/
theorem ambiguous_overlap (sqrt : ℚ → ℚ) (a b : Image) (g r1 r2 : Nat) (solution : Solution)
    (hsize : SameSize a b) (hne : r1 ≠ r2)
    (hcand : ∀ q, q ∈ candidatePairs a b ↔ (q = (g, r1) ∨ q = (g, r2)))
    (hmin : Minimizes (buildProblem sqrt a b).objective (buildProblem sqrt a b).constraints
      solution) :
    ∃ e, (run sqrt solution a b).matchEntries = [e] ∧
      ((e.pair = (g, r1) ∧ rawCost sqrt a b (g, r1) ≤ rawCost sqrt a b (g, r2)) ∨
        (e.pair = (g, r2) ∧ rawCost sqrt a b (g, r2) ≤ rawCost sqrt a b (g, r1))) := by
  rcases two_candidates_run sqrt a b g r1 r2 solution hsize hne hcand hmin with
    ⟨h1, h2⟩ | ⟨h1, h2⟩
  · refine ⟨measures (getOverlaps a b ⟨[], [], [], []⟩).overlapAreas
      (getCenterPoints a ⟨[], [], []⟩).sizes (getCenterPoints b ⟨[], [], []⟩).sizes (g, r1),
      ?_, Or.inl ⟨rfl, h2⟩⟩
    rw [run_matchEntries, h1]
    rfl
  · refine ⟨measures (getOverlaps a b ⟨[], [], [], []⟩).overlapAreas
      (getCenterPoints a ⟨[], [], []⟩).sizes (getCenterPoints b ⟨[], [], []⟩).sizes (g, r2),
      ?_, Or.inr ⟨rfl, h2⟩⟩
    rw [run_matchEntries, h1]
    rfl

theorem splitRegions_minimizes :
    Minimizes (buildProblem sqrtOnSquares wideRegion splitRegions).objective
      (buildProblem sqrtOnSquares wideRegion splitRegions).constraints secondSolution := by
  have hco : (buildProblem sqrtOnSquares wideRegion splitRegions).objective.coefficients =
      [-1 / 5, -6 / 5] := by decide!
  refine ⟨by decide!, by decide!, ?_⟩
  intro other hbin hfeas
  have hsum := ((feasible_iff sqrtOnSquares wideRegion splitRegions other).1 hfeas).2 1
    ⟨by decide, 0, 0, by decide, by decide, rfl⟩
  have hg : gtToRec wideRegion splitRegions 1 = [5, 7] := by decide
  have hv5 : variableOf wideRegion splitRegions (1, 5) = 0 := by decide
  have hv7 : variableOf wideRegion splitRegions (1, 7) = 1 := by decide
  rw [hg] at hsum
  simp only [List.map_cons, List.map_nil, List.sum_cons, List.sum_nil, hv5, hv7,
    add_zero] at hsum
  unfold LinearObjective.valueAt
  rw [hco] at hbin ⊢
  have hr : List.range 2 = [0, 1] := rfl
  simp only [List.length_cons, List.length_nil, Nat.zero_add, Nat.reduceAdd, hr, List.map_cons,
    List.map_nil, List.sum_cons, List.sum_nil, List.getD_cons_zero, List.getD_cons_succ,
    add_zero, secondSolution]
  rcases hbin 0 (by decide) with h0 | h0 <;> rcases hbin 1 (by decide) with h1 | h1 <;>
    rw [h0, h1] at hsum ⊢ <;> norm_num at hsum ⊢

/-- Witness of C6 (amended): the whole-row region against the two split
regions; the minimizing solution accepts `(1, 7)`, whose raw cost 1 is below
the raw cost 2 of `(1, 5)`. -/
theorem ambiguous_overlap_witness :
    SameSize wideRegion splitRegions ∧
    (∀ q, q ∈ candidatePairs wideRegion splitRegions ↔ (q = (1, 5) ∨ q = (1, 7))) ∧
    Minimizes (buildProblem sqrtOnSquares wideRegion splitRegions).objective
      (buildProblem sqrtOnSquares wideRegion splitRegions).constraints secondSolution ∧
    rawCost sqrtOnSquares wideRegion splitRegions (1, 5) = 2 ∧
    rawCost sqrtOnSquares wideRegion splitRegions (1, 7) = 1 ∧
    (run sqrtOnSquares secondSolution wideRegion splitRegions).matchEntries.map
      MatchEntry.pair = [(1, 7)] ∧
    ∃ e, (run sqrtOnSquares secondSolution wideRegion splitRegions).matchEntries = [e] ∧
      ((e.pair = (1, 5) ∧ rawCost sqrtOnSquares wideRegion splitRegions (1, 5) ≤
          rawCost sqrtOnSquares wideRegion splitRegions (1, 7)) ∨
        (e.pair = (1, 7) ∧ rawCost sqrtOnSquares wideRegion splitRegions (1, 7) ≤
          rawCost sqrtOnSquares wideRegion splitRegions (1, 5))) := by
  have hc : ∀ q, q ∈ candidatePairs wideRegion splitRegions ↔ (q = (1, 5) ∨ q = (1, 7)) := by
    intro q
    rw [show candidatePairs wideRegion splitRegions = [(1, 5), (1, 7)] from by decide]
    simp
  exact ⟨⟨rfl, rfl⟩, hc, splitRegions_minimizes, by decide!, by decide!, by decide!,
    ambiguous_overlap sqrtOnSquares wideRegion splitRegions 1 5 7 secondSolution ⟨rfl, rfl⟩
      (by decide) hc splitRegions_minimizes⟩

theorem rawCost_eq_max (sqrt : ℚ → ℚ) (a b : Image) (q : Nat × Nat) :
    rawCost sqrt a b q = max (1 / 2) (centerDistance sqrt a b q) := rfl

theorem sum_finalScore (sqrt : ℚ → ℚ) (a b : Image) (s : List (Nat × Nat))
    (hs : ∀ q ∈ s, q ∈ candidatePairs a b) :
    (s.map (finalScore sqrt a b)).sum =
      (s.map (rawCost sqrt a b)).sum -
        (s.length : ℚ) * ((buildProblem sqrt a b).maxScore * (11 / 10)) := by
  induction s with
  | nil => simp
  | cons q s ih =>
    simp only [List.map_cons, List.sum_cons, List.length_cons, Nat.cast_add, Nat.cast_one]
    rw [ih (fun q' hq' => hs q' (List.mem_cons_of_mem _ hq')),
      finalScore_spec sqrt a b q (hs q (List.mem_cons_self _ _))]
    ring

/-- C8 as stated fails. On the two-region example the subsets `{(1, 5)}` and
`{(2, 7)}` have total centre distances 1/2 < 1 but total final scores
-17/10 < -6/5: the closer subset has the smaller score, not the larger. On the
close example the subsets `{(1, 5)}` and `{(2, 7)}` have total centre distances
0 < 1/6 and the same total final score -1/20, because both distances are
floored to 0.5. -/
theorem score_order_fails :
    ((∀ q ∈ [((1 : Nat), (5 : Nat))], q ∈ candidatePairs exampleGt exampleRec) ∧
      (∀ q ∈ [((2 : Nat), (7 : Nat))], q ∈ candidatePairs exampleGt exampleRec) ∧
      ([((1 : Nat), (5 : Nat))].map (centerDistance sqrtOnSquares exampleGt exampleRec)).sum <
        ([((2 : Nat), (7 : Nat))].map (centerDistance sqrtOnSquares exampleGt exampleRec)).sum ∧
      ¬ (([((2 : Nat), (7 : Nat))].map (finalScore sqrtOnSquares exampleGt exampleRec)).sum <
        ([((1 : Nat), (5 : Nat))].map (finalScore sqrtOnSquares exampleGt exampleRec)).sum)) ∧
    ((∀ q ∈ [((1 : Nat), (5 : Nat))], q ∈ candidatePairs closeGt closeRec) ∧
      (∀ q ∈ [((2 : Nat), (7 : Nat))], q ∈ candidatePairs closeGt closeRec) ∧
      ([((1 : Nat), (5 : Nat))].map (centerDistance sqrtOnSquares closeGt closeRec)).sum = 0 ∧
      ([((2 : Nat), (7 : Nat))].map (centerDistance sqrtOnSquares closeGt closeRec)).sum =
        1 / 6 ∧
      ([((1 : Nat), (5 : Nat))].map (finalScore sqrtOnSquares closeGt closeRec)).sum =
        ([((2 : Nat), (7 : Nat))].map (finalScore sqrtOnSquares closeGt closeRec)).sum) := by
  refine ⟨⟨by decide, by decide, by decide!, by decide!⟩,
    ⟨by decide, by decide, by decide!, by decide!, by decide!⟩⟩

/-- C8 (amended, score order): in exact arithmetic (raw costs and final scores
as exact numbers, not rounded to single precision), for any two lists of
candidate pairs of equal length, the list whose total raw cost (centre
distance floored at 0.5) is smaller has the strictly smaller (more negative)
total final score. -/
theorem score_order (sqrt : ℚ → ℚ) (a b : Image) (s t : List (Nat × Nat))
    (hs : ∀ q ∈ s, q ∈ candidatePairs a b) (ht : ∀ q ∈ t, q ∈ candidatePairs a b)
    (hlen : s.length = t.length)
    (hcost : (s.map (rawCost sqrt a b)).sum < (t.map (rawCost sqrt a b)).sum) :
    (s.map (finalScore sqrt a b)).sum < (t.map (finalScore sqrt a b)).sum := by
  rw [sum_finalScore sqrt a b s hs, sum_finalScore sqrt a b t ht, hlen]
  linarith

/-- Witness of C8 (amended) on the two-region example: `{(1, 5)}` has raw cost
1/2 and final score -17/10, `{(2, 7)}` has raw cost 1 and final score -6/5. -/
theorem score_order_witness :
    (∀ q ∈ [((1 : Nat), (5 : Nat))], q ∈ candidatePairs exampleGt exampleRec) ∧
    (∀ q ∈ [((2 : Nat), (7 : Nat))], q ∈ candidatePairs exampleGt exampleRec) ∧
    ([((1 : Nat), (5 : Nat))].map (rawCost sqrtOnSquares exampleGt exampleRec)).sum = 1 / 2 ∧
    ([((2 : Nat), (7 : Nat))].map (rawCost sqrtOnSquares exampleGt exampleRec)).sum = 1 ∧
    ([((1 : Nat), (5 : Nat))].map (finalScore sqrtOnSquares exampleGt exampleRec)).sum =
      -17 / 10 ∧
    ([((2 : Nat), (7 : Nat))].map (finalScore sqrtOnSquares exampleGt exampleRec)).sum =
      -6 / 5 ∧
    ([((1 : Nat), (5 : Nat))].map (finalScore sqrtOnSquares exampleGt exampleRec)).sum <
      ([((2 : Nat), (7 : Nat))].map (finalScore sqrtOnSquares exampleGt exampleRec)).sum :=
  ⟨by decide, by decide, by decide!, by decide!, by decide!, by decide!,
    score_order sqrtOnSquares exampleGt exampleRec [(1, 5)] [(2, 7)] (by decide) (by decide)
      rfl (by decide!)⟩

/-- C15 (feasibility): for every pair of images, the assignment that gives
every decision variable the value 0 is 0/1 and satisfies every constraint
emitted by `updateOutputs`; so some 0/1 assignment satisfies them all and the
problem handed to the solver is never infeasible. -/
theorem all_zero_feasible (sqrt : ℚ → ℚ) (a b : Image) :
    IsBinary (buildProblem sqrt a b).objective.coefficients.length (fun _ => 0) ∧
    Feasible (buildProblem sqrt a b).constraints (fun _ => 0) ∧
    ∃ solution : Solution,
      IsBinary (buildProblem sqrt a b).objective.coefficients.length solution ∧
      Feasible (buildProblem sqrt a b).constraints solution :=
  ⟨fun _ _ => Or.inl rfl, feasible_zero sqrt a b,
    zeroSolution, fun _ _ => Or.inl rfl, feasible_zero sqrt a b⟩

/-- C19 (no division by zero, no unsigned wrap-around): for equal-sized images
and every solver answer, every accepted match `(g, r)` is a candidate pair; its
entries `overlapAreas[(g, r)]`, `gtSizes[g]` and `recSizes[r]` exist and are at
least 1; the area is at most `gtSizes[g] + recSizes[r]`, so the unsigned
difference does not go below zero, and the difference is at least 1; hence the
three denominators of the measures are not zero. -/
theorem no_zero_denominator (sqrt : ℚ → ℚ) (solution : Solution) (a b : Image) (g r : Nat)
    (hsize : SameSize a b) (hmatch : (g, r) ∈ accepted sqrt solution a b) :
    (g, r) ∈ (getOverlaps a b ⟨[], [], [], []⟩).overlapPairs ∧
    ∃ area gtSize recSize : Nat,
      mapFind (getOverlaps a b ⟨[], [], [], []⟩).overlapAreas (g, r) = some area ∧
      mapFind (getCenterPoints a ⟨[], [], []⟩).sizes g = some gtSize ∧
      mapFind (getCenterPoints b ⟨[], [], []⟩).sizes r = some recSize ∧
      1 ≤ area ∧ 1 ≤ gtSize ∧ 1 ≤ recSize ∧
      area ≤ gtSize + recSize ∧ 1 ≤ gtSize + recSize - area ∧
      (((gtSize + recSize - area : Nat) : ℚ) ≠ 0) ∧ ((gtSize : ℚ) ≠ 0) ∧
      (((gtSize + recSize : Nat) : ℚ) ≠ 0) := by
  have hc := ((mem_accepted sqrt solution a b (g, r)).1 hmatch).1
  obtain ⟨i, s, t, h1, h2, h3, h4, h5, h6⟩ := candidate_entries a b hsize (g, r) hc
  refine ⟨hc, i, s, t, h1, h2, h3, h4, by omega, by omega, by omega, by omega, ?_, ?_, ?_⟩
  · exact_mod_cast (show s + t - i ≠ 0 from by omega)
  · exact_mod_cast (show s ≠ 0 from by omega)
  · exact_mod_cast (show s + t ≠ 0 from by omega)

/-- Witness of C19 on the two-region example: the accepted match `(2, 7)` has
area 2 and sizes 3 and 3. -/
theorem no_zero_denominator_witness :
    SameSize exampleGt exampleRec ∧
    (2, 7) ∈ accepted sqrtOnSquares exampleSolution exampleGt exampleRec ∧
    mapFind (getOverlaps exampleGt exampleRec ⟨[], [], [], []⟩).overlapAreas (2, 7) = some 2 ∧
    (2, 7) ∈ (getOverlaps exampleGt exampleRec ⟨[], [], [], []⟩).overlapPairs :=
  ⟨⟨rfl, rfl⟩, by decide!, by decide,
    (no_zero_denominator sqrtOnSquares exampleSolution exampleGt exampleRec 2 7 ⟨rfl, rfl⟩
      (by decide!)).1⟩

/-- C20 (range of the measures): for equal-sized images and every tuple of
the report, in exact arithmetic `0 < M1 ≤ M2 ≤ 100` and `0 < Dice ≤ 1`; and
`M1 = 100` exactly when `Dice = 1`, exactly when the overlap area, the
ground-truth size and the reconstruction size of the match are equal. -/
theorem measure_range (sqrt : ℚ → ℚ) (solution : Solution) (a b : Image) (e : MatchEntry)
    (hsize : SameSize a b) (he : e ∈ (run sqrt solution a b).matchEntries) :
    0 < e.m1 ∧ e.m1 ≤ e.m2 ∧ e.m2 ≤ 100 ∧ 0 < e.dice ∧ e.dice ≤ 1 ∧
    (e.m1 = 100 ↔ e.dice = 1) ∧
    (e.dice = 1 ↔
      (mapFind (getOverlaps a b ⟨[], [], [], []⟩).overlapAreas e.pair =
          mapFind (getCenterPoints a ⟨[], [], []⟩).sizes e.pair.1 ∧
        mapFind (getOverlaps a b ⟨[], [], [], []⟩).overlapAreas e.pair =
          mapFind (getCenterPoints b ⟨[], [], []⟩).sizes e.pair.2)) := by
  rw [run_matchEntries, List.mem_map] at he
  obtain ⟨q, hq, rfl⟩ := he
  have hc := ((mem_accepted sqrt solution a b q).1 hq).1
  obtain ⟨i, s, t, h1, h2, h3, h4, h5, h6⟩ := candidate_entries a b hsize q hc
  have hi : (0 : ℚ) < (i : ℚ) := by exact_mod_cast h4
  have his : (i : ℚ) ≤ (s : ℚ) := by exact_mod_cast h5
  have hit : (i : ℚ) ≤ (t : ℚ) := by exact_mod_cast h6
  have hs : (0 : ℚ) < (s : ℚ) := lt_of_lt_of_le hi his
  have ht : (0 : ℚ) < (t : ℚ) := lt_of_lt_of_le hi hit
  have hcup : (((s + t - i : Nat)) : ℚ) = (s : ℚ) + (t : ℚ) - (i : ℚ) := by
    rw [Nat.cast_sub (by omega), Nat.cast_add]
  have hu : (0 : ℚ) < (s : ℚ) + (t : ℚ) - (i : ℚ) := by linarith
  have hm1 : (measures (getOverlaps a b ⟨[], [], [], []⟩).overlapAreas
      (getCenterPoints a ⟨[], [], []⟩).sizes (getCenterPoints b ⟨[], [], []⟩).sizes q).m1 =
      (i : ℚ) / ((s : ℚ) + (t : ℚ) - (i : ℚ)) * 100 := by
    simp only [measures, mapGet, h1, h2, h3, Option.getD_some, hcup]
  have hm2 : (measures (getOverlaps a b ⟨[], [], [], []⟩).overlapAreas
      (getCenterPoints a ⟨[], [], []⟩).sizes (getCenterPoints b ⟨[], [], []⟩).sizes q).m2 =
      (i : ℚ) / (s : ℚ) * 100 := by
    simp only [measures, mapGet, h1, h2, Option.getD_some]
  have hd : (measures (getOverlaps a b ⟨[], [], [], []⟩).overlapAreas
      (getCenterPoints a ⟨[], [], []⟩).sizes (getCenterPoints b ⟨[], [], []⟩).sizes q).dice =
      2 * (i : ℚ) / ((s : ℚ) + (t : ℚ)) := by
    simp only [measures, mapGet, h1, h2, h3, Option.getD_some, Nat.cast_add]
  have hst : (0 : ℚ) < (s : ℚ) + (t : ℚ) := by linarith
  rw [hm1, hm2, hd, measures_pair, h1, h2, h3]
  refine ⟨by positivity, ?_, ?_, by positivity, ?_, ?_, ?_⟩
  · rw [div_mul_eq_mul_div, div_mul_eq_mul_div, div_le_div_iff₀ hu hs]
    nlinarith
  · rw [div_mul_eq_mul_div, div_le_iff₀ hs]
    linarith
  · rw [div_le_iff₀ hst]
    linarith
  · rw [div_mul_eq_mul_div, div_eq_iff (ne_of_gt hu), div_eq_iff (ne_of_gt hst)]
    constructor <;> intro h <;> linarith
  · rw [div_eq_iff (ne_of_gt hst)]
    constructor
    · intro h
      have e1 : (i : ℚ) = (s : ℚ) := by linarith
      have e2 : (i : ℚ) = (t : ℚ) := by linarith
      have e1' : i = s := by exact_mod_cast e1
      have e2' : i = t := by exact_mod_cast e2
      exact ⟨by rw [e1'], by rw [e2']⟩
    · rintro ⟨e1, e2⟩
      have e1' : i = s := Option.some.inj e1
      have e2' : i = t := Option.some.inj e2
      rw [← e1', ← e2']
      ring

/-- Witness of C20 on the two-region example: the tuple of the match
`(1, 5)` has M1 = 200/3, M2 = 100 and Dice = 4/5. -/
theorem measure_range_witness :
    SameSize exampleGt exampleRec ∧
    (⟨(1, 5), 200 / 3, 100, 4 / 5⟩ : MatchEntry) ∈
      (run sqrtOnSquares exampleSolution exampleGt exampleRec).matchEntries ∧
    (0 : ℚ) < 200 / 3 ∧ (200 / 3 : ℚ) ≤ 100 ∧ (100 : ℚ) ≤ 100 :=
  ⟨⟨rfl, rfl⟩, by decide!,
    (measure_range sqrtOnSquares exampleSolution exampleGt exampleRec
      ⟨(1, 5), 200 / 3, 100, 4 / 5⟩ ⟨rfl, rfl⟩ (by decide!)).1,
    (measure_range sqrtOnSquares exampleSolution exampleGt exampleRec
      ⟨(1, 5), 200 / 3, 100, 4 / 5⟩ ⟨rfl, rfl⟩ (by decide!)).2.1,
    (measure_range sqrtOnSquares exampleSolution exampleGt exampleRec
      ⟨(1, 5), 200 / 3, 100, 4 / 5⟩ ⟨rfl, rfl⟩ (by decide!)).2.2.1⟩

theorem foldl_eq_self {σ π : Type} (step : σ → π → σ) (ps : List π) (init : σ)
    (h : ∀ p ∈ ps, ∀ st, step st p = st) : ps.foldl step init = init := by
  induction ps generalizing init with
  | nil => rfl
  | cons p ps ih =>
    rw [List.foldl_cons, h p (List.mem_cons_self _ _) init]
    exact ih init (fun q hq => h q (List.mem_cons_of_mem _ hq))

theorem getCenterPoints_background (image : Image) (h : AllBackground image)
    (init : CenterTables) (hl : init.labels = []) : getCenterPoints image init = init := by
  unfold getCenterPoints
  rw [rasterScan_eq_foldl, foldl_eq_self]
  · unfold normalizeCenters
    rw [hl]
    rfl
  · intro p hp st
    rw [mem_pixels] at hp
    unfold centerStep
    simp only [h p.1 hp.1 p.2 hp.2, if_true]

theorem getOverlaps_background (a b : Image) (h : AllBackground a) (prev : OverlapTables) :
    getOverlaps a b prev = ⟨[], [], [], []⟩ := by
  unfold getOverlaps
  rw [rasterScan_eq_foldl, foldl_eq_self]
  intro p hp st
  rw [mem_pixels] at hp
  unfold overlapStep
  simp only [h p.1 hp.1 p.2 hp.2, true_or, if_true]

/-- A call of `updateOutputs` on a node with one image per stack, when the
solver answers: the call returns and the report is filled from the answer. -/
theorem updateOutputs_answer (sqrt : ℚ → ℚ) (solver : LinearSolver) (a b : Image)
    (errors : Option DetectionOverlapErrors) (solution : Solution)
    (h : solver (buildProblem sqrt a b).objective (buildProblem sqrt a b).constraints =
      some solution) :
    updateOutputs sqrt solver ⟨false, [a], [b], errors⟩ =
      (⟨false, [a], [b], some (interpret (buildProblem sqrt a b) solution
        (errors.getD DetectionOverlapErrors.empty))⟩, Outcome.returned) := by
  unfold updateOutputs
  simp only [Bool.false_eq_true, if_false, List.length_singleton, ne_eq, not_true_eq_false,
    or_self, List.headD_cons, h]

/-- A call of `updateOutputs` on a node with one image per stack, when the
solver fails: the failure is passed on and the report is left as it was. -/
theorem updateOutputs_failure (sqrt : ℚ → ℚ) (solver : LinearSolver) (a b : Image)
    (errors : Option DetectionOverlapErrors)
    (h : solver (buildProblem sqrt a b).objective (buildProblem sqrt a b).constraints = none) :
    updateOutputs sqrt solver ⟨false, [a], [b], errors⟩ =
      (⟨false, [a], [b], some (errors.getD DetectionOverlapErrors.empty)⟩,
        Outcome.solverFailure) := by
  unfold updateOutputs
  simp only [Bool.false_eq_true, if_false, List.length_singleton, ne_eq, not_true_eq_false,
    or_self, List.headD_cons, h]

/-- C14 (Scenario D, all background): for two images in which every pixel is
0, `getCenterPoints` returns empty label, size and centre tables for both,
`getOverlaps` returns empty tables (no candidate pair), no decision variable,
no constraint and no objective coefficient is created, the report of a run is
empty for every solver answer, and `updateOutputs` raises no usage error and
returns normally with the empty report when the solver answers. -/
theorem all_background (sqrt : ℚ → ℚ) (solver : LinearSolver) (a b : Image)
    (ha : AllBackground a) (hb : AllBackground b) :
    getCenterPoints a ⟨[], [], []⟩ = ⟨[], [], []⟩ ∧
    getCenterPoints b ⟨[], [], []⟩ = ⟨[], [], []⟩ ∧
    getOverlaps a b ⟨[], [], [], []⟩ = ⟨[], [], [], []⟩ ∧
    (buildProblem sqrt a b).vars.pairToVariable = [] ∧
    (buildProblem sqrt a b).vars.variableToPair = [] ∧
    (buildProblem sqrt a b).objective.coefficients = [] ∧
    (buildProblem sqrt a b).constraints = [] ∧
    (∀ solution, run sqrt solution a b = DetectionOverlapErrors.empty) ∧
    (updateOutputs sqrt solver ⟨false, [a], [b], none⟩).2 ≠ Outcome.usageError ∧
    (∀ solution,
      solver (buildProblem sqrt a b).objective (buildProblem sqrt a b).constraints =
        some solution →
      (updateOutputs sqrt solver ⟨false, [a], [b], none⟩).2 = Outcome.returned ∧
      (updateOutputs sqrt solver ⟨false, [a], [b], none⟩).1.errors =
        some DetectionOverlapErrors.empty) := by
  have h1 := getCenterPoints_background a ha ⟨[], [], []⟩ rfl
  have h2 := getCenterPoints_background b hb ⟨[], [], []⟩ rfl
  have h3 := getOverlaps_background a b ha ⟨[], [], [], []⟩
  have hpb : ∀ solution, interpret (buildProblem sqrt a b) solution
      DetectionOverlapErrors.empty = DetectionOverlapErrors.empty := by
    intro solution
    simp only [interpret, buildProblem, h1, h2, h3]
    rfl
  refine ⟨h1, h2, h3, ?_, ?_, ?_, ?_, ?_, ?_, ?_⟩
  · simp only [buildProblem, h3]; rfl
  · simp only [buildProblem, h3]; rfl
  · simp only [buildProblem, h3]; rfl
  · simp only [buildProblem, h1, h2, h3]; rfl
  · intro solution
    rw [run_eq]
    exact hpb solution
  · cases hs : solver (buildProblem sqrt a b).objective (buildProblem sqrt a b).constraints with
    | none => rw [updateOutputs_failure sqrt solver a b none hs]; exact Outcome.noConfusion
    | some solution =>
      rw [updateOutputs_answer sqrt solver a b none solution hs]; exact Outcome.noConfusion
  · intro solution hs
    rw [updateOutputs_answer sqrt solver a b none solution hs]
    exact ⟨rfl, congrArg some (hpb solution)⟩

/-- Witness of C14 on two blank 2 x 2 images with a solver that answers the
zero solution. -/
theorem all_background_witness :
    AllBackground blank ∧
    getCenterPoints blank ⟨[], [], []⟩ = ⟨[], [], []⟩ ∧
    (updateOutputs sqrtOnSquares (fun _ _ => some zeroSolution)
      ⟨false, [blank], [blank], none⟩).2 = Outcome.returned ∧
    (updateOutputs sqrtOnSquares (fun _ _ => some zeroSolution)
      ⟨false, [blank], [blank], none⟩).1.errors = some DetectionOverlapErrors.empty :=
  ⟨by decide,
    (all_background sqrtOnSquares (fun _ _ => some zeroSolution) blank blank (by decide)
      (by decide)).1,
    ((all_background sqrtOnSquares (fun _ _ => some zeroSolution) blank blank (by decide)
      (by decide)).2.2.2.2.2.2.2.2.2 zeroSolution rfl).1,
    ((all_background sqrtOnSquares (fun _ _ => some zeroSolution) blank blank (by decide)
      (by decide)).2.2.2.2.2.2.2.2.2 zeroSolution rfl).2⟩

/-! ## The assignment problem -/

theorem foldl_setCoefficient_find (vs : List Nat) (c : LinearConstraint) (w : Nat) :
    mapFind (vs.foldl (fun c v => c.setCoefficient v 1) c).coefficients w =
      if w ∈ vs then some 1 else mapFind c.coefficients w := by
  induction vs generalizing c with
  | nil => simp
  | cons v vs ih =>
    rw [List.foldl_cons, ih]
    by_cases hw : w ∈ vs
    · simp [hw]
    · by_cases hv : w = v
      · simp [hv, LinearConstraint.setCoefficient, mapFind_mapSet]
      · simp [hw, hv, LinearConstraint.setCoefficient, mapFind_mapSet]

theorem foldl_setCoefficient_shape (vs : List Nat) (c : LinearConstraint) :
    (vs.foldl (fun c v => c.setCoefficient v 1) c).relation = c.relation ∧
      (vs.foldl (fun c v => c.setCoefficient v 1) c).value = c.value := by
  induction vs generalizing c with
  | nil => exact ⟨rfl, rfl⟩
  | cons v vs ih =>
    rw [List.foldl_cons]
    exact ih _

/-- The constraint of a ground-truth label has the relation `≤`, the value 1
and the coefficient 1 on exactly the variables of the candidate pairs of that
label. -/
theorem gtConstraint_shape (sqrt : ℚ → ℚ) (a b : Image) (g v : Nat) :
    (gtConstraint (buildProblem sqrt a b).vars.pairToVariable
      (buildProblem sqrt a b).overlaps.atob g).relation = Relation.LessEqual ∧
    (gtConstraint (buildProblem sqrt a b).vars.pairToVariable
      (buildProblem sqrt a b).overlaps.atob g).value = 1 ∧
    ((∃ r, (g, r) ∈ candidatePairs a b ∧ variableOf a b (g, r) = v) →
      mapFind (gtConstraint (buildProblem sqrt a b).vars.pairToVariable
        (buildProblem sqrt a b).overlaps.atob g).coefficients v = some 1) ∧
    ((¬ ∃ r, (g, r) ∈ candidatePairs a b ∧ variableOf a b (g, r) = v) →
      mapFind (gtConstraint (buildProblem sqrt a b).vars.pairToVariable
        (buildProblem sqrt a b).overlaps.atob g).coefficients v = none) := by
  have hfold : (gtConstraint (buildProblem sqrt a b).vars.pairToVariable
      (buildProblem sqrt a b).overlaps.atob g).coefficients =
      (((gtToRec a b g).map (fun r => variableOf a b (g, r))).foldl
        (fun c v => c.setCoefficient v 1) LinearConstraint.empty).coefficients := by
    rw [List.foldl_map]
    rfl
  have hmem : v ∈ (gtToRec a b g).map (fun r => variableOf a b (g, r)) ↔
      ∃ r, (g, r) ∈ candidatePairs a b ∧ variableOf a b (g, r) = v := by
    simp only [List.mem_map, mem_gtToRec]
  refine ⟨rfl, rfl, ?_, ?_⟩
  · intro h
    rw [hfold, foldl_setCoefficient_find, if_pos (hmem.2 h)]
  · intro h
    rw [hfold, foldl_setCoefficient_find, if_neg (fun hv => h (hmem.1 hv))]
    rfl

/-- The constraint of a reconstruction label has the relation `≤`, the value 1
and the coefficient 1 on exactly the variables of the candidate pairs of that
label. -/
theorem recConstraint_shape (sqrt : ℚ → ℚ) (a b : Image) (r v : Nat) :
    (recConstraint (buildProblem sqrt a b).vars.pairToVariable
      (buildProblem sqrt a b).overlaps.btoa r).relation = Relation.LessEqual ∧
    (recConstraint (buildProblem sqrt a b).vars.pairToVariable
      (buildProblem sqrt a b).overlaps.btoa r).value = 1 ∧
    ((∃ g, (g, r) ∈ candidatePairs a b ∧ variableOf a b (g, r) = v) →
      mapFind (recConstraint (buildProblem sqrt a b).vars.pairToVariable
        (buildProblem sqrt a b).overlaps.btoa r).coefficients v = some 1) ∧
    ((¬ ∃ g, (g, r) ∈ candidatePairs a b ∧ variableOf a b (g, r) = v) →
      mapFind (recConstraint (buildProblem sqrt a b).vars.pairToVariable
        (buildProblem sqrt a b).overlaps.btoa r).coefficients v = none) := by
  have hfold : (recConstraint (buildProblem sqrt a b).vars.pairToVariable
      (buildProblem sqrt a b).overlaps.btoa r).coefficients =
      (((recToGt a b r).map (fun g => variableOf a b (g, r))).foldl
        (fun c v => c.setCoefficient v 1) LinearConstraint.empty).coefficients := by
    rw [List.foldl_map]
    rfl
  have hmem : v ∈ (recToGt a b r).map (fun g => variableOf a b (g, r)) ↔
      ∃ g, (g, r) ∈ candidatePairs a b ∧ variableOf a b (g, r) = v := by
    simp only [List.mem_map, mem_recToGt]
  refine ⟨rfl, rfl, ?_, ?_⟩
  · intro h
    rw [hfold, foldl_setCoefficient_find, if_pos (hmem.2 h)]
  · intro h
    rw [hfold, foldl_setCoefficient_find, if_neg (fun hv => h (hmem.1 hv))]
    rfl

/-- The two numbering tables are inverse to each other and cover exactly the
candidate pairs and the indices below their number. -/
theorem numbering_spec (a b : Image) :
    (∀ q v, mapFind (numberPairs (candidatePairs a b)).pairToVariable q = some v ↔
      mapFind (numberPairs (candidatePairs a b)).variableToPair v = some q) ∧
    (∀ q, q ∈ candidatePairs a b ↔
      ∃ v, mapFind (numberPairs (candidatePairs a b)).pairToVariable q = some v) ∧
    (∀ v, v < (candidatePairs a b).length ↔
      ∃ q, mapFind (numberPairs (candidatePairs a b)).variableToPair v = some q) := by
  have hnd := candidatePairs_nodup a b
  refine ⟨?_, ?_, ?_⟩
  · intro q v
    rw [find_pairToVariable _ hnd, find_variableToPair]
  · intro q
    constructor
    · intro hq
      obtain ⟨i, hi⟩ := List.getElem?_of_mem hq
      exact ⟨i, (find_pairToVariable _ hnd q i).2 hi⟩
    · rintro ⟨v, hv⟩
      exact List.getElem?_mem ((find_pairToVariable _ hnd q v).1 hv)
  · intro v
    simp only [find_variableToPair]
    constructor
    · intro hv
      exact ⟨_, List.getElem?_eq_getElem hv⟩
    · rintro ⟨q, hq⟩
      exact (List.getElem?_eq_some_iff.1 hq).1

/-- C18 (assignment problem builder): `pairToVariable` and `variableToPair`
are mutually inverse and cover exactly the candidate pairs and the indices
`0..n-1`; the objective has `n` coefficients and the coefficient of the
variable of a pair is the final score `matchingScore[p]`; the constraints are
one per reconstruction label followed by one per ground-truth label, each with
relation `≤`, value 1 and coefficient 1 on exactly the variables of the
candidate pairs that contain the label. -/
theorem assignment_problem_builder (sqrt : ℚ → ℚ) (a b : Image) :
    (∀ q v, mapFind (buildProblem sqrt a b).vars.pairToVariable q = some v ↔
      mapFind (buildProblem sqrt a b).vars.variableToPair v = some q) ∧
    (∀ q, q ∈ (buildProblem sqrt a b).overlaps.overlapPairs ↔
      ∃ v, mapFind (buildProblem sqrt a b).vars.pairToVariable q = some v) ∧
    (∀ v, v < (buildProblem sqrt a b).overlaps.overlapPairs.length ↔
      ∃ q, mapFind (buildProblem sqrt a b).vars.variableToPair v = some q) ∧
    (buildProblem sqrt a b).objective.coefficients.length =
      (buildProblem sqrt a b).overlaps.overlapPairs.length ∧
    (∀ q v, mapFind (buildProblem sqrt a b).vars.pairToVariable q = some v →
      (buildProblem sqrt a b).objective.coefficients[v]? =
        mapFind (buildProblem sqrt a b).matchingScore q ∧
      ∃ score, mapFind (buildProblem sqrt a b).matchingScore q = some score) ∧
    (buildProblem sqrt a b).constraints.length =
      (buildProblem sqrt a b).recTables.labels.length +
        (buildProblem sqrt a b).gtTables.labels.length ∧
    (buildProblem sqrt a b).constraints =
      (buildProblem sqrt a b).recTables.labels.map
          (recConstraint (buildProblem sqrt a b).vars.pairToVariable
            (buildProblem sqrt a b).overlaps.btoa) ++
        (buildProblem sqrt a b).gtTables.labels.map
          (gtConstraint (buildProblem sqrt a b).vars.pairToVariable
            (buildProblem sqrt a b).overlaps.atob) ∧
    (∀ r v,
      (recConstraint (buildProblem sqrt a b).vars.pairToVariable
        (buildProblem sqrt a b).overlaps.btoa r).relation = Relation.LessEqual ∧
      (recConstraint (buildProblem sqrt a b).vars.pairToVariable
        (buildProblem sqrt a b).overlaps.btoa r).value = 1 ∧
      ((∃ g, (g, r) ∈ (buildProblem sqrt a b).overlaps.overlapPairs ∧
          mapFind (buildProblem sqrt a b).vars.pairToVariable (g, r) = some v) →
        mapFind (recConstraint (buildProblem sqrt a b).vars.pairToVariable
          (buildProblem sqrt a b).overlaps.btoa r).coefficients v = some 1) ∧
      ((¬ ∃ g, (g, r) ∈ (buildProblem sqrt a b).overlaps.overlapPairs ∧
          mapFind (buildProblem sqrt a b).vars.pairToVariable (g, r) = some v) →
        mapFind (recConstraint (buildProblem sqrt a b).vars.pairToVariable
          (buildProblem sqrt a b).overlaps.btoa r).coefficients v = none)) ∧
    (∀ g v,
      (gtConstraint (buildProblem sqrt a b).vars.pairToVariable
        (buildProblem sqrt a b).overlaps.atob g).relation = Relation.LessEqual ∧
      (gtConstraint (buildProblem sqrt a b).vars.pairToVariable
        (buildProblem sqrt a b).overlaps.atob g).value = 1 ∧
      ((∃ r, (g, r) ∈ (buildProblem sqrt a b).overlaps.overlapPairs ∧
          mapFind (buildProblem sqrt a b).vars.pairToVariable (g, r) = some v) →
        mapFind (gtConstraint (buildProblem sqrt a b).vars.pairToVariable
          (buildProblem sqrt a b).overlaps.atob g).coefficients v = some 1) ∧
      ((¬ ∃ r, (g, r) ∈ (buildProblem sqrt a b).overlaps.overlapPairs ∧
          mapFind (buildProblem sqrt a b).vars.pairToVariable (g, r) = some v) →
        mapFind (gtConstraint (buildProblem sqrt a b).vars.pairToVariable
          (buildProblem sqrt a b).overlaps.atob g).coefficients v = none)) := by
  obtain ⟨n1, n2, n3⟩ := numbering_spec a b
  have hvar : ∀ q v, q ∈ candidatePairs a b →
      (mapFind (numberPairs (candidatePairs a b)).pairToVariable q = some v ↔
        variableOf a b q = v) := by
    intro q v hq
    obtain ⟨w, hw⟩ := (n2 q).1 hq
    have : variableOf a b q = w := by simp [variableOf, mapGet, hw]
    rw [hw, this]
    exact ⟨fun h => Option.some.inj h, fun h => by rw [h]⟩
  have hex : ∀ (P : Nat → Nat × Nat) v,
      (∃ x, P x ∈ candidatePairs a b ∧
        mapFind (numberPairs (candidatePairs a b)).pairToVariable (P x) = some v) ↔
      (∃ x, P x ∈ candidatePairs a b ∧ variableOf a b (P x) = v) := by
    intro P v
    constructor
    · rintro ⟨x, h1, h2⟩; exact ⟨x, h1, (hvar _ v h1).1 h2⟩
    · rintro ⟨x, h1, h2⟩; exact ⟨x, h1, (hvar _ v h1).2 h2⟩
  have hcs := buildConstraints_eq (numberPairs (candidatePairs a b)).pairToVariable
    (getCenterPoints a ⟨[], [], []⟩).labels (getCenterPoints b ⟨[], [], []⟩).labels
    (getOverlaps a b ⟨[], [], [], []⟩).atob (getOverlaps a b ⟨[], [], [], []⟩).btoa
  refine ⟨n1, n2, n3, (objective_spec sqrt a b).1, ?_, ?_, hcs, ?_, ?_⟩
  · intro q v hv
    have hq : q ∈ candidatePairs a b := (n2 q).2 ⟨v, hv⟩
    have hv' := (hvar q v hq).1 hv
    have h1 := (objective_spec sqrt a b).2 q hq
    rw [hv'] at h1
    have h2 := finalScore_eq sqrt a b q hq
    rw [← finalScore_spec sqrt a b q hq] at h2
    exact ⟨by rw [h1, h2], _, h2⟩
  · have hlen := congrArg List.length hcs
    rw [List.length_append, List.length_map, List.length_map] at hlen
    exact hlen
  · intro r v
    obtain ⟨s1, s2, s3, s4⟩ := recConstraint_shape sqrt a b r v
    refine ⟨s1, s2, fun h => s3 ((hex (fun g => (g, r)) v).1 h), fun h => s4 ?_⟩
    exact fun h' => h ((hex (fun g => (g, r)) v).2 h')
  · intro g v
    obtain ⟨s1, s2, s3, s4⟩ := gtConstraint_shape sqrt a b g v
    refine ⟨s1, s2, fun h => s3 ((hex (fun r => (g, r)) v).1 h), fun h => s4 ?_⟩
    exact fun h' => h ((hex (fun r => (g, r)) v).2 h')

/-- Witness of C18 on the two-region example: three candidate pairs, three
variables, three coefficients and four constraints. -/
theorem assignment_problem_builder_witness :
    (buildProblem sqrtOnSquares exampleGt exampleRec).vars.pairToVariable =
      [((1, 5), 0), ((2, 5), 1), ((2, 7), 2)] ∧
    (buildProblem sqrtOnSquares exampleGt exampleRec).vars.variableToPair =
      [(0, (1, 5)), (1, (2, 5)), (2, (2, 7))] ∧
    (buildProblem sqrtOnSquares exampleGt exampleRec).objective.coefficients =
      [-17 / 10, -1 / 5, -6 / 5] ∧
    (buildProblem sqrtOnSquares exampleGt exampleRec).constraints.map
      (fun c => (c.coefficients, c.value)) =
      [([(0, 1), (1, 1)], 1), ([(2, 1)], 1), ([(0, 1)], 1), ([(1, 1), (2, 1)], 1)] ∧
    (buildProblem sqrtOnSquares exampleGt exampleRec).objective.coefficients.length =
      (buildProblem sqrtOnSquares exampleGt exampleRec).overlaps.overlapPairs.length ∧
    (buildProblem sqrtOnSquares exampleGt exampleRec).objective.coefficients[1]? =
      mapFind (buildProblem sqrtOnSquares exampleGt exampleRec).matchingScore (2, 5) :=
  ⟨by decide, by decide, by decide!, by decide!,
    (assignment_problem_builder sqrtOnSquares exampleGt exampleRec).2.2.2.1,
    ((assignment_problem_builder sqrtOnSquares exampleGt exampleRec).2.2.2.2.1 (2, 5) 1
      (by decide)).1⟩

/-! ## Counting and summing over the pixels -/

theorem pixels_nodup (width height : Nat) : (pixels width height).Nodup := by
  unfold pixels
  rw [List.nodup_flatMap]
  refine ⟨?_, ?_⟩
  · intro y _
    refine List.Nodup.map ?_ (List.nodup_range width)
    intro x x' h
    exact (Prod.mk.inj h).1
  · refine List.Pairwise.imp ?_ (List.nodup_range height)
    intro y y' hne
    intro p hp hp'
    simp only [List.mem_map, List.mem_range] at hp hp'
    obtain ⟨x, -, rfl⟩ := hp
    obtain ⟨x', -, h⟩ := hp'
    exact hne (Prod.mk.inj h).2.symm

theorem pixels_toFinset (image : Image) :
    (pixels image.width image.height).toFinset = coordinates image := by
  ext p
  simp only [List.mem_toFinset, mem_pixels, coordinates, Finset.mem_product, Finset.mem_range]

theorem countP_pixels (image : Image) (P : Nat × Nat → Bool) :
    (pixels image.width image.height).countP P =
      ((coordinates image).filter (fun p => P p = true)).card := by
  rw [List.countP_eq_length_filter, ← pixels_toFinset, ← List.toFinset_filter,
    List.toFinset_card_of_nodup ((pixels_nodup _ _).filter P)]

theorem sum_pixels (image : Image) (P : Nat × Nat → Bool) (f : Nat × Nat → ℚ) :
    (((pixels image.width image.height).filter P).map f).sum =
      ∑ p in (coordinates image).filter (fun p => P p = true), f p := by
  rw [← pixels_toFinset, ← List.toFinset_filter,
    List.sum_toFinset f ((pixels_nodup _ _).filter P)]

theorem overlapStep_keys (a b : Image) (st : OverlapTables) (p : Nat × Nat)
    (h : AdjacencyKeys st) : AdjacencyKeys (overlapStep a b st p.1 p.2) := by
  obtain ⟨h1, h2⟩ := h
  unfold overlapStep
  by_cases hz : a.pixel p.1 p.2 = 0 ∨ b.pixel p.1 p.2 = 0
  · simp only [hz, if_true]
    exact ⟨h1, h2⟩
  · simp only [hz, if_false]
    constructor
    · intro g
      simp only [mapFind_mapSet, mem_setInsert, Prod.mk.injEq]
      by_cases hg : g = a.pixel p.1 p.2
      · subst hg
        simp only [if_true]
        constructor
        · intro h; exact Option.noConfusion h
        · intro h; exact absurd (by simp) (h (b.pixel p.1 p.2))
      · simp only [hg, if_false, h1, false_and, false_or]
    · intro r
      simp only [mapFind_mapSet, mem_setInsert, Prod.mk.injEq]
      by_cases hr : r = b.pixel p.1 p.2
      · subst hr
        simp only [if_true]
        constructor
        · intro h; exact Option.noConfusion h
        · intro h; exact absurd (by simp) (h (a.pixel p.1 p.2))
      · simp only [hr, if_false, h2, and_false, false_or]

theorem getOverlaps_keys (a b : Image) (prev : OverlapTables) :
    AdjacencyKeys (getOverlaps a b prev) := by
  unfold getOverlaps
  rw [rasterScan_eq_foldl]
  refine foldl_invariant AdjacencyKeys _ (fun st p h => overlapStep_keys a b st p h) _ _ ?_
  constructor <;> intro <;> simp [mapFind]

theorem overlapCount_eq_card (a b : Image) (q : Nat × Nat) (h1 : q.1 ≠ 0) (h2 : q.2 ≠ 0) :
    overlapCount a b q =
      ((coordinates a).filter
        (fun p => a.pixel p.1 p.2 = q.1 ∧ b.pixel p.1 p.2 = q.2)).card := by
  unfold overlapCount
  rw [countP_pixels]
  congr 1
  apply Finset.filter_congr
  intro p _
  simp only [overlapHit, decide_eq_true_eq]
  tauto

/-- C16 (overlap extractor): `getOverlaps(a, b, ...)` returns (1) as
`overlapPairs` exactly the pairs `(la, lb)` of non-zero labels that some
coordinate of `a` carries in `a` and in `b`, each once; (2) `overlapAreas`
defined on exactly those pairs, with the number of such coordinates, which is
at least 1; (3) `atob[la]` and `btoa[lb]` as the sets of partners in
`overlapPairs`, with an entry exactly for the labels that have a partner, so
that the two tables are inverse to each other; and the previous content of the
four outputs is discarded. -/
theorem overlap_extractor (a b : Image) (previous : OverlapTables) :
    (∀ la lb, (la, lb) ∈ (getOverlaps a b previous).overlapPairs ↔
      la ≠ 0 ∧ lb ≠ 0 ∧
        ∃ x y, x < a.width ∧ y < a.height ∧ a.pixel x y = la ∧ b.pixel x y = lb) ∧
    (getOverlaps a b previous).overlapPairs.Nodup ∧
    (∀ la lb, (la, lb) ∈ (getOverlaps a b previous).overlapPairs →
      mapFind (getOverlaps a b previous).overlapAreas (la, lb) =
        some ((coordinates a).filter
          (fun p => a.pixel p.1 p.2 = la ∧ b.pixel p.1 p.2 = lb)).card ∧
      1 ≤ ((coordinates a).filter
        (fun p => a.pixel p.1 p.2 = la ∧ b.pixel p.1 p.2 = lb)).card) ∧
    (∀ q, q ∉ (getOverlaps a b previous).overlapPairs →
      mapFind (getOverlaps a b previous).overlapAreas q = none) ∧
    (∀ la lb, lb ∈ mapGet (getOverlaps a b previous).atob la [] ↔
      (la, lb) ∈ (getOverlaps a b previous).overlapPairs) ∧
    (∀ la lb, la ∈ mapGet (getOverlaps a b previous).btoa lb [] ↔
      (la, lb) ∈ (getOverlaps a b previous).overlapPairs) ∧
    (∀ la lb, lb ∈ mapGet (getOverlaps a b previous).atob la [] ↔
      la ∈ mapGet (getOverlaps a b previous).btoa lb []) ∧
    (∀ la, (mapGet (getOverlaps a b previous).atob la []).Nodup) ∧
    (∀ lb, (mapGet (getOverlaps a b previous).btoa lb []).Nodup) ∧
    (∀ la, mapFind (getOverlaps a b previous).atob la = none ↔
      ∀ lb, (la, lb) ∉ (getOverlaps a b previous).overlapPairs) ∧
    (∀ lb, mapFind (getOverlaps a b previous).btoa lb = none ↔
      ∀ la, (la, lb) ∉ (getOverlaps a b previous).overlapPairs) ∧
    getOverlaps a b previous = getOverlaps a b ⟨[], [], [], []⟩ := by
  obtain ⟨i1, i2, i3, i4, i5⟩ := getOverlaps_inv a b previous
  obtain ⟨k1, k2⟩ := getOverlaps_keys a b previous
  refine ⟨fun la lb => mem_candidatePairs a b (la, lb), i1.nodup, ?_, ?_, i2, i3,
    fun la lb => (i2 la lb).trans (i3 la lb).symm, fun la => (i4 la).nodup,
    fun lb => (i5 lb).nodup, k1, k2, rfl⟩
  · intro la lb h
    have hpos := overlapCount_pos a b (la, lb) h
    obtain ⟨h1, h2, -⟩ := (mem_candidatePairs a b (la, lb)).1 h
    have hc := overlapCount_eq_card a b (la, lb) h1 h2
    rw [find_overlapAreas, if_neg (by omega), hc]
    exact ⟨rfl, by rw [← hc]; exact hpos⟩
  · intro q hq
    rw [find_overlapAreas, if_pos]
    by_contra hne
    obtain ⟨p, hp, h⟩ := List.countP_pos_iff.1 (Nat.pos_of_ne_zero hne)
    exact hq ((mem_overlapPairs a b previous q).2 ⟨p, hp, h⟩)

/-- Witness of C16 on the two-region example: the four tables. -/
theorem overlap_extractor_witness :
    (getOverlaps exampleGt exampleRec ⟨[(9, 9)], [((9, 9), 4)], [(9, [9])], [(9, [9])]⟩) =
      ⟨[(1, 5), (2, 5), (2, 7)], [((1, 5), 2), ((2, 5), 1), ((2, 7), 2)],
        [(1, [5]), (2, [5, 7])], [(5, [1, 2]), (7, [2])]⟩ ∧
    (2, 5) ∈ (getOverlaps exampleGt exampleRec
      ⟨[(9, 9)], [((9, 9), 4)], [(9, [9])], [(9, [9])]⟩).overlapPairs ∧
    mapFind (getOverlaps exampleGt exampleRec
      ⟨[(9, 9)], [((9, 9), 4)], [(9, [9])], [(9, [9])]⟩).overlapAreas (2, 5) =
      some ((coordinates exampleGt).filter
        (fun p => exampleGt.pixel p.1 p.2 = 2 ∧ exampleRec.pixel p.1 p.2 = 5)).card :=
  ⟨rfl, by decide,
    ((overlap_extractor exampleGt exampleRec
      ⟨[(9, 9)], [((9, 9), 4)], [(9, [9])], [(9, [9])]⟩).2.2.1 2 5 (by decide)).1⟩

/-! ## Centres -/

theorem centerStep_centers (image : Image) (st : CenterTables) (p : Nat × Nat) (l : Nat) :
    mapFind (centerStep image st p.1 p.2).centers l =
      if labelHit image p l = true then
        some (if mapFind st.sizes l = none then ⟨(p.1 : ℚ), (p.2 : ℚ)⟩
          else (mapGet st.centers l Point.zero).add ⟨(p.1 : ℚ), (p.2 : ℚ)⟩)
      else mapFind st.centers l := by
  unfold centerStep labelHit
  by_cases h : image.pixel p.1 p.2 = 0
  · have hn : ¬ (0 = l ∧ l ≠ 0) := fun ⟨h1, h2⟩ => h2 h1.symm
    simp only [h, if_true, hn, decide_False, Bool.false_eq_true, if_false]
  · simp only [h, if_false]
    by_cases hl : l = image.pixel p.1 p.2
    · subst hl
      simp only [ne_eq, h, not_false_eq_true, and_self, decide_True, if_true]
      by_cases hc : mapCount st.sizes (image.pixel p.1 p.2) = 0
      · have hf := (mapCount_eq_zero _ _).1 hc
        simp [hc, mapFind_mapSet, hf]
      · have hf : mapFind st.sizes (image.pixel p.1 p.2) ≠ none :=
          fun h' => hc ((mapCount_eq_zero _ _).2 h')
        simp [hc, mapFind_mapSet, hf]
    · have hn : ¬ (image.pixel p.1 p.2 = l ∧ l ≠ 0) := fun ⟨h1, _⟩ => hl h1.symm
      simp only [hn, decide_False, Bool.false_eq_true, if_false]
      split_ifs <;> simp [mapFind_mapSet, hl]

theorem coordinateSum_snoc_hit (image : Image) (ps : List (Nat × Nat)) (p : Nat × Nat)
    (l : Nat) (hp : labelHit image p l = true) :
    coordinateSum image (ps ++ [p]) l =
      (coordinateSum image ps l).add ⟨(p.1 : ℚ), (p.2 : ℚ)⟩ := by
  simp [coordinateSum, List.filter_append, hp, Point.add]

theorem coordinateSum_snoc_miss (image : Image) (ps : List (Nat × Nat)) (p : Nat × Nat)
    (l : Nat) (hp : ¬ labelHit image p l = true) :
    coordinateSum image (ps ++ [p]) l = coordinateSum image ps l := by
  simp [coordinateSum, List.filter_append, hp]

theorem coordinateSum_of_count_zero (image : Image) (ps : List (Nat × Nat)) (l : Nat)
    (hc : ps.countP (fun p => labelHit image p l) = 0) :
    coordinateSum image ps l = ⟨0, 0⟩ := by
  have hfil : ps.filter (fun p => labelHit image p l) = [] := by
    rw [List.filter_eq_nil_iff]
    intro q hq hq'
    exact Nat.ne_of_gt (List.countP_pos_iff.2 ⟨q, hq, hq'⟩) hc
  simp [coordinateSum, hfil]

/-- After the scan of `getCenterPoints` over a list of pixels, from empty
tables, `centers[l]` holds the coordinate sum of the pixels with label `l`. -/
theorem scan_centers (image : Image) (ps : List (Nat × Nat)) (l : Nat) :
    mapFind (ps.foldl (fun st p => centerStep image st p.1 p.2) ⟨[], [], []⟩).centers l =
      if ps.countP (fun p => labelHit image p l) = 0 then none
      else some (coordinateSum image ps l) := by
  induction ps using List.reverseRecOn with
  | nil => simp [mapFind]
  | append_singleton ps p ih =>
    have hsz : mapFind (ps.foldl (fun st p => centerStep image st p.1 p.2)
        ⟨[], [], []⟩).sizes l =
        if ps.countP (fun p => labelHit image p l) = 0 then none
        else some (ps.countP (fun p => labelHit image p l)) := by
      have h := foldl_counter (fun st p => centerStep image st p.1 p.2)
        CenterTables.sizes (fun p l => labelHit image p l)
        (fun st p k => centerStep_sizes image st p k) ps ⟨[], [], []⟩ l
      simpa [mapGet, mapFind] using h
    rw [List.foldl_append, List.foldl_cons, List.foldl_nil, centerStep_centers,
      List.countP_append, List.countP_singleton]
    by_cases hp : labelHit image p l = true
    · rw [if_pos hp, if_pos hp, if_neg (Nat.succ_ne_zero _),
        coordinateSum_snoc_hit image ps p l hp]
      congr 1
      by_cases hc : ps.countP (fun p => labelHit image p l) = 0
      · rw [hsz, if_pos hc, if_pos rfl, coordinateSum_of_count_zero image ps l hc]
        simp [Point.add]
      · rw [hsz, if_neg hc, if_neg (Option.some_ne_none _)]
        simp only [mapGet, ih, if_neg hc, Option.getD_some]
    · rw [if_neg hp, if_neg hp, Nat.add_zero, coordinateSum_snoc_miss image ps p l hp]
      exact ih

theorem normalize_fold (ls : List Nat) (hnd : ls.Nodup) (st : CenterTables) (l : Nat) :
    (ls.foldl normalizeStep st).sizes = st.sizes ∧
    mapFind (ls.foldl normalizeStep st).centers l =
      if l ∈ ls then
        some ((mapGet st.centers l Point.zero).divScalar ((mapGet st.sizes l 0 : Nat) : ℚ))
      else mapFind st.centers l := by
  induction ls generalizing st with
  | nil => simp
  | cons x ls ih =>
    rw [List.nodup_cons] at hnd
    obtain ⟨h1, h2⟩ := ih hnd.2 (normalizeStep st x)
    rw [List.foldl_cons, h1, h2]
    refine ⟨rfl, ?_⟩
    by_cases hl : l ∈ ls
    · have hx : l ≠ x := fun h => hnd.1 (h ▸ hl)
      simp [hl, normalizeStep, mapGet_mapSet, hx]
    · by_cases hx : l = x
      · subst hx
        simp [hl, normalizeStep, mapFind_mapSet]
      · simp [hl, hx, normalizeStep, mapFind_mapSet]

/-- The entry of `centers` for `l` after `getCenterPoints` on empty tables:
absent when no pixel carries `l`, else the coordinate sum divided by the
number of pixels. -/
theorem find_centers (image : Image) (l : Nat) :
    mapFind (getCenterPoints image ⟨[], [], []⟩).centers l =
      if labelCount image l = 0 then none
      else some ((coordinateSum image (pixels image.width image.height) l).divScalar
        ((labelCount image l : Nat) : ℚ)) := by
  have hlab : ∀ x, x ∈ (rasterScan image.width image.height (centerStep image)
      ⟨[], [], []⟩).labels ↔ labelCount image x ≠ 0 := by
    intro x
    have := mem_labels image x
    unfold getCenterPoints at this
    rw [(normalizeCenters_labels _).1] at this
    rw [this]
    unfold labelCount
    constructor
    · rintro ⟨p, hp, h⟩
      exact Nat.ne_of_gt (List.countP_pos_iff.2 ⟨p, hp, h⟩)
    · intro h
      exact List.countP_pos_iff.1 (Nat.pos_of_ne_zero h)
  have hsorted : StrictSorted (rasterScan image.width image.height (centerStep image)
      ⟨[], [], []⟩).labels := by
    have := labels_sorted image
    unfold getCenterPoints at this
    rw [(normalizeCenters_labels _).1] at this
    exact this
  have hsz : mapFind (rasterScan image.width image.height (centerStep image)
      ⟨[], [], []⟩).sizes l =
      if labelCount image l = 0 then none else some (labelCount image l) := by
    have := find_sizes image l
    unfold getCenterPoints at this
    rw [(normalizeCenters_labels _).2] at this
    exact this
  have hct : mapFind (rasterScan image.width image.height (centerStep image)
      ⟨[], [], []⟩).centers l =
      if labelCount image l = 0 then none
      else some (coordinateSum image (pixels image.width image.height) l) := by
    rw [rasterScan_eq_foldl]
    exact scan_centers image _ l
  unfold getCenterPoints normalizeCenters
  rw [(normalize_fold _ hsorted.nodup _ l).2]
  by_cases hc : labelCount image l = 0
  · rw [if_neg (fun h => (hlab l).1 h hc), hct, if_pos hc, if_pos hc]
  · rw [if_pos ((hlab l).2 hc), if_neg hc]
    simp only [mapGet, hct, hsz, if_neg hc, Option.getD_some]

theorem labelCount_eq_card (image : Image) (l : Nat) (hl : l ≠ 0) :
    labelCount image l =
      ((coordinates image).filter (fun p => image.pixel p.1 p.2 = l)).card := by
  unfold labelCount
  rw [countP_pixels]
  congr 1
  apply Finset.filter_congr
  intro p _
  simp only [labelHit, decide_eq_true_eq]
  tauto

theorem coordinateSum_eq_sum (image : Image) (l : Nat) (hl : l ≠ 0) :
    coordinateSum image (pixels image.width image.height) l =
      ⟨∑ p in (coordinates image).filter (fun p => image.pixel p.1 p.2 = l), (p.1 : ℚ),
        ∑ p in (coordinates image).filter (fun p => image.pixel p.1 p.2 = l), (p.2 : ℚ)⟩ := by
  have hf : (coordinates image).filter (fun p => labelHit image p l = true) =
      (coordinates image).filter (fun p => image.pixel p.1 p.2 = l) := by
    apply Finset.filter_congr
    intro p _
    simp only [labelHit, decide_eq_true_eq]
    tauto
  unfold coordinateSum
  rw [sum_pixels, sum_pixels, hf]

/-- C17 (region summarizer): called with empty tables, `getCenterPoints`
returns as `labels` exactly the non-zero values that occur in the image, each
once (0 is never a label); `sizes` and `centers` are defined on exactly those
labels, `sizes[l]` is the number of pixels with value `l`, which is at least 1,
and `centers[l]` is the sum of the `x`, and of the `y`, of those pixels divided
by `sizes[l]`, in exact arithmetic. -/
theorem region_summarizer (image : Image) :
    (∀ l, l ∈ (getCenterPoints image ⟨[], [], []⟩).labels ↔
      l ≠ 0 ∧ ∃ x y, x < image.width ∧ y < image.height ∧ image.pixel x y = l) ∧
    (getCenterPoints image ⟨[], [], []⟩).labels.Nodup ∧
    0 ∉ (getCenterPoints image ⟨[], [], []⟩).labels ∧
    (∀ l ∈ (getCenterPoints image ⟨[], [], []⟩).labels,
      mapFind (getCenterPoints image ⟨[], [], []⟩).sizes l =
        some ((coordinates image).filter (fun p => image.pixel p.1 p.2 = l)).card ∧
      1 ≤ ((coordinates image).filter (fun p => image.pixel p.1 p.2 = l)).card ∧
      mapFind (getCenterPoints image ⟨[], [], []⟩).centers l =
        some ⟨(∑ p in (coordinates image).filter (fun p => image.pixel p.1 p.2 = l),
            (p.1 : ℚ)) /
            (((coordinates image).filter (fun p => image.pixel p.1 p.2 = l)).card : ℚ),
          (∑ p in (coordinates image).filter (fun p => image.pixel p.1 p.2 = l),
            (p.2 : ℚ)) /
            (((coordinates image).filter (fun p => image.pixel p.1 p.2 = l)).card : ℚ)⟩) ∧
    (∀ l, l ∉ (getCenterPoints image ⟨[], [], []⟩).labels →
      mapFind (getCenterPoints image ⟨[], [], []⟩).sizes l = none ∧
      mapFind (getCenterPoints image ⟨[], [], []⟩).centers l = none) := by
  have hcount : ∀ l, l ∈ (getCenterPoints image ⟨[], [], []⟩).labels ↔
      labelCount image l ≠ 0 := by
    intro l
    rw [mem_labels]
    unfold labelCount
    constructor
    · rintro ⟨p, hp, h⟩
      exact Nat.ne_of_gt (List.countP_pos_iff.2 ⟨p, hp, h⟩)
    · intro h
      exact List.countP_pos_iff.1 (Nat.pos_of_ne_zero h)
  refine ⟨fun l => mem_labels_iff image l, (labels_sorted image).nodup, ?_, ?_, ?_⟩
  · intro h
    exact ((mem_labels_iff image 0).1 h).1 rfl
  · intro l hl
    have hne : l ≠ 0 := ((mem_labels_iff image l).1 hl).1
    have hc := (hcount l).1 hl
    have hcard := labelCount_eq_card image l hne
    refine ⟨?_, ?_, ?_⟩
    · rw [find_sizes, if_neg hc, hcard]
    · rw [← hcard]; omega
    · rw [find_centers, if_neg hc, coordinateSum_eq_sum image l hne, hcard]
      rfl
  · intro l hl
    have hc : labelCount image l = 0 := by
      by_contra h
      exact hl ((hcount l).2 h)
    exact ⟨by rw [find_sizes, if_pos hc], by rw [find_centers, if_pos hc]⟩

/-- Witness of C17 on the ground truth of the two-region example: labels 1 and
2, sizes 2 and 3, centres (1/2, 0) and (3, 0). -/
theorem region_summarizer_witness :
    (getCenterPoints exampleGt ⟨[], [], []⟩).labels = [1, 2] ∧
    (getCenterPoints exampleGt ⟨[], [], []⟩).sizes = [(1, 2), (2, 3)] ∧
    (getCenterPoints exampleGt ⟨[], [], []⟩).centers = [(1, ⟨1 / 2, 0⟩), (2, ⟨3, 0⟩)] ∧
    mapFind (getCenterPoints exampleGt ⟨[], [], []⟩).sizes 2 =
      some ((coordinates exampleGt).filter (fun p => exampleGt.pixel p.1 p.2 = 2)).card :=
  ⟨by decide, by decide, by decide!,
    ((region_summarizer exampleGt).2.2.2.1 2 (by decide)).1⟩

/-! ## The process node -/

/-- C11 as stated fails on a header-only node: its stacks hold no image, and
`updateOutputs` returns normally, without a usage error. -/
theorem header_only_raises_no_usage_error :
    ((⟨true, [], [], none⟩ : DetectionOverlap).stack1.length ≠ 1 ∨
      (⟨true, [], [], none⟩ : DetectionOverlap).stack2.length ≠ 1) ∧
    (updateOutputs sqrtOnSquares (fun _ _ => some zeroSolution) ⟨true, [], [], none⟩).2 =
      Outcome.returned ∧
    (updateOutputs sqrtOnSquares (fun _ _ => some zeroSolution) ⟨true, [], [], none⟩).2 ≠
      Outcome.usageError :=
  ⟨by decide, rfl, by decide⟩

/-- C11 (amended, slice-count usage error): on a node that is not header-only,
if stack 1 or stack 2 does not hold exactly one image, `updateOutputs` ends
with a usage error and the report is the one the node had before the call (a
fresh empty one if it had none): nothing is added; and if both stacks hold
exactly one image, no usage error is raised. -/
theorem slice_count_usage_error (sqrt : ℚ → ℚ) (solver : LinearSolver)
    (self : DetectionOverlap) (hfull : self.headerOnly = false) :
    ((self.stack1.length ≠ 1 ∨ self.stack2.length ≠ 1) →
      (updateOutputs sqrt solver self).2 = Outcome.usageError ∧
      (updateOutputs sqrt solver self).1.errors =
        some (self.errors.getD DetectionOverlapErrors.empty)) ∧
    ((self.stack1.length = 1 ∧ self.stack2.length = 1) →
      (updateOutputs sqrt solver self).2 ≠ Outcome.usageError) := by
  constructor
  · intro h
    unfold updateOutputs
    rw [hfull]
    rw [if_neg Bool.false_ne_true, if_pos h]
    exact ⟨rfl, rfl⟩
  · rintro ⟨h1, h2⟩
    unfold updateOutputs
    simp only [hfull, Bool.false_eq_true, if_false, h1, h2, ne_eq, not_true_eq_false, or_self]
    cases solver _ _ <;> exact Outcome.noConfusion

/-- Witness of C11 (amended): a node with two images in stack 1 ends with a
usage error and an empty report; a node with one image per stack does not. -/
theorem slice_count_usage_error_witness :
    (updateOutputs sqrtOnSquares (fun _ _ => some oneSolution)
      ⟨false, [onePixel, onePixel], [onePixel], none⟩).2 = Outcome.usageError ∧
    (updateOutputs sqrtOnSquares (fun _ _ => some oneSolution)
      ⟨false, [onePixel, onePixel], [onePixel], none⟩).1.errors =
      some DetectionOverlapErrors.empty ∧
    (updateOutputs sqrtOnSquares (fun _ _ => some oneSolution)
      ⟨false, [onePixel], [onePixel], none⟩).2 ≠ Outcome.usageError :=
  ⟨((slice_count_usage_error sqrtOnSquares (fun _ _ => some oneSolution)
      ⟨false, [onePixel, onePixel], [onePixel], none⟩ rfl).1 (by decide)).1,
    ((slice_count_usage_error sqrtOnSquares (fun _ _ => some oneSolution)
      ⟨false, [onePixel, onePixel], [onePixel], none⟩ rfl).1 (by decide)).2,
    (slice_count_usage_error sqrtOnSquares (fun _ _ => some oneSolution)
      ⟨false, [onePixel], [onePixel], none⟩ rfl).2 (by decide)⟩

/-- C12 as stated fails: a 1 x 1 ground truth and a 2 x 1 reconstruction have
different widths, yet `updateOutputs` returns normally and fills the report
with one match and one false positive. -/
theorem dimension_mismatch_not_rejected :
    onePixel.width ≠ twoPixels.width ∧
    (updateOutputs sqrtOnSquares (fun _ _ => some oneSolution)
      ⟨false, [onePixel], [twoPixels], none⟩).2 = Outcome.returned ∧
    (updateOutputs sqrtOnSquares (fun _ _ => some oneSolution)
      ⟨false, [onePixel], [twoPixels], none⟩).1.errors =
      some ⟨[], [2], [⟨(1, 1), 100, 100, 1⟩]⟩ :=
  ⟨by decide, rfl, by decide!⟩

/-- C12 (amended, dimension mismatch): `updateOutputs` does not compare the
dimensions of the two images. For every ground truth and every reconstruction
that is at least as wide and as high, equal in size or not, every coordinate
that is scanned for overlaps lies inside both images, no usage error is
raised, and when the solver answers the call returns normally with the report
filled from the candidate pairs found over the coordinates of the ground
truth. -/
theorem dimension_mismatch (sqrt : ℚ → ℚ) (solver : LinearSolver) (a b : Image)
    (errors : Option DetectionOverlapErrors)
    (hcover : a.width ≤ b.width ∧ a.height ≤ b.height) :
    (∀ p ∈ pixels a.width a.height, p.1 < b.width ∧ p.2 < b.height) ∧
    (updateOutputs sqrt solver ⟨false, [a], [b], errors⟩).2 ≠ Outcome.usageError ∧
    (∀ solution,
      solver (buildProblem sqrt a b).objective (buildProblem sqrt a b).constraints =
        some solution →
      (updateOutputs sqrt solver ⟨false, [a], [b], errors⟩).2 = Outcome.returned ∧
      (updateOutputs sqrt solver ⟨false, [a], [b], errors⟩).1.errors =
        some (interpret (buildProblem sqrt a b) solution
          (errors.getD DetectionOverlapErrors.empty))) ∧
    (∀ q, q ∈ (buildProblem sqrt a b).overlaps.overlapPairs ↔
      q.1 ≠ 0 ∧ q.2 ≠ 0 ∧
        ∃ x y, x < a.width ∧ y < a.height ∧ a.pixel x y = q.1 ∧ b.pixel x y = q.2) := by
  refine ⟨?_, ?_, ?_, fun q => mem_candidatePairs a b q⟩
  · intro p hp
    rw [mem_pixels] at hp
    exact ⟨lt_of_lt_of_le hp.1 hcover.1, lt_of_lt_of_le hp.2 hcover.2⟩
  · cases hs : solver (buildProblem sqrt a b).objective (buildProblem sqrt a b).constraints with
    | none => rw [updateOutputs_failure sqrt solver a b errors hs]; exact Outcome.noConfusion
    | some solution =>
      rw [updateOutputs_answer sqrt solver a b errors solution hs]; exact Outcome.noConfusion
  · intro solution hs
    rw [updateOutputs_answer sqrt solver a b errors solution hs]
    exact ⟨rfl, rfl⟩

/-- Witness of C12 (amended) on the 1 x 1 ground truth and the 2 x 1
reconstruction. -/
theorem dimension_mismatch_witness :
    (onePixel.width ≤ twoPixels.width ∧ onePixel.height ≤ twoPixels.height) ∧
    onePixel.width ≠ twoPixels.width ∧
    (updateOutputs sqrtOnSquares (fun _ _ => some oneSolution)
      ⟨false, [onePixel], [twoPixels], none⟩).2 ≠ Outcome.usageError ∧
    (updateOutputs sqrtOnSquares (fun _ _ => some oneSolution)
      ⟨false, [onePixel], [twoPixels], none⟩).2 = Outcome.returned :=
  ⟨by decide, by decide,
    (dimension_mismatch sqrtOnSquares (fun _ _ => some oneSolution) onePixel twoPixels none
      (by decide)).2.1,
    ((dimension_mismatch sqrtOnSquares (fun _ _ => some oneSolution) onePixel twoPixels none
      (by decide)).2.2.1 oneSolution rfl).1⟩

/-- C13 fails on the code: a second call of `updateOutputs` on the same node
keeps the report of the first call and appends to it. On the two-region
example with a solver that always selects variable 1, the first call leaves
one tuple, the second call two copies of it; the false-negative and
false-positive sets are the same after both calls. -/
theorem second_run_appends :
    (updateOutputs sqrtOnSquares (fun _ _ => some secondSolution)
      ⟨false, [exampleGt], [exampleRec], none⟩).1.errors =
      some ⟨[1], [7], [⟨(2, 5), 20, 100 / 3, 1 / 3⟩]⟩ ∧
    (updateOutputs sqrtOnSquares (fun _ _ => some secondSolution)
      (updateOutputs sqrtOnSquares (fun _ _ => some secondSolution)
        ⟨false, [exampleGt], [exampleRec], none⟩).1).1.errors =
      some ⟨[1], [7], [⟨(2, 5), 20, 100 / 3, 1 / 3⟩, ⟨(2, 5), 20, 100 / 3, 1 / 3⟩]⟩ ∧
    (updateOutputs sqrtOnSquares (fun _ _ => some secondSolution)
      (updateOutputs sqrtOnSquares (fun _ _ => some secondSolution)
        ⟨false, [exampleGt], [exampleRec], none⟩).1).1.errors ≠
    (updateOutputs sqrtOnSquares (fun _ _ => some secondSolution)
      ⟨false, [exampleGt], [exampleRec], none⟩).1.errors := by
  refine ⟨by decide!, by decide!, by decide!⟩

end Ted
